import Mathlib

/-!
Verification development for the query-session pool and the query client
of a node driver for a remote query service.

Embedded source files:
* src/src/query/query-session-pool.ts : class QuerySessionPool (acquire,
  maybeUseSession, createSession, deleteSession) — embedded as an explicit
  event-loop transition system on a PoolState.  Every atomic step models one
  synchronous JavaScript execution span (a callback together with the
  microtasks of already-resolved promises chained to it); the interleaving
  of asynchronous completions is modelled by the choice of the event list.
* src/unnamed/part_000 : class QueryClient (do, doTx) — one retry attempt of
  QueryClient.do is embedded as a pure function from the call options and an
  oracle describing the behaviour of the user callback / commit / rollback
  RPCs to the attempt result plus the sequence of session actions.

The QuerySession state machine (busy/closing/deleted flags, isFree,
acquire, release, delete) and the RetryStrategy live in repository files
that are not part of src/; those parts are modelled from the spec and are
marked as such in their doc comments.
-/

namespace YdbPool

/-- Modelled from the spec: the mutable state of a QuerySession that the pool
reads (query-session.ts is not under src/).  Spec section 4.1: states Free,
Busy, Closing, Deleted, tracked here by the three flags; sid is the session
identity. -/
structure Sess where
  sid : Nat
  busy : Bool
  closing : Bool
  deleted : Bool
deriving Repr, DecidableEq

/-- Modelled from the spec: isFree() — a session is free when it is neither
busy, nor marked closing, nor deleted (spec 4.1: acquire is valid only from
the Free state, which is distinct from Busy, Closing and Deleted). -/
def sessionIsFree (s : Sess) : Bool := !s.busy && !s.closing && !s.deleted

/-- A fresh session as produced by SessionBuilder.create: all flags clear. -/
def initSess (sid : Nat) : Sess :=
  { sid := sid, busy := false, closing := false, deleted := false }

/-- An entry of QuerySessionPool.waiters.  The source stores resolver
callbacks; we record the identity of the pending acquire, whether a timeout
timer was armed for it (acquire's timeout argument was nonzero), and whether
it is the internal waiter pushed by deleteSession's replacement acquire. -/
structure Waiter where
  wid : Nat
  hasTimeout : Bool
  internal : Bool
deriving Repr, DecidableEq

/-- A pending createSession call: requested either on behalf of a caller of
acquire (line 174 of query-session-pool.ts) or on behalf of deleteSession's
replacement acquire (line 151). -/
inductive CreateTok
  | forCaller (cid : Nat)
  | forDelete
deriving Repr, DecidableEq

/-- The recipient of a session hand-out: a direct caller of acquire, an
external waiter (a queued acquire call), or the internal waiter queued by
deleteSession's replacement acquire. -/
inductive Tgt
  | caller (cid : Nat)
  | extWaiter (wid : Nat)
  | intWaiter (wid : Nat)
deriving Repr, DecidableEq

/-- Observable outputs of a pool step, used to state trace properties.
handout: a session is delivered to a recipient (the recipient's promise is
resolved with the session, which sessionAcquire marks busy);
released: session[sessionReleaseSymbol] ran (busy cleared);
evicted: deleteSession committed to deleting the session (counters bumped,
remote delete issued);
enq: a waiter was pushed onto the queue (with its internal/timeout flags);
timedOut: a waiter's timeout fired, it was spliced out and its acquire call
rejected with SessionPoolEmpty. -/
inductive Output
  | handout (t : Tgt) (sid : Nat)
  | released (sid : Nat)
  | evicted (sid : Nat)
  | enq (wid : Nat) (internal : Bool) (hasTimeout : Bool)
  | timedOut (wid : Nat)
deriving Repr, DecidableEq

/-- The state of QuerySessionPool: the live-session set (JavaScript Set
iterates in insertion order, hence a list), the two in-flight counters, the
FIFO waiter queue, and bookkeeping lists for in-flight createSession and
session.delete calls.  nextSid/nextWid supply fresh identities. -/
structure PoolState where
  maxLimit : Nat
  sessions : List Sess
  newSessionsRequested : Nat
  sessionsBeingDeleted : Nat
  waiters : List Waiter
  pendingCreates : List CreateTok
  pendingDeletes : List Nat
  nextSid : Nat
  nextWid : Nat
deriving Repr, DecidableEq

/-- The quantity of the admission gate on line 172 of query-session-pool.ts:
this.sessions.size + this.newSessionsRequested - this.sessionsBeingDeleted,
as an integer exactly as JavaScript arithmetic computes it. -/
def effectiveSize (st : PoolState) : Int :=
  (st.sessions.length : Int) + (st.newSessionsRequested : Int)
    - (st.sessionsBeingDeleted : Int)

/-- Set the busy flag of the session with the given sid (models
session[sessionAcquireSymbol] / the busy-clearing part of release). -/
def setBusy (l : List Sess) (sid : Nat) (b : Bool) : List Sess :=
  l.map fun s => if s.sid = sid then { s with busy := b } else s

/-- Mark the session with the given sid deleted (models the idempotence
flag set by session.delete; spec 4.1: delete() is a no-op on an already
deleted session). -/
def setDeleted (l : List Sess) (sid : Nat) : List Sess :=
  l.map fun s => if s.sid = sid then { s with deleted := true } else s

/-- Mark the session with the given sid closing (models the spec's
markForDeleteOnRelease, set when the attach stream ends while the session
is held). -/
def setClosing (l : List Sess) (sid : Nat) : List Sess :=
  l.map fun s => if s.sid = sid then { s with closing := true } else s

/-- Models maybeUseSession (query-session-pool.ts lines 115-124) together
with the continuations of the waiters it resolves.  Resolving an external
waiter hands it the session (its resolver marks the session busy) and
stops.  Resolving the internal waiter pushed by deleteSession runs its
continuation (line 152): maybeUseSession again on the rest of the queue; if
that pops nobody the continuation releases the session (line 153), so the
session ends not busy.  Returns (remaining queue, outputs, ends-busy). -/
def useWaiterChain (sid : Nat) : List Waiter → List Waiter × List Output × Bool
  | [] => ([], [], false)
  | w :: rest =>
    if w.internal then
      match rest with
      | [] => ([], [Output.handout (Tgt.intWaiter w.wid) sid, Output.released sid], false)
      | r :: rs =>
        let c := useWaiterChain sid (r :: rs)
        (c.1, Output.handout (Tgt.intWaiter w.wid) sid :: c.2.1, c.2.2)
    else
      (rest, [Output.handout (Tgt.extWaiter w.wid) sid], true)

/-- Models lines 150-156 of deleteSession: when waiters are pending, issue
this.acquire() on their behalf and run the immediately available part of
the continuation of line 151: the acquire scans for a free session (whose
promise resolves at once, so the continuation hands it down the waiter
chain), or requests a creation when the admission gate passes (the
continuation then runs at createDone), or enqueues an internal waiter. -/
def replacementAcquire (st1 : PoolState) : PoolState × List Output :=
  if st1.waiters.isEmpty then (st1, [])
  else
    match st1.sessions.find? sessionIsFree with
    | some t =>
      let c := useWaiterChain t.sid st1.waiters
      ({ st1 with sessions := setBusy st1.sessions t.sid c.2.2,
                  waiters := c.1 }, c.2.1)
    | none =>
      if effectiveSize st1 ≤ (st1.maxLimit : Int) then
        ({ st1 with newSessionsRequested := st1.newSessionsRequested + 1,
                    pendingCreates := st1.pendingCreates ++ [CreateTok.forDelete] }, [])
      else
        ({ st1 with waiters := st1.waiters ++
                      [{ wid := st1.nextWid, hasTimeout := false, internal := true }],
                    nextWid := st1.nextWid + 1 },
         [Output.enq st1.nextWid true false])

/-- Models the synchronous part of QuerySessionPool.deleteSession
(lines 143-163) applied to the session with the given sid: if the session
is already deleted, return at once without touching any counter
(lines 144-146); otherwise increment sessionsBeingDeleted, run the
replacement acquire for pending waiters, then call session.delete(), which
marks the session deleted and leaves the remote delete in flight
(completion is the deleteDone event). -/
def deleteSessionStart (st : PoolState) (sid : Nat) : PoolState × List Output :=
  match st.sessions.find? (fun s => s.sid = sid) with
  | none => (st, [])
  | some s =>
    if s.deleted then (st, [])
    else
      let p := replacementAcquire
        { st with sessionsBeingDeleted := st.sessionsBeingDeleted + 1 }
      ({ p.1 with sessions := setDeleted p.1.sessions sid,
                  pendingDeletes := p.1.pendingDeletes ++ [sid] },
       p.2 ++ [Output.evicted sid])

/-- Asynchronous events delivered to the pool's event loop.
acquireStart cid t: a caller invokes acquire (t records timeout > 0);
createDone i: the i-th pending createSession RPC resolves;
createFail i: the i-th pending createSession RPC rejects;
releaseSig sid: the holder of the session releases it (SESSION_RELEASE);
brokenSig sid: the holder signals the session broken (SESSION_BROKEN);
markClosing sid: the attach stream of a held session ended, marking it for
delete-on-release (modelled from the spec, query-session.ts not in src/);
deleteDone sid: the in-flight session.delete RPC of that session settles;
timeoutFire wid: the timeout timer of a queued waiter fires. -/
inductive Ev
  | acquireStart (cid : Nat) (hasTimeout : Bool)
  | createDone (i : Nat)
  | createFail (i : Nat)
  | releaseSig (sid : Nat)
  | brokenSig (sid : Nat)
  | markClosing (sid : Nat)
  | deleteDone (sid : Nat)
  | timeoutFire (wid : Nat)
deriving Repr, DecidableEq

/-- One atomic step of the pool.  Guards encode the protocol of the only
producers of each event in the program: releaseSig and brokenSig are
emitted by QueryClient.do's finally block for the session it acquired and
has not yet given back (so the session is busy and not deleted, and exactly
one of the two signals is emitted per hold); a guard failure makes the
event a no-op. -/
def stepPool (st : PoolState) (e : Ev) : PoolState × List Output :=
  match e with
  | Ev.acquireStart cid _hasTimeout =>
    -- acquire, lines 165-201: scan for a free session, else admission gate,
    -- else enqueue a waiter.
    match st.sessions.find? sessionIsFree with
    | some t =>
      ({ st with sessions := setBusy st.sessions t.sid true },
       [Output.handout (Tgt.caller cid) t.sid])
    | none =>
      if effectiveSize st ≤ (st.maxLimit : Int) then
        ({ st with newSessionsRequested := st.newSessionsRequested + 1,
                   pendingCreates := st.pendingCreates ++ [CreateTok.forCaller cid] }, [])
      else
        ({ st with waiters := st.waiters ++
                     [{ wid := st.nextWid, hasTimeout := _hasTimeout, internal := false }],
                   nextWid := st.nextWid + 1 },
         [Output.enq st.nextWid false _hasTimeout])
  | Ev.createDone i =>
    -- createSession resolves (lines 126-141) together with the chained
    -- microtasks: acquire's .then marks the new session busy and hands it
    -- to the caller, then .finally decrements newSessionsRequested; for the
    -- deleteSession replacement acquire, the .then of line 151 hands the
    -- session to the next waiter or releases it.
    match st.pendingCreates.get? i with
    | none => (st, [])
    | some tok =>
      let sid := st.nextSid
      let base := { st with
        pendingCreates := st.pendingCreates.eraseIdx i,
        newSessionsRequested := st.newSessionsRequested - 1,
        nextSid := sid + 1,
        sessions := st.sessions ++ [initSess sid] }
      match tok with
      | CreateTok.forCaller cid =>
        ({ base with sessions := setBusy base.sessions sid true },
         [Output.handout (Tgt.caller cid) sid])
      | CreateTok.forDelete =>
        match base.waiters with
        | [] => (base, [Output.released sid])
        | w :: ws =>
          let c := useWaiterChain sid (w :: ws)
          ({ base with sessions := setBusy base.sessions sid c.2.2,
                       waiters := c.1 }, c.2.1)
  | Ev.createFail i =>
    -- createSession rejects: only the .finally of line 178 runs.
    if i < st.pendingCreates.length then
      ({ st with pendingCreates := st.pendingCreates.eraseIdx i,
                 newSessionsRequested := st.newSessionsRequested - 1 }, [])
    else (st, [])
  | Ev.releaseSig sid =>
    -- session release: busy is cleared, then the SESSION_RELEASE handler
    -- (lines 129-135) deletes a closing session or runs maybeUseSession.
    match st.sessions.find? (fun s => s.sid = sid) with
    | none => (st, [])
    | some s =>
      if s.busy && !s.deleted then
        let st1 := { st with sessions := setBusy st.sessions sid false }
        if s.closing then
          let p := deleteSessionStart st1 sid
          (p.1, Output.released sid :: p.2)
        else
          let c := useWaiterChain sid st1.waiters
          ({ st1 with sessions := setBusy st1.sessions sid c.2.2,
                      waiters := c.1 },
           Output.released sid :: c.2.1)
      else (st, [])
  | Ev.brokenSig sid =>
    -- SESSION_BROKEN handler, lines 136-138: delete unconditionally.
    match st.sessions.find? (fun s => s.sid = sid) with
    | none => (st, [])
    | some s =>
      if s.busy && !s.deleted then deleteSessionStart st sid
      else (st, [])
  | Ev.markClosing sid =>
    -- Modelled from the spec: the attach stream of a busy session ended;
    -- the next release turns into a deletion (spec 4.1).
    match st.sessions.find? (fun s => s.sid = sid) with
    | none => (st, [])
    | some s =>
      if s.busy && !s.deleted then
        ({ st with sessions := setClosing st.sessions sid }, [])
      else (st, [])
  | Ev.deleteDone sid =>
    -- the .finally of session.delete() (lines 159-162): remove the session
    -- from the live set and decrement sessionsBeingDeleted.
    if sid ∈ st.pendingDeletes then
      ({ st with pendingDeletes := st.pendingDeletes.erase sid,
                 sessionsBeingDeleted := st.sessionsBeingDeleted - 1,
                 sessions := st.sessions.filter (fun s => s.sid ≠ sid) }, [])
    else (st, [])
  | Ev.timeoutFire wid =>
    -- the setTimeout callback of lines 191-196: splice the waiter out and
    -- reject its acquire with SessionPoolEmpty.  The timer exists only for
    -- external waiters armed with a timeout, and resolution clears it.
    match st.waiters.find? (fun w => w.wid = wid) with
    | none => (st, [])
    | some w =>
      if w.hasTimeout && !w.internal then
        ({ st with waiters := st.waiters.eraseP (fun w2 => w2.wid = wid) },
         [Output.timedOut wid])
      else (st, [])

/-- Run a list of events from a state, collecting all outputs in order. -/
def runPool : PoolState → List Ev → PoolState × List Output
  | st, [] => (st, [])
  | st, e :: es =>
    let p := stepPool st e
    let q := runPool p.1 es
    (q.1, p.2 ++ q.2)

/-- The pool as the constructor builds it (lines 79-81): no sessions, both
counters zero, no waiters. -/
def initPool (m : Nat) : PoolState :=
  { maxLimit := m, sessions := [], newSessionsRequested := 0,
    sessionsBeingDeleted := 0, waiters := [], pendingCreates := [],
    pendingDeletes := [], nextSid := 0, nextWid := 0 }

/-- Hand-out / release marks of one session id in an output trace, in
order: true for a delivery to a caller or to an external waiter, false for
a release.  Internal hand-offs of deleteSession's plumbing are not
deliveries to callers and carry no mark. -/
def sidMarks (sid : Nat) (outs : List Output) : List Bool :=
  outs.filterMap fun o =>
    match o with
    | Output.handout (Tgt.caller _) s => if s = sid then some true else none
    | Output.handout (Tgt.extWaiter _) s => if s = sid then some true else none
    | Output.handout (Tgt.intWaiter _) _ => none
    | Output.released s => if s = sid then some false else none
    | _ => none

/-- The waiters resolved by hand-outs, in resolution order, as pairs of
(wid, internal flag). -/
def resolvedPairs (outs : List Output) : List (Nat × Bool) :=
  outs.filterMap fun o =>
    match o with
    | Output.handout (Tgt.extWaiter w) _ => some (w, false)
    | Output.handout (Tgt.intWaiter w) _ => some (w, true)
    | _ => none

/-- The waiters enqueued, in enqueue order, as pairs of (wid, internal). -/
def enqPairs (outs : List Output) : List (Nat × Bool) :=
  outs.filterMap fun o =>
    match o with
    | Output.enq w i _ => some (w, i)
    | _ => none

/-- The wids whose acquire timed out, in order. -/
def timedOutWids (outs : List Output) : List Nat :=
  outs.filterMap fun o =>
    match o with
    | Output.timedOut w => some w
    | _ => none

/-- Resolution order restricted to external waiters (queued acquire calls). -/
def extResolvedWids (outs : List Output) : List Nat :=
  ((resolvedPairs outs).filter (fun p => !p.2)).map (fun p => p.1)

/-- Enqueue order restricted to external waiters. -/
def extEnqWids (outs : List Output) : List Nat :=
  ((enqPairs outs).filter (fun p => !p.2)).map (fun p => p.1)

/-- Wids of the current waiter queue. -/
def waiterWids (st : PoolState) : List Nat := st.waiters.map (fun w => w.wid)

/-- Waiter queue as (wid, internal) pairs. -/
def waiterPairs (st : PoolState) : List (Nat × Bool) :=
  st.waiters.map (fun w => (w.wid, w.internal))

/-- Does an output deliver the session with the given sid to somebody. -/
def isHandoutOfSid (sid : Nat) (o : Output) : Bool :=
  match o with
  | Output.handout _ s => s = sid
  | _ => false

/-- Wids of the enq labels of a trace. -/
def enqWids (outs : List Output) : List Nat := (enqPairs outs).map (fun p => p.1)

/-- Wids of the resolved labels of a trace. -/
def resolvedWids (outs : List Output) : List Nat :=
  (resolvedPairs outs).map (fun p => p.1)

/-- State invariant of the pool, maintained by every event:
counters agree with the in-flight bookkeeping lists, pending deletes are
distinct live sessions already marked deleted, session ids and waiter ids
are distinct and below their freshness counters, the admission quantity
never exceeds maxLimit + 1, and a nonempty waiter queue coexists with no
free session. -/
def PoolInv (st : PoolState) : Prop :=
  st.newSessionsRequested = st.pendingCreates.length ∧
  st.sessionsBeingDeleted = st.pendingDeletes.length ∧
  st.pendingDeletes.Nodup ∧
  (∀ sid ∈ st.pendingDeletes, ∃ s ∈ st.sessions, s.sid = sid ∧ s.deleted = true) ∧
  (st.sessions.map Sess.sid).Nodup ∧
  (∀ s ∈ st.sessions, s.sid < st.nextSid) ∧
  (∀ w ∈ st.waiters, w.wid < st.nextWid) ∧
  (waiterWids st).Nodup ∧
  effectiveSize st ≤ (st.maxLimit : Int) + 1 ∧
  (st.waiters ≠ [] → ∀ s ∈ st.sessions, sessionIsFree s = false)

/-- Relation between adjacent hand-out/release marks of one session: two
adjacent hand-outs of the same session with no release in between never
happen. -/
def marksStep (a b : Bool) : Prop := a = false ∨ b = false

/-- A session on which the pool started a delete is never handed out
afterwards, stated over an output trace by positions. -/
def noHandoutAfterEvicted (outs : List Output) : Prop :=
  ∀ i j sid, i < j → outs.get? i = some (Output.evicted sid) →
    ∀ t, outs.get? j ≠ some (Output.handout t sid)

/-- Enqueue labels with all their data: (wid, internal, hasTimeout). -/
def enqFull (outs : List Output) : List (Nat × Bool × Bool) :=
  outs.filterMap fun o =>
    match o with
    | Output.enq w i t => some (w, i, t)
    | _ => none

/-- Inductive trace invariant relating a pool state to the outputs produced
so far, for the per-session properties: every session id mentioned by a
hand-out, release or evicted label is below the freshness counter; once a
session is evicted every live copy of it is marked deleted; the hand-out /
release marks of every session alternate (no second hand-out before a
release); a session whose last mark is a hand-out is busy; and no session
is handed out after its eviction. -/
def SidTraceInv (st : PoolState) (outs : List Output) : Prop :=
  (∀ t x, Output.handout t x ∈ outs → x < st.nextSid) ∧
  (∀ x, Output.released x ∈ outs → x < st.nextSid) ∧
  (∀ x, Output.evicted x ∈ outs →
    x < st.nextSid ∧ ∀ s ∈ st.sessions, s.sid = x → s.deleted = true) ∧
  (∀ sid, List.Chain' marksStep (sidMarks sid outs)) ∧
  (∀ sid, (sidMarks sid outs).getLast? = some true →
    ∀ s ∈ st.sessions, s.sid = sid → s.busy = true) ∧
  noHandoutAfterEvicted outs

/-- Inductive trace invariant for the waiter-queue properties: the enqueue
labels split into a part embedding the resolutions (in order) and a part
embedding the current queue (FIFO hand-off); every queued waiter carries an
enqueue label with its exact flags; enqueued wids are distinct and below
the freshness counter, as are resolved and timed-out wids; a timed-out wid
was enqueued external with a timeout, is out of the queue and is never a
resolution; a queued waiter has been neither resolved nor timed out. -/
def WaitTraceInv (st : PoolState) (outs : List Output) : Prop :=
  (∃ A B, enqPairs outs = A ++ B ∧ (resolvedPairs outs).Sublist A ∧
    (waiterPairs st).Sublist B) ∧
  (∀ w ∈ st.waiters, Output.enq w.wid w.internal w.hasTimeout ∈ outs) ∧
  ((enqFull outs).map (fun p => p.1)).Nodup ∧
  (∀ p ∈ enqFull outs, p.1 < st.nextWid) ∧
  (∀ x ∈ resolvedWids outs, x < st.nextWid) ∧
  (∀ x ∈ timedOutWids outs, x < st.nextWid) ∧
  (∀ wid ∈ timedOutWids outs, wid ∉ resolvedWids outs ∧ wid ∉ waiterWids st ∧
    Output.enq wid false true ∈ outs) ∧
  (∀ w ∈ st.waiters, w.wid ∉ resolvedWids outs ∧ w.wid ∉ timedOutWids outs)

end YdbPool

namespace YdbClient

/-- The error taxonomy consumed by QueryClient.do (src/unnamed/part_000):
BadSession and SessionBusy short-circuit the rollback-on-failure path and
drive eviction; other stands for every other error, tagged with a code so
that distinct errors are distinguishable. -/
inductive QErr
  | badSession
  | sessionBusy
  | other (code : Nat)
deriving Repr, DecidableEq

/-- The test err instanceof BadSession or err instanceof SessionBusy used on
lines 88 and 112 of part_000. -/
def isSessionErr : QErr → Bool
  | QErr.badSession => true
  | QErr.sessionBusy => true
  | QErr.other _ => false

/-- The call options of QueryClient.do relevant to one attempt: the optional
transaction settings (modelled as an opaque numeric token; only presence and
identity matter) and the optional explicit idempotent flag (hasIdempotent
models opts.hasOwnProperty, line 77). -/
structure DoOpts where
  txSettings : Option Nat
  hasIdempotent : Bool
  idempotent : Bool
deriving Repr, DecidableEq

/-- Oracle for the environment of one attempt of QueryClient.do: what the
user callback does (its result or thrown error), the transaction id left
open on the session when the callback finishes (session[sessionTxIdSymbol]),
and whether the rollback / commit RPCs, if issued, fail (spec 4.1:
rollbackTransaction and commitTransaction surface their failure to the
caller). -/
structure FnBehavior (T : Type) where
  outcome : Except QErr T
  txIdAfter : Option Nat
  rollbackErr : Option QErr
  commitErr : Option QErr

/-- Session-level actions performed by one attempt, in program order. -/
inductive SessAction
  | rollbackTx
  | commitTx
  | emitBroken
  | releaseSession
deriving Repr, DecidableEq

/-- The value an attempt returns to the retry loop: the {result} object or
the {err, idempotent} object of lines 102 and 105 of part_000. -/
inductive AttemptRes (T : Type)
  | ok (v : T)
  | fail (e : QErr) (idem : Option Bool)
deriving Repr, DecidableEq

/-- The terminal action of the finally block (lines 112-117): signal the
session broken when the recorded error is BadSession or SessionBusy,
release it otherwise. -/
def terminalAction (e : QErr) : SessAction :=
  if isSessionErr e then SessAction.emitBroken else SessAction.releaseSession

/-- The idempotency verdict an attempt reports with a failure (part_000
lines 77-79 and 105): opts.idempotent when the caller supplied the flag
(hasOwnProperty), absent otherwise. -/
def doIdem (opts : DoOpts) : Option Bool :=
  if opts.hasIdempotent then some opts.idempotent else none

/-- One attempt of QueryClient.do (part_000 lines 74-118) as a pure
function.  Follows the source control flow exactly: the inner catch rolls
back when a transaction is open and the error is not a session error — and
if that rollback itself rejects, its error (not the original one) escapes
to the outer catch, because the rethrow of the original error on line 91 is
never reached; on callback success an open transaction is committed when
txSettings was supplied and rolled back otherwise; the finally block
classifies the recorded error to choose between SESSION_BROKEN and release.
Returns the attempt result plus the session actions in order. -/
def doAttempt {T : Type} (opts : DoOpts) (b : FnBehavior T) :
    AttemptRes T × List SessAction :=
  let idem : Option Bool := if opts.hasIdempotent then some opts.idempotent else none
  match b.outcome with
  | Except.error e =>
    if b.txIdAfter.isSome && !isSessionErr e then
      match b.rollbackErr with
      | some re =>
        (AttemptRes.fail re idem, [SessAction.rollbackTx, terminalAction re])
      | none =>
        (AttemptRes.fail e idem, [SessAction.rollbackTx, terminalAction e])
    else
      (AttemptRes.fail e idem, [terminalAction e])
  | Except.ok v =>
    match b.txIdAfter with
    | some _ =>
      if opts.txSettings.isSome then
        match b.commitErr with
        | some ce =>
          (AttemptRes.fail ce idem, [SessAction.commitTx, terminalAction ce])
        | none =>
          (AttemptRes.ok v, [SessAction.commitTx, SessAction.releaseSession])
      else
        match b.rollbackErr with
        | some re =>
          (AttemptRes.fail re idem, [SessAction.rollbackTx, terminalAction re])
        | none =>
          (AttemptRes.ok v, [SessAction.rollbackTx, SessAction.releaseSession])
    | none => (AttemptRes.ok v, [SessAction.releaseSession])

/-- Modelled from the spec: AUTO_TX.beginTx, the standard auto-begin
transaction settings imported from the table module (not under src/),
treated as an opaque token. -/
def AUTO_TX_beginTx : Nat := 0

/-- QueryClient.doTx's defaulting of txSettings (part_000 lines 123-129):
a copy of the options extended with AUTO_TX.beginTx when the caller did not
supply txSettings, the unchanged options otherwise. -/
def doTxOpts (opts : DoOpts) : DoOpts :=
  if opts.txSettings.isNone then { opts with txSettings := some AUTO_TX_beginTx }
  else opts

/-- One attempt of QueryClient.doTx: doTx only defaults the options and
delegates to do. -/
def doTxAttempt {T : Type} (opts : DoOpts) (b : FnBehavior T) :
    AttemptRes T × List SessAction :=
  doAttempt (doTxOpts opts) b

/-- Modelled from the spec: the retry decision of the RetryStrategy
(src/retries/retryStrategy.ts is not under src/).  Spec sections 7 and 8:
BadSession/SessionBusy failures discard the session and the operation is
retried on a fresh one; any other failure is retried only when the attempt
reported idempotent = true.  An absent idempotency verdict is treated as
not idempotent. -/
def isRetryableFailure (e : QErr) (idem : Option Bool) : Bool :=
  match e with
  | QErr.badSession => true
  | QErr.sessionBusy => true
  | QErr.other _ => idem.getD false

/-- QueryClient's retry configuration (part_000 line 60): RetryParameters
with maxRetries 0.  Modelled from the spec: maxRetries = 0 places no
attempt-count bound (the loop is bounded only by the execution context's
deadline), a positive maxRetries bounds the number of attempts. -/
def queryClientMaxRetries : Nat := 0

/-- Modelled from the spec: the RetryStrategy's retry loop.  It consumes a
prescribed finite sequence of attempt outcomes: it stops at the first
success, stops at the first failure that is not retryable under its
idempotency verdict, stops when a positive maxRetries budget is spent, and
reports none when the prescribed outcomes run out while it would still
retry.  Returns the final outcome and the number of attempts performed. -/
def retryExec {T : Type} (maxRetries : Nat) :
    List (AttemptRes T) → Nat → Option (Except QErr T) × Nat
  | [], _ => (none, 0)
  | a :: rest, made =>
    match a with
    | AttemptRes.ok v => (some (Except.ok v), 1)
    | AttemptRes.fail e idem =>
      if isRetryableFailure e idem && (maxRetries = 0 || made + 1 < maxRetries) then
        let r := retryExec maxRetries rest (made + 1)
        (r.1, r.2 + 1)
      else
        (some (Except.error e), 1)

end YdbClient

namespace YdbPool

theorem setBusy_map_sid (l : List Sess) (sid : Nat) (b : Bool) :
    (setBusy l sid b).map Sess.sid = l.map Sess.sid := by
  induction l with
  | nil => rfl
  | cons s t ih =>
    simp only [setBusy, List.map_cons] at ih ⊢
    by_cases h : s.sid = sid <;> simp [h, ih]

theorem setDeleted_map_sid (l : List Sess) (sid : Nat) :
    (setDeleted l sid).map Sess.sid = l.map Sess.sid := by
  induction l with
  | nil => rfl
  | cons s t ih =>
    simp only [setDeleted, List.map_cons] at ih ⊢
    by_cases h : s.sid = sid <;> simp [h, ih]

theorem setClosing_map_sid (l : List Sess) (sid : Nat) :
    (setClosing l sid).map Sess.sid = l.map Sess.sid := by
  induction l with
  | nil => rfl
  | cons s t ih =>
    simp only [setClosing, List.map_cons] at ih ⊢
    by_cases h : s.sid = sid <;> simp [h, ih]

theorem setBusy_length (l : List Sess) (sid : Nat) (b : Bool) :
    (setBusy l sid b).length = l.length := by simp [setBusy]

theorem setDeleted_length (l : List Sess) (sid : Nat) :
    (setDeleted l sid).length = l.length := by simp [setDeleted]

theorem setClosing_length (l : List Sess) (sid : Nat) :
    (setClosing l sid).length = l.length := by simp [setClosing]

theorem mem_setBusy (l : List Sess) (sid : Nat) (b : Bool) (s' : Sess) :
    s' ∈ setBusy l sid b ↔
      ∃ s ∈ l, s' = if s.sid = sid then { s with busy := b } else s := by
  simp [setBusy, List.mem_map, eq_comm]

theorem mem_setDeleted (l : List Sess) (sid : Nat) (s' : Sess) :
    s' ∈ setDeleted l sid ↔
      ∃ s ∈ l, s' = if s.sid = sid then { s with deleted := true } else s := by
  simp [setDeleted, List.mem_map, eq_comm]

theorem mem_setClosing (l : List Sess) (sid : Nat) (s' : Sess) :
    s' ∈ setClosing l sid ↔
      ∃ s ∈ l, s' = if s.sid = sid then { s with closing := true } else s := by
  simp [setClosing, List.mem_map, eq_comm]

theorem resolvedPairs_nil : resolvedPairs [] = [] := rfl

theorem resolvedPairs_cons_int (w x : Nat) (l : List Output) :
    resolvedPairs (Output.handout (Tgt.intWaiter w) x :: l) =
      (w, true) :: resolvedPairs l := rfl

theorem resolvedPairs_cons_ext (w x : Nat) (l : List Output) :
    resolvedPairs (Output.handout (Tgt.extWaiter w) x :: l) =
      (w, false) :: resolvedPairs l := rfl

theorem resolvedPairs_cons_rel (x : Nat) (l : List Output) :
    resolvedPairs (Output.released x :: l) = resolvedPairs l := rfl

theorem uc_sublist (sid : Nat) (q : List Waiter) :
    (useWaiterChain sid q).1.Sublist q := by
  induction q with
  | nil => unfold useWaiterChain; simp
  | cons w rest ih =>
    cases hw : w.internal with
    | false =>
      unfold useWaiterChain
      simp only [hw, Bool.false_eq_true, if_false]
      exact List.sublist_cons_self w rest
    | true =>
      cases rest with
      | nil => unfold useWaiterChain; simp [hw]
      | cons r rs =>
        unfold useWaiterChain
        simp only [hw, if_true]
        exact ih.trans (List.sublist_cons_self w (r :: rs))

theorem uc_spec (sid : Nat) (q : List Waiter) :
    ∃ k, k ≤ q.length ∧ (useWaiterChain sid q).1 = q.drop k ∧
      resolvedPairs (useWaiterChain sid q).2.1 =
        (q.take k).map (fun w => (w.wid, w.internal)) := by
  induction q with
  | nil => exact ⟨0, by unfold useWaiterChain; simp [resolvedPairs_nil]⟩
  | cons w rest ih =>
    cases hw : w.internal with
    | false =>
      refine ⟨1, by simp, ?_, ?_⟩
      · unfold useWaiterChain; simp [hw]
      · unfold useWaiterChain
        simp only [hw, Bool.false_eq_true, if_false]
        simp [resolvedPairs_cons_ext, resolvedPairs_nil, hw]
    | true =>
      cases rest with
      | nil =>
        refine ⟨1, by simp, ?_, ?_⟩
        · unfold useWaiterChain; simp [hw]
        · unfold useWaiterChain
          simp only [hw, if_true]
          simp [resolvedPairs_cons_int, resolvedPairs_cons_rel, resolvedPairs_nil, hw]
      | cons r rs =>
        obtain ⟨k, hk, h1, h2⟩ := ih
        refine ⟨k + 1, by simpa using hk, ?_, ?_⟩
        · unfold useWaiterChain
          simp only [hw, if_true]
          simpa using h1
        · unfold useWaiterChain
          simp only [hw, if_true]
          simp [resolvedPairs_cons_int, h2, hw]

theorem uc_outs_shape (sid : Nat) (q : List Waiter) :
    ∀ o ∈ (useWaiterChain sid q).2.1,
      (∃ t, o = Output.handout t sid) ∨ o = Output.released sid := by
  induction q with
  | nil => unfold useWaiterChain; simp
  | cons w rest ih =>
    cases hw : w.internal with
    | false =>
      intro o ho
      unfold useWaiterChain at ho
      simp only [hw, Bool.false_eq_true, if_false, List.mem_singleton] at ho
      subst ho
      exact Or.inl ⟨_, rfl⟩
    | true =>
      cases rest with
      | nil =>
        intro o ho
        unfold useWaiterChain at ho
        simp only [hw, if_true, List.mem_cons, List.not_mem_nil, or_false] at ho
        rcases ho with rfl | rfl
        · exact Or.inl ⟨_, rfl⟩
        · exact Or.inr rfl
      | cons r rs =>
        intro o ho
        unfold useWaiterChain at ho
        simp only [hw, if_true, List.mem_cons] at ho
        rcases ho with rfl | ho
        · exact Or.inl ⟨_, rfl⟩
        · exact ih o ho

theorem uc_enqPairs (sid : Nat) (q : List Waiter) :
    enqPairs (useWaiterChain sid q).2.1 = [] := by
  rw [enqPairs, List.filterMap_eq_nil_iff]
  intro o ho
  rcases uc_outs_shape sid q o ho with ⟨t, rfl⟩ | rfl <;> rfl

theorem uc_timedOut (sid : Nat) (q : List Waiter) :
    timedOutWids (useWaiterChain sid q).2.1 = [] := by
  rw [timedOutWids, List.filterMap_eq_nil_iff]
  intro o ho
  rcases uc_outs_shape sid q o ho with ⟨t, rfl⟩ | rfl <;> rfl

theorem uc_no_evicted (sid x : Nat) (q : List Waiter) :
    Output.evicted x ∉ (useWaiterChain sid q).2.1 := by
  intro h
  rcases uc_outs_shape sid q _ h with ⟨t, ht⟩ | ht <;> simp at ht

theorem uc_marks_other (sid sid' : Nat) (q : List Waiter) (h : sid' ≠ sid) :
    sidMarks sid' (useWaiterChain sid q).2.1 = [] := by
  rw [sidMarks, List.filterMap_eq_nil_iff]
  intro o ho
  rcases uc_outs_shape sid q o ho with ⟨t, rfl⟩ | rfl
  · cases t <;> simp [Ne.symm h]
  · simp [Ne.symm h]

theorem uc_marks (sid : Nat) (q : List Waiter) :
    sidMarks sid (useWaiterChain sid q).2.1 =
      if q.isEmpty then []
      else if (useWaiterChain sid q).2.2 then [true] else [false] := by
  induction q with
  | nil => unfold useWaiterChain; simp [sidMarks]
  | cons w rest ih =>
    cases hw : w.internal with
    | false =>
      unfold useWaiterChain
      simp only [hw, Bool.false_eq_true, if_false]
      simp [sidMarks]
    | true =>
      cases rest with
      | nil =>
        unfold useWaiterChain
        simp only [hw, if_true]
        simp [sidMarks]
      | cons r rs =>
        unfold useWaiterChain
        simp only [hw, if_true]
        simpa [sidMarks] using ih

theorem uc_handout_sid (sid x : Nat) (t : Tgt) (q : List Waiter)
    (h : Output.handout t x ∈ (useWaiterChain sid q).2.1) : x = sid := by
  rcases uc_outs_shape sid q _ h with ⟨t2, ht⟩ | ht
  · cases ht; rfl
  · cases ht

theorem uc_not_taken (sid : Nat) (q : List Waiter)
    (h : (useWaiterChain sid q).2.2 = false) : (useWaiterChain sid q).1 = [] := by
  induction q with
  | nil => unfold useWaiterChain; simp
  | cons w rest ih =>
    cases hw : w.internal with
    | false =>
      unfold useWaiterChain at h
      simp [hw] at h
    | true =>
      cases rest with
      | nil => unfold useWaiterChain; simp [hw]
      | cons r rs =>
        unfold useWaiterChain at h ⊢
        simp only [hw, if_true] at h ⊢
        exact ih h

theorem mem_setBusy_elim {l : List Sess} {sid : Nat} {b : Bool} {s2 : Sess}
    (h : s2 ∈ setBusy l sid b) :
    ∃ s ∈ l, s2.sid = s.sid ∧ s2.deleted = s.deleted ∧ s2.closing = s.closing ∧
      s2.busy = (if s.sid = sid then b else s.busy) := by
  rw [mem_setBusy] at h
  obtain ⟨s, hs, rfl⟩ := h
  refine ⟨s, hs, ?_⟩
  by_cases hc : s.sid = sid <;> simp [hc]

theorem mem_setBusy_intro {l : List Sess} (sid : Nat) (b : Bool) {s : Sess}
    (h : s ∈ l) :
    ∃ s2 ∈ setBusy l sid b, s2.sid = s.sid ∧ s2.deleted = s.deleted ∧
      s2.closing = s.closing ∧ s2.busy = (if s.sid = sid then b else s.busy) := by
  refine ⟨if s.sid = sid then { s with busy := b } else s,
    (mem_setBusy l sid b _).mpr ⟨s, h, rfl⟩, ?_⟩
  by_cases hc : s.sid = sid <;> simp [hc]

theorem mem_setDeleted_elim {l : List Sess} {x : Nat} {s2 : Sess}
    (h : s2 ∈ setDeleted l x) :
    ∃ s ∈ l, s2.sid = s.sid ∧ s2.busy = s.busy ∧ s2.closing = s.closing ∧
      s2.deleted = (if s.sid = x then true else s.deleted) := by
  rw [mem_setDeleted] at h
  obtain ⟨s, hs, rfl⟩ := h
  refine ⟨s, hs, ?_⟩
  by_cases hc : s.sid = x <;> simp [hc]

theorem mem_setDeleted_intro {l : List Sess} (x : Nat) {s : Sess} (h : s ∈ l) :
    ∃ s2 ∈ setDeleted l x, s2.sid = s.sid ∧ s2.busy = s.busy ∧
      s2.closing = s.closing ∧ s2.deleted = (if s.sid = x then true else s.deleted) := by
  refine ⟨if s.sid = x then { s with deleted := true } else s,
    (mem_setDeleted l x _).mpr ⟨s, h, rfl⟩, ?_⟩
  by_cases hc : s.sid = x <;> simp [hc]

theorem mem_setClosing_elim {l : List Sess} {x : Nat} {s2 : Sess}
    (h : s2 ∈ setClosing l x) :
    ∃ s ∈ l, s2.sid = s.sid ∧ s2.busy = s.busy ∧ s2.deleted = s.deleted ∧
      s2.closing = (if s.sid = x then true else s.closing) := by
  rw [mem_setClosing] at h
  obtain ⟨s, hs, rfl⟩ := h
  refine ⟨s, hs, ?_⟩
  by_cases hc : s.sid = x <;> simp [hc]

theorem mem_setClosing_intro {l : List Sess} (x : Nat) {s : Sess} (h : s ∈ l) :
    ∃ s2 ∈ setClosing l x, s2.sid = s.sid ∧ s2.busy = s.busy ∧
      s2.deleted = s.deleted ∧ s2.closing = (if s.sid = x then true else s.closing) := by
  refine ⟨if s.sid = x then { s with closing := true } else s,
    (mem_setClosing l x _).mpr ⟨s, h, rfl⟩, ?_⟩
  by_cases hc : s.sid = x <;> simp [hc]

theorem filter_ne_length (l : List Sess) (x : Nat)
    (hn : (l.map Sess.sid).Nodup) (hm : ∃ s ∈ l, s.sid = x) :
    (l.filter (fun s => s.sid ≠ x)).length = l.length - 1 := by
  induction l with
  | nil => simp at hm
  | cons s t ih =>
    simp only [List.map_cons, List.nodup_cons] at hn
    obtain ⟨hns, hnt⟩ := hn
    by_cases hs : s.sid = x
    · have hnotin : ∀ a ∈ t, a.sid ≠ x := by
        intro a ha hax
        apply hns
        have hmem : a.sid ∈ t.map Sess.sid := List.mem_map_of_mem Sess.sid ha
        rw [hs, ← hax]
        exact hmem
      have ht : t.filter (fun s => s.sid ≠ x) = t :=
        List.filter_eq_self.mpr (fun a ha => by simpa using hnotin a ha)
      simp [List.filter_cons, hs, ht]
      exact hnotin
    · obtain ⟨s2, hs2, hx2⟩ := hm
      rcases List.mem_cons.mp hs2 with rfl | hs2t
      · exact absurd hx2 hs
      · have := ih hnt ⟨s2, hs2t, hx2⟩
        have hlen : 1 ≤ t.length := List.length_pos.mpr (by rintro rfl; cases hs2t)
        simp only [List.filter_cons]
        have hps : (decide (s.sid ≠ x)) = true := by simpa using hs
        rw [hps]
        simp only [if_true, List.length_cons, this]
        omega

theorem setBusy_setBusy (l : List Sess) (sid : Nat) (b1 b2 : Bool) :
    setBusy (setBusy l sid b1) sid b2 = setBusy l sid b2 := by
  simp only [setBusy, List.map_map]
  apply List.map_congr_left
  intro s _
  by_cases hc : s.sid = sid <;> simp [hc]

theorem not_free_setDeleted {l : List Sess} {x : Nat}
    (h : ∀ s ∈ l, sessionIsFree s = false) :
    ∀ s2 ∈ setDeleted l x, sessionIsFree s2 = false := by
  intro s2 hs2
  obtain ⟨s, hs, hsid, hbusy, hclos, hdel⟩ := mem_setDeleted_elim hs2
  have hf := h s hs
  unfold sessionIsFree at hf ⊢
  rw [hbusy, hclos, hdel]
  by_cases hc : s.sid = x
  · simp [hc]
  · simpa [hc] using hf

theorem not_free_setBusyTrue {l : List Sess} {x : Nat}
    (h : ∀ s ∈ l, sessionIsFree s = false) :
    ∀ s2 ∈ setBusy l x true, sessionIsFree s2 = false := by
  intro s2 hs2
  obtain ⟨s, hs, hsid, hdel, hclos, hbusy⟩ := mem_setBusy_elim hs2
  have hf := h s hs
  unfold sessionIsFree at hf ⊢
  rw [hbusy, hclos, hdel]
  by_cases hc : s.sid = x
  · simp [hc]
  · simpa [hc] using hf

theorem not_free_setClosing {l : List Sess} {x : Nat}
    (h : ∀ s ∈ l, sessionIsFree s = false) :
    ∀ s2 ∈ setClosing l x, sessionIsFree s2 = false := by
  intro s2 hs2
  obtain ⟨s, hs, hsid, hbusy, hdel, hclos⟩ := mem_setClosing_elim hs2
  have hf := h s hs
  unfold sessionIsFree at hf ⊢
  rw [hbusy, hclos, hdel]
  by_cases hc : s.sid = x
  · simp [hc]
  · simpa [hc] using hf

theorem replacementAcquire_cases (st1 : PoolState) :
    (st1.waiters = [] ∧ replacementAcquire st1 = (st1, [])) ∨
    (∃ t, st1.waiters ≠ [] ∧ st1.sessions.find? sessionIsFree = some t ∧
      replacementAcquire st1 =
        ({ st1 with
            sessions := setBusy st1.sessions t.sid (useWaiterChain t.sid st1.waiters).2.2,
            waiters := (useWaiterChain t.sid st1.waiters).1 },
         (useWaiterChain t.sid st1.waiters).2.1)) ∨
    (st1.waiters ≠ [] ∧ st1.sessions.find? sessionIsFree = none ∧
      effectiveSize st1 ≤ (st1.maxLimit : Int) ∧
      replacementAcquire st1 =
        ({ st1 with newSessionsRequested := st1.newSessionsRequested + 1,
                    pendingCreates := st1.pendingCreates ++ [CreateTok.forDelete] }, [])) ∨
    (st1.waiters ≠ [] ∧ st1.sessions.find? sessionIsFree = none ∧
      ¬ effectiveSize st1 ≤ (st1.maxLimit : Int) ∧
      replacementAcquire st1 =
        ({ st1 with
            waiters := st1.waiters ++
              [{ wid := st1.nextWid, hasTimeout := false, internal := true }],
            nextWid := st1.nextWid + 1 },
         [Output.enq st1.nextWid true false])) := by
  unfold replacementAcquire
  by_cases hw : st1.waiters.isEmpty
  · exact Or.inl ⟨List.isEmpty_iff.mp hw, by simp [hw]⟩
  · have hw' : st1.waiters ≠ [] := fun h => hw (by simp [h])
    cases hff : st1.sessions.find? sessionIsFree with
    | some t => exact Or.inr (Or.inl ⟨t, hw', rfl, by simp [hw, hff]⟩)
    | none =>
      by_cases hg : effectiveSize st1 ≤ (st1.maxLimit : Int)
      · exact Or.inr (Or.inr (Or.inl ⟨hw', rfl, hg, by simp [hw, hff, hg]⟩))
      · exact Or.inr (Or.inr (Or.inr ⟨hw', rfl, hg, by simp [hw, hff, hg]⟩))

theorem poolInv_initPool (m : Nat) : PoolInv (initPool m) := by
  refine ⟨rfl, rfl, List.nodup_nil, ?_, ?_, ?_, ?_, ?_, ?_, ?_⟩ <;>
    simp [initPool, effectiveSize, waiterWids]
  positivity

theorem deleteSessionStart_not_found {st : PoolState} {sid : Nat}
    (hf : st.sessions.find? (fun s => s.sid = sid) = none) :
    deleteSessionStart st sid = (st, []) := by
  unfold deleteSessionStart
  rw [hf]

theorem deleteSessionStart_deleted {st : PoolState} {sid : Nat} {s : Sess}
    (hf : st.sessions.find? (fun s => s.sid = sid) = some s)
    (hd : s.deleted = true) :
    deleteSessionStart st sid = (st, []) := by
  unfold deleteSessionStart
  rw [hf]
  simp [hd]

theorem deleteSessionStart_live {st : PoolState} {sid : Nat} {s : Sess}
    (hf : st.sessions.find? (fun s => s.sid = sid) = some s)
    (hd : s.deleted = false) :
    deleteSessionStart st sid =
      ({ (replacementAcquire
            { st with sessionsBeingDeleted := st.sessionsBeingDeleted + 1 }).1 with
          sessions := setDeleted (replacementAcquire
            { st with sessionsBeingDeleted := st.sessionsBeingDeleted + 1 }).1.sessions sid,
          pendingDeletes := (replacementAcquire
            { st with sessionsBeingDeleted := st.sessionsBeingDeleted + 1 }).1.pendingDeletes
            ++ [sid] },
       (replacementAcquire
          { st with sessionsBeingDeleted := st.sessionsBeingDeleted + 1 }).2
         ++ [Output.evicted sid]) := by
  unfold deleteSessionStart
  rw [hf]
  simp [hd]

theorem poolInv_deleteSessionStart (st : PoolState) (sid : Nat) (h : PoolInv st) :
    PoolInv (deleteSessionStart st sid).1 := by
  unfold PoolInv at h
  obtain ⟨h1, h2, h3, h4, h5, h6, h7, h8, h9, h10⟩ := h
  cases hf : st.sessions.find? (fun s => s.sid = sid) with
  | none =>
    rw [deleteSessionStart_not_found hf]
    exact ⟨h1, h2, h3, h4, h5, h6, h7, h8, h9, h10⟩
  | some s =>
    cases hdel : s.deleted with
    | true =>
      rw [deleteSessionStart_deleted hf hdel]
      exact ⟨h1, h2, h3, h4, h5, h6, h7, h8, h9, h10⟩
    | false =>
      have hsmem : s ∈ st.sessions := List.mem_of_find?_eq_some hf
      have hssid : s.sid = sid := by simpa using List.find?_some hf
      have hnotpd : sid ∉ st.pendingDeletes := by
        intro hin
        obtain ⟨s2, hs2, hsid2, hdel2⟩ := h4 sid hin
        have he : s2 = s :=
          List.inj_on_of_nodup_map h5 hs2 hsmem (by rw [hsid2, hssid])
        rw [he, hdel] at hdel2
        cases hdel2
      rw [deleteSessionStart_live hf hdel]
      rcases replacementAcquire_cases
          { st with sessionsBeingDeleted := st.sessionsBeingDeleted + 1 } with
        ⟨hwA, hpA⟩ | ⟨t, hwB, hffB, hpB⟩ | ⟨hwC, hffC, hgC, hpC⟩ | ⟨hwD, hffD, hgD, hpD⟩
      · -- no waiters pending: only the counters and the deleted mark change
        rw [hpA]
        unfold PoolInv
        refine ⟨h1, ?_, ?_, ?_, ?_, ?_, h7, h8, ?_, ?_⟩
        · simp [h2]
        · exact List.Nodup.append h3 (List.nodup_singleton sid)
            (by simpa [List.disjoint_singleton] using hnotpd)
        · intro x hx
          rcases List.mem_append.mp hx with hx | hx
          · obtain ⟨s2, hs2, hsid2, hdel2⟩ := h4 x hx
            obtain ⟨s3, hm3, e1, _, _, e4⟩ := mem_setDeleted_intro sid hs2
            refine ⟨s3, hm3, by rw [e1, hsid2], ?_⟩
            rw [e4]
            by_cases hc : s2.sid = sid <;> simp [hc, hdel2]
          · have hx' : x = sid := by simpa using hx
            obtain ⟨s3, hm3, e1, _, _, e4⟩ := mem_setDeleted_intro sid hsmem
            exact ⟨s3, hm3, by rw [e1, hssid, hx'], by rw [e4]; simp [hssid]⟩
        · show ((setDeleted st.sessions sid).map Sess.sid).Nodup
          rw [setDeleted_map_sid]
          exact h5
        · intro s2 hs2
          obtain ⟨s0, hs0, e1, _, _, _⟩ := mem_setDeleted_elim hs2
          rw [e1]
          exact h6 s0 hs0
        · show (((setDeleted st.sessions sid).length : Int)
              + (st.newSessionsRequested : Int)
              - ((st.sessionsBeingDeleted + 1 : Nat) : Int)) ≤ (st.maxLimit : Int) + 1
          rw [setDeleted_length]
          unfold effectiveSize at h9
          push_cast at h9 ⊢
          omega
        · intro hne
          exact absurd hwA hne
      · -- a free session coexisting with pending waiters contradicts PoolInv
        exfalso
        have hfree : sessionIsFree t = true := List.find?_some hffB
        have htm : t ∈ st.sessions := List.mem_of_find?_eq_some hffB
        have := h10 hwB t htm
        rw [hfree] at this
        cases this
      · -- admission gate passed: a replacement creation is requested
        rw [hpC]
        unfold PoolInv
        have hnofree : ∀ a ∈ st.sessions, sessionIsFree a = false := by
          intro a ha
          have := List.find?_eq_none.mp hffC a ha
          simpa using this
        refine ⟨?_, ?_, ?_, ?_, ?_, ?_, h7, h8, ?_, ?_⟩
        · simp [h1]
        · simp [h2]
        · exact List.Nodup.append h3 (List.nodup_singleton sid)
            (by simpa [List.disjoint_singleton] using hnotpd)
        · intro x hx
          rcases List.mem_append.mp hx with hx | hx
          · obtain ⟨s2, hs2, hsid2, hdel2⟩ := h4 x hx
            obtain ⟨s3, hm3, e1, _, _, e4⟩ := mem_setDeleted_intro sid hs2
            refine ⟨s3, hm3, by rw [e1, hsid2], ?_⟩
            rw [e4]
            by_cases hc : s2.sid = sid <;> simp [hc, hdel2]
          · have hx' : x = sid := by simpa using hx
            obtain ⟨s3, hm3, e1, _, _, e4⟩ := mem_setDeleted_intro sid hsmem
            exact ⟨s3, hm3, by rw [e1, hssid, hx'], by rw [e4]; simp [hssid]⟩
        · show ((setDeleted st.sessions sid).map Sess.sid).Nodup
          rw [setDeleted_map_sid]
          exact h5
        · intro s2 hs2
          obtain ⟨s0, hs0, e1, _, _, _⟩ := mem_setDeleted_elim hs2
          rw [e1]
          exact h6 s0 hs0
        · show (((setDeleted st.sessions sid).length : Int)
              + ((st.newSessionsRequested + 1 : Nat) : Int)
              - ((st.sessionsBeingDeleted + 1 : Nat) : Int)) ≤ (st.maxLimit : Int) + 1
          rw [setDeleted_length]
          unfold effectiveSize at hgC
          simp only at hgC
          push_cast at hgC ⊢
          omega
        · intro _ s2 hs2
          exact not_free_setDeleted hnofree s2 hs2
      · -- admission gate failed: an internal waiter is enqueued
        rw [hpD]
        unfold PoolInv
        have hnofree : ∀ a ∈ st.sessions, sessionIsFree a = false := by
          intro a ha
          have := List.find?_eq_none.mp hffD a ha
          simpa using this
        refine ⟨h1, ?_, ?_, ?_, ?_, ?_, ?_, ?_, ?_, ?_⟩
        · simp [h2]
        · exact List.Nodup.append h3 (List.nodup_singleton sid)
            (by simpa [List.disjoint_singleton] using hnotpd)
        · intro x hx
          rcases List.mem_append.mp hx with hx | hx
          · obtain ⟨s2, hs2, hsid2, hdel2⟩ := h4 x hx
            obtain ⟨s3, hm3, e1, _, _, e4⟩ := mem_setDeleted_intro sid hs2
            refine ⟨s3, hm3, by rw [e1, hsid2], ?_⟩
            rw [e4]
            by_cases hc : s2.sid = sid <;> simp [hc, hdel2]
          · have hx' : x = sid := by simpa using hx
            obtain ⟨s3, hm3, e1, _, _, e4⟩ := mem_setDeleted_intro sid hsmem
            exact ⟨s3, hm3, by rw [e1, hssid, hx'], by rw [e4]; simp [hssid]⟩
        · show ((setDeleted st.sessions sid).map Sess.sid).Nodup
          rw [setDeleted_map_sid]
          exact h5
        · intro s2 hs2
          obtain ⟨s0, hs0, e1, _, _, _⟩ := mem_setDeleted_elim hs2
          rw [e1]
          exact h6 s0 hs0
        · intro w hw
          rcases List.mem_append.mp hw with hw | hw
          · exact Nat.lt_succ_of_lt (h7 w hw)
          · have hww : w = ⟨st.nextWid, false, true⟩ := by
              simpa using hw
            rw [hww]
            exact Nat.lt_succ_self _
        · show ((st.waiters ++
              [(⟨st.nextWid, false, true⟩ : Waiter)]).map Waiter.wid).Nodup
          rw [List.map_append]
          refine List.Nodup.append h8 (by simp) ?_
          intro x hx hy
          have hy' : x = st.nextWid := by simpa using hy
          rw [List.mem_map] at hx
          obtain ⟨w, hw, hwx⟩ := hx
          have := h7 w hw
          omega
        · show (((setDeleted st.sessions sid).length : Int)
              + (st.newSessionsRequested : Int)
              - ((st.sessionsBeingDeleted + 1 : Nat) : Int)) ≤ (st.maxLimit : Int) + 1
          rw [setDeleted_length]
          unfold effectiveSize at h9
          push_cast at h9 ⊢
          omega
        · intro _ s2 hs2
          exact not_free_setDeleted hnofree s2 hs2

theorem step_acquire_free {st : PoolState} {cid : Nat} {ht : Bool} {t : Sess}
    (hff : st.sessions.find? sessionIsFree = some t) :
    stepPool st (Ev.acquireStart cid ht) =
      ({ st with sessions := setBusy st.sessions t.sid true },
       [Output.handout (Tgt.caller cid) t.sid]) := by
  simp only [stepPool]
  rw [hff]

theorem step_acquire_gate {st : PoolState} {cid : Nat} {ht : Bool}
    (hff : st.sessions.find? sessionIsFree = none)
    (hg : effectiveSize st ≤ (st.maxLimit : Int)) :
    stepPool st (Ev.acquireStart cid ht) =
      ({ st with newSessionsRequested := st.newSessionsRequested + 1,
                 pendingCreates := st.pendingCreates ++ [CreateTok.forCaller cid] },
       []) := by
  simp only [stepPool]
  rw [hff]
  simp [hg]

theorem step_acquire_wait {st : PoolState} {cid : Nat} {ht : Bool}
    (hff : st.sessions.find? sessionIsFree = none)
    (hg : ¬ effectiveSize st ≤ (st.maxLimit : Int)) :
    stepPool st (Ev.acquireStart cid ht) =
      ({ st with waiters := st.waiters ++ [⟨st.nextWid, ht, false⟩],
                 nextWid := st.nextWid + 1 },
       [Output.enq st.nextWid false ht]) := by
  simp only [stepPool]
  rw [hff]
  simp [hg]

theorem step_createDone_none {st : PoolState} {i : Nat}
    (h : st.pendingCreates.get? i = none) :
    stepPool st (Ev.createDone i) = (st, []) := by
  simp only [stepPool]
  rw [h]

theorem step_createDone_forCaller {st : PoolState} {i cid : Nat}
    (h : st.pendingCreates.get? i = some (CreateTok.forCaller cid)) :
    stepPool st (Ev.createDone i) =
      ({ st with
          pendingCreates := st.pendingCreates.eraseIdx i,
          newSessionsRequested := st.newSessionsRequested - 1,
          nextSid := st.nextSid + 1,
          sessions := setBusy (st.sessions ++ [initSess st.nextSid]) st.nextSid true },
       [Output.handout (Tgt.caller cid) st.nextSid]) := by
  simp only [stepPool]
  rw [h]

theorem step_createDone_forDelete_nil {st : PoolState} {i : Nat}
    (h : st.pendingCreates.get? i = some CreateTok.forDelete)
    (hw : st.waiters = []) :
    stepPool st (Ev.createDone i) =
      ({ st with
          pendingCreates := st.pendingCreates.eraseIdx i,
          newSessionsRequested := st.newSessionsRequested - 1,
          nextSid := st.nextSid + 1,
          sessions := st.sessions ++ [initSess st.nextSid] },
       [Output.released st.nextSid]) := by
  simp only [stepPool]
  rw [h]
  simp [hw]

theorem step_createDone_forDelete_cons {st : PoolState} {i : Nat} {w : Waiter}
    {ws : List Waiter}
    (h : st.pendingCreates.get? i = some CreateTok.forDelete)
    (hw : st.waiters = w :: ws) :
    stepPool st (Ev.createDone i) =
      ({ st with
          pendingCreates := st.pendingCreates.eraseIdx i,
          newSessionsRequested := st.newSessionsRequested - 1,
          nextSid := st.nextSid + 1,
          sessions := setBusy (st.sessions ++ [initSess st.nextSid]) st.nextSid
            (useWaiterChain st.nextSid st.waiters).2.2,
          waiters := (useWaiterChain st.nextSid st.waiters).1 },
       (useWaiterChain st.nextSid st.waiters).2.1) := by
  simp only [stepPool]
  rw [h]
  simp [hw]

theorem step_createFail_in {st : PoolState} {i : Nat}
    (h : i < st.pendingCreates.length) :
    stepPool st (Ev.createFail i) =
      ({ st with pendingCreates := st.pendingCreates.eraseIdx i,
                 newSessionsRequested := st.newSessionsRequested - 1 }, []) := by
  simp only [stepPool]
  simp [h]

theorem step_createFail_out {st : PoolState} {i : Nat}
    (h : ¬ i < st.pendingCreates.length) :
    stepPool st (Ev.createFail i) = (st, []) := by
  simp only [stepPool]
  simp [h]

theorem step_release_none {st : PoolState} {sid : Nat}
    (hf : st.sessions.find? (fun s => s.sid = sid) = none) :
    stepPool st (Ev.releaseSig sid) = (st, []) := by
  simp only [stepPool]
  rw [hf]

theorem step_release_noguard {st : PoolState} {sid : Nat} {s : Sess}
    (hf : st.sessions.find? (fun s => s.sid = sid) = some s)
    (hb : (s.busy && !s.deleted) = false) :
    stepPool st (Ev.releaseSig sid) = (st, []) := by
  simp only [stepPool]
  rw [hf]
  simp [hb]

theorem step_release_closing {st : PoolState} {sid : Nat} {s : Sess}
    (hf : st.sessions.find? (fun s => s.sid = sid) = some s)
    (hb : s.busy = true) (hd : s.deleted = false) (hc : s.closing = true) :
    stepPool st (Ev.releaseSig sid) =
      ((deleteSessionStart { st with sessions := setBusy st.sessions sid false } sid).1,
       Output.released sid ::
         (deleteSessionStart { st with sessions := setBusy st.sessions sid false } sid).2) := by
  simp only [stepPool]
  rw [hf]
  simp [hb, hd, hc]

theorem step_release_open {st : PoolState} {sid : Nat} {s : Sess}
    (hf : st.sessions.find? (fun s => s.sid = sid) = some s)
    (hb : s.busy = true) (hd : s.deleted = false) (hc : s.closing = false) :
    stepPool st (Ev.releaseSig sid) =
      ({ st with
          sessions := setBusy st.sessions sid (useWaiterChain sid st.waiters).2.2,
          waiters := (useWaiterChain sid st.waiters).1 },
       Output.released sid :: (useWaiterChain sid st.waiters).2.1) := by
  simp only [stepPool]
  rw [hf]
  simp only [hb, hd, hc, Bool.not_false, Bool.and_self, if_true, Bool.false_eq_true,
    if_false]
  rw [setBusy_setBusy]

theorem step_broken_none {st : PoolState} {sid : Nat}
    (hf : st.sessions.find? (fun s => s.sid = sid) = none) :
    stepPool st (Ev.brokenSig sid) = (st, []) := by
  simp only [stepPool]
  rw [hf]

theorem step_broken_noguard {st : PoolState} {sid : Nat} {s : Sess}
    (hf : st.sessions.find? (fun s => s.sid = sid) = some s)
    (hb : (s.busy && !s.deleted) = false) :
    stepPool st (Ev.brokenSig sid) = (st, []) := by
  simp only [stepPool]
  rw [hf]
  simp [hb]

theorem step_broken_live {st : PoolState} {sid : Nat} {s : Sess}
    (hf : st.sessions.find? (fun s => s.sid = sid) = some s)
    (hb : s.busy = true) (hd : s.deleted = false) :
    stepPool st (Ev.brokenSig sid) = deleteSessionStart st sid := by
  simp only [stepPool]
  rw [hf]
  simp [hb, hd]

theorem step_markClosing_none {st : PoolState} {sid : Nat}
    (hf : st.sessions.find? (fun s => s.sid = sid) = none) :
    stepPool st (Ev.markClosing sid) = (st, []) := by
  simp only [stepPool]
  rw [hf]

theorem step_markClosing_noguard {st : PoolState} {sid : Nat} {s : Sess}
    (hf : st.sessions.find? (fun s => s.sid = sid) = some s)
    (hb : (s.busy && !s.deleted) = false) :
    stepPool st (Ev.markClosing sid) = (st, []) := by
  simp only [stepPool]
  rw [hf]
  simp [hb]

theorem step_markClosing_live {st : PoolState} {sid : Nat} {s : Sess}
    (hf : st.sessions.find? (fun s => s.sid = sid) = some s)
    (hb : s.busy = true) (hd : s.deleted = false) :
    stepPool st (Ev.markClosing sid) =
      ({ st with sessions := setClosing st.sessions sid }, []) := by
  simp only [stepPool]
  rw [hf]
  simp [hb, hd]

theorem step_deleteDone_in {st : PoolState} {sid : Nat}
    (h : sid ∈ st.pendingDeletes) :
    stepPool st (Ev.deleteDone sid) =
      ({ st with pendingDeletes := st.pendingDeletes.erase sid,
                 sessionsBeingDeleted := st.sessionsBeingDeleted - 1,
                 sessions := st.sessions.filter (fun s => s.sid ≠ sid) }, []) := by
  simp only [stepPool]
  simp [h]

theorem step_deleteDone_out {st : PoolState} {sid : Nat}
    (h : sid ∉ st.pendingDeletes) :
    stepPool st (Ev.deleteDone sid) = (st, []) := by
  simp only [stepPool]
  simp [h]

theorem step_timeout_none {st : PoolState} {wid : Nat}
    (h : st.waiters.find? (fun w => w.wid = wid) = none) :
    stepPool st (Ev.timeoutFire wid) = (st, []) := by
  simp only [stepPool]
  rw [h]

theorem step_timeout_noguard {st : PoolState} {wid : Nat} {w : Waiter}
    (h : st.waiters.find? (fun w => w.wid = wid) = some w)
    (hg : (w.hasTimeout && !w.internal) = false) :
    stepPool st (Ev.timeoutFire wid) = (st, []) := by
  simp only [stepPool]
  rw [h]
  simp [hg]

theorem step_timeout_hit {st : PoolState} {wid : Nat} {w : Waiter}
    (h : st.waiters.find? (fun w => w.wid = wid) = some w)
    (ht : w.hasTimeout = true) (hi : w.internal = false) :
    stepPool st (Ev.timeoutFire wid) =
      ({ st with waiters := st.waiters.eraseP (fun w2 => w2.wid = wid) },
       [Output.timedOut wid]) := by
  simp only [stepPool]
  rw [h]
  simp [ht, hi]

theorem pd_entries_setBusy {l : List Sess} {pd : List Nat} (x : Nat) (b : Bool)
    (h : ∀ y ∈ pd, ∃ s ∈ l, s.sid = y ∧ s.deleted = true) :
    ∀ y ∈ pd, ∃ s2 ∈ setBusy l x b, s2.sid = y ∧ s2.deleted = true := by
  intro y hy
  obtain ⟨s, hs, e, d⟩ := h y hy
  obtain ⟨s2, hm, e1, e2, _, _⟩ := mem_setBusy_intro x b hs
  exact ⟨s2, hm, by rw [e1, e], by rw [e2]; exact d⟩

theorem pd_entries_setClosing {l : List Sess} {pd : List Nat} (x : Nat)
    (h : ∀ y ∈ pd, ∃ s ∈ l, s.sid = y ∧ s.deleted = true) :
    ∀ y ∈ pd, ∃ s2 ∈ setClosing l x, s2.sid = y ∧ s2.deleted = true := by
  intro y hy
  obtain ⟨s, hs, e, d⟩ := h y hy
  obtain ⟨s2, hm, e1, _, e3, _⟩ := mem_setClosing_intro x hs
  exact ⟨s2, hm, by rw [e1, e], by rw [e3]; exact d⟩

theorem pd_entries_append {l l2 : List Sess} {pd : List Nat}
    (h : ∀ y ∈ pd, ∃ s ∈ l, s.sid = y ∧ s.deleted = true) :
    ∀ y ∈ pd, ∃ s ∈ l ++ l2, s.sid = y ∧ s.deleted = true := by
  intro y hy
  obtain ⟨s, hs, e, d⟩ := h y hy
  exact ⟨s, List.mem_append_left l2 hs, e, d⟩

theorem nodup_sids_create {l : List Sess} {n : Nat} (b : Bool)
    (h5 : (l.map Sess.sid).Nodup) (h6 : ∀ s ∈ l, s.sid < n) :
    ((setBusy (l ++ [initSess n]) n b).map Sess.sid).Nodup := by
  rw [setBusy_map_sid, List.map_append]
  refine List.Nodup.append h5 (by simp) ?_
  intro x hx hy
  have hy' : x = n := by simpa [initSess] using hy
  rw [List.mem_map] at hx
  obtain ⟨s, hs, hsx⟩ := hx
  have := h6 s hs
  omega

theorem sids_lt_create {l : List Sess} {n : Nat} (b : Bool)
    (h6 : ∀ s ∈ l, s.sid < n) :
    ∀ s2 ∈ setBusy (l ++ [initSess n]) n b, s2.sid < n + 1 := by
  intro s2 hs2
  obtain ⟨s, hs, e1, _, _, _⟩ := mem_setBusy_elim hs2
  rcases List.mem_append.mp hs with hl | hr
  · rw [e1]
    exact Nat.lt_succ_of_lt (h6 s hl)
  · have : s = initSess n := by simpa using hr
    rw [e1, this]
    exact Nat.lt_succ_self n

theorem not_free_create {l : List Sess} {n : Nat}
    (h : ∀ s ∈ l, sessionIsFree s = false) (hn : ∀ s ∈ l, s.sid < n) :
    ∀ s2 ∈ setBusy (l ++ [initSess n]) n true, sessionIsFree s2 = false := by
  intro s2 hs2
  obtain ⟨s, hs, e1, e2, e3, e4⟩ := mem_setBusy_elim hs2
  rcases List.mem_append.mp hs with hl | hr
  · have hsid : s.sid ≠ n := Nat.ne_of_lt (hn s hl)
    have hf := h s hl
    unfold sessionIsFree at hf ⊢
    rw [e4, e3, e2]
    simpa [hsid] using hf
  · have hin : s = initSess n := by simpa using hr
    unfold sessionIsFree
    rw [e4, hin]
    simp [initSess]

theorem poolInv_acquireStart (st : PoolState) (cid : Nat) (ht : Bool)
    (h : PoolInv st) : PoolInv (stepPool st (Ev.acquireStart cid ht)).1 := by
  unfold PoolInv at h
  obtain ⟨h1, h2, h3, h4, h5, h6, h7, h8, h9, h10⟩ := h
  cases hff : st.sessions.find? sessionIsFree with
  | some t =>
    rw [step_acquire_free hff]
    unfold PoolInv
    refine ⟨h1, h2, h3, pd_entries_setBusy t.sid true h4, ?_, ?_, h7, h8, ?_, ?_⟩
    · show ((setBusy st.sessions t.sid true).map Sess.sid).Nodup
      rw [setBusy_map_sid]
      exact h5
    · intro s2 hs2
      obtain ⟨s0, hs0, e1, _, _, _⟩ := mem_setBusy_elim hs2
      rw [e1]
      exact h6 s0 hs0
    · show ((setBusy st.sessions t.sid true).length : Int)
          + (st.newSessionsRequested : Int) - (st.sessionsBeingDeleted : Int)
          ≤ (st.maxLimit : Int) + 1
      rw [setBusy_length]
      exact h9
    · intro hne
      exfalso
      have hfree : sessionIsFree t = true := List.find?_some hff
      have := h10 hne t (List.mem_of_find?_eq_some hff)
      rw [hfree] at this
      cases this
  | none =>
    by_cases hg : effectiveSize st ≤ (st.maxLimit : Int)
    · rw [step_acquire_gate hff hg]
      unfold PoolInv
      refine ⟨by simp [h1], h2, h3, h4, h5, h6, h7, h8, ?_, h10⟩
      show ((st.sessions.length : Int) + ((st.newSessionsRequested + 1 : Nat) : Int)
          - (st.sessionsBeingDeleted : Int)) ≤ (st.maxLimit : Int) + 1
      unfold effectiveSize at hg
      push_cast at hg ⊢
      omega
    · rw [step_acquire_wait hff hg]
      unfold PoolInv
      refine ⟨h1, h2, h3, h4, h5, h6, ?_, ?_, h9, ?_⟩
      · intro w hw
        rcases List.mem_append.mp hw with hw | hw
        · exact Nat.lt_succ_of_lt (h7 w hw)
        · have hww : w = ⟨st.nextWid, ht, false⟩ := by simpa using hw
          rw [hww]
          exact Nat.lt_succ_self _
      · show ((st.waiters ++ [(⟨st.nextWid, ht, false⟩ : Waiter)]).map Waiter.wid).Nodup
        rw [List.map_append]
        refine List.Nodup.append h8 (by simp) ?_
        intro x hx hy
        have hy' : x = st.nextWid := by simpa using hy
        rw [List.mem_map] at hx
        obtain ⟨w, hw, hwx⟩ := hx
        have := h7 w hw
        omega
      · intro _ s2 hs2
        have := List.find?_eq_none.mp hff s2 hs2
        simpa using this

theorem poolInv_createDone (st : PoolState) (i : Nat)
    (h : PoolInv st) : PoolInv (stepPool st (Ev.createDone i)).1 := by
  unfold PoolInv at h
  obtain ⟨h1, h2, h3, h4, h5, h6, h7, h8, h9, h10⟩ := h
  cases hcd : st.pendingCreates.get? i with
  | none =>
    rw [step_createDone_none hcd]
    exact ⟨h1, h2, h3, h4, h5, h6, h7, h8, h9, h10⟩
  | some tok =>
    have hlen : i < st.pendingCreates.length := by
      by_contra hcon
      rw [List.get?_eq_none.mpr (Nat.le_of_not_lt hcon)] at hcd
      cases hcd
    have hreq1 : 1 ≤ st.newSessionsRequested := by omega
    cases tok with
    | forCaller cid =>
      rw [step_createDone_forCaller hcd]
      unfold PoolInv
      refine ⟨?_, h2, h3, ?_, ?_, ?_, h7, h8, ?_, ?_⟩
      · show st.newSessionsRequested - 1 = (st.pendingCreates.eraseIdx i).length
        rw [List.length_eraseIdx_of_lt hlen]
        omega
      · exact pd_entries_setBusy st.nextSid true (pd_entries_append h4)
      · exact nodup_sids_create true h5 h6
      · exact sids_lt_create true h6
      · show (((setBusy (st.sessions ++ [initSess st.nextSid]) st.nextSid true).length : Int)
            + ((st.newSessionsRequested - 1 : Nat) : Int)
            - (st.sessionsBeingDeleted : Int)) ≤ (st.maxLimit : Int) + 1
        rw [setBusy_length, List.length_append, List.length_singleton]
        unfold effectiveSize at h9
        push_cast [hreq1] at h9 ⊢
        omega
      · intro hne
        exact not_free_create (h10 hne) h6
    | forDelete =>
      cases hwx : st.waiters with
      | nil =>
        rw [step_createDone_forDelete_nil hcd hwx]
        unfold PoolInv
        refine ⟨?_, h2, h3, pd_entries_append h4, ?_, ?_, h7, h8, ?_, ?_⟩
        · show st.newSessionsRequested - 1 = (st.pendingCreates.eraseIdx i).length
          rw [List.length_eraseIdx_of_lt hlen]
          omega
        · show ((st.sessions ++ [initSess st.nextSid]).map Sess.sid).Nodup
          rw [List.map_append]
          refine List.Nodup.append h5 (by simp) ?_
          intro x hx hy
          have hy' : x = st.nextSid := by simpa [initSess] using hy
          rw [List.mem_map] at hx
          obtain ⟨s, hs, hsx⟩ := hx
          have := h6 s hs
          omega
        · intro s2 hs2
          rcases List.mem_append.mp hs2 with hl | hr
          · exact Nat.lt_succ_of_lt (h6 s2 hl)
          · have : s2 = initSess st.nextSid := by simpa using hr
            rw [this]
            exact Nat.lt_succ_self _
        · show (((st.sessions ++ [initSess st.nextSid]).length : Int)
              + ((st.newSessionsRequested - 1 : Nat) : Int)
              - (st.sessionsBeingDeleted : Int)) ≤ (st.maxLimit : Int) + 1
          rw [List.length_append, List.length_singleton]
          unfold effectiveSize at h9
          push_cast [hreq1] at h9 ⊢
          omega
        · intro hne
          exact absurd hwx hne
      | cons w ws =>
        rw [step_createDone_forDelete_cons hcd hwx]
        unfold PoolInv
        refine ⟨?_, h2, h3, ?_, ?_, ?_, ?_, ?_, ?_, ?_⟩
        · show st.newSessionsRequested - 1 = (st.pendingCreates.eraseIdx i).length
          rw [List.length_eraseIdx_of_lt hlen]
          omega
        · exact pd_entries_setBusy st.nextSid _ (pd_entries_append h4)
        · exact nodup_sids_create _ h5 h6
        · exact sids_lt_create _ h6
        · intro w2 hw2
          exact h7 w2 ((uc_sublist st.nextSid st.waiters).subset hw2)
        · exact h8.sublist ((uc_sublist st.nextSid st.waiters).map Waiter.wid)
        · show (((setBusy (st.sessions ++ [initSess st.nextSid]) st.nextSid
              (useWaiterChain st.nextSid st.waiters).2.2).length : Int)
              + ((st.newSessionsRequested - 1 : Nat) : Int)
              - (st.sessionsBeingDeleted : Int)) ≤ (st.maxLimit : Int) + 1
          rw [setBusy_length, List.length_append, List.length_singleton]
          unfold effectiveSize at h9
          push_cast [hreq1] at h9 ⊢
          omega
        · intro hne
          have htk : (useWaiterChain st.nextSid st.waiters).2.2 = true := by
            by_contra hcon
            have := uc_not_taken st.nextSid st.waiters
              (by revert hcon; cases (useWaiterChain st.nextSid st.waiters).2.2 <;> simp)
            exact hne this
          rw [htk]
          exact not_free_create (h10 (by rw [hwx]; simp)) h6

theorem poolInv_createFail (st : PoolState) (i : Nat)
    (h : PoolInv st) : PoolInv (stepPool st (Ev.createFail i)).1 := by
  unfold PoolInv at h
  obtain ⟨h1, h2, h3, h4, h5, h6, h7, h8, h9, h10⟩ := h
  by_cases hlen : i < st.pendingCreates.length
  · rw [step_createFail_in hlen]
    unfold PoolInv
    refine ⟨?_, h2, h3, h4, h5, h6, h7, h8, ?_, h10⟩
    · show st.newSessionsRequested - 1 = (st.pendingCreates.eraseIdx i).length
      rw [List.length_eraseIdx_of_lt hlen]
      omega
    · show ((st.sessions.length : Int) + ((st.newSessionsRequested - 1 : Nat) : Int)
          - (st.sessionsBeingDeleted : Int)) ≤ (st.maxLimit : Int) + 1
      unfold effectiveSize at h9
      have hreq1 : 1 ≤ st.newSessionsRequested := by omega
      push_cast [hreq1] at h9 ⊢
      omega
  · rw [step_createFail_out hlen]
    exact ⟨h1, h2, h3, h4, h5, h6, h7, h8, h9, h10⟩

theorem poolInv_releaseSig (st : PoolState) (sid : Nat)
    (h : PoolInv st) : PoolInv (stepPool st (Ev.releaseSig sid)).1 := by
  have hinv := h
  unfold PoolInv at h
  obtain ⟨h1, h2, h3, h4, h5, h6, h7, h8, h9, h10⟩ := h
  cases hf : st.sessions.find? (fun s => s.sid = sid) with
  | none =>
    rw [step_release_none hf]
    exact hinv
  | some s =>
    cases hb2 : (s.busy && !s.deleted) with
    | false =>
      rw [step_release_noguard hf hb2]
      exact hinv
    | true =>
      have hb : s.busy = true := by
        cases hbu : s.busy
        · rw [hbu] at hb2; simp at hb2
        · rfl
      have hd : s.deleted = false := by
        cases hde : s.deleted
        · rfl
        · rw [hde] at hb2; simp [hb] at hb2
      have hsmem : s ∈ st.sessions := List.mem_of_find?_eq_some hf
      have hssid : s.sid = sid := by simpa using List.find?_some hf
      cases hc : s.closing with
      | true =>
        rw [step_release_closing hf hb hd hc]
        apply poolInv_deleteSessionStart
        unfold PoolInv
        refine ⟨h1, h2, h3, pd_entries_setBusy sid false h4, ?_, ?_, h7, h8, ?_, ?_⟩
        · show ((setBusy st.sessions sid false).map Sess.sid).Nodup
          rw [setBusy_map_sid]
          exact h5
        · intro s2 hs2
          obtain ⟨s0, hs0, e1, _, _, _⟩ := mem_setBusy_elim hs2
          rw [e1]
          exact h6 s0 hs0
        · show ((setBusy st.sessions sid false).length : Int)
              + (st.newSessionsRequested : Int) - (st.sessionsBeingDeleted : Int)
              ≤ (st.maxLimit : Int) + 1
          rw [setBusy_length]
          exact h9
        · intro hne s2 hs2
          obtain ⟨s0, hs0, e1, e2, e3, e4⟩ := mem_setBusy_elim hs2
          by_cases hcs : s0.sid = sid
          · have hse : s0 = s :=
              List.inj_on_of_nodup_map h5 hs0 hsmem (by rw [hcs, hssid])
            unfold sessionIsFree
            rw [e3, hse, hc]
            simp
          · have hff := h10 hne s0 hs0
            unfold sessionIsFree at hff ⊢
            rw [e4, e3, e2]
            simpa [hcs] using hff
      | false =>
        rw [step_release_open hf hb hd hc]
        unfold PoolInv
        refine ⟨h1, h2, h3, pd_entries_setBusy sid _ h4, ?_, ?_, ?_, ?_, ?_, ?_⟩
        · show ((setBusy st.sessions sid
              (useWaiterChain sid st.waiters).2.2).map Sess.sid).Nodup
          rw [setBusy_map_sid]
          exact h5
        · intro s2 hs2
          obtain ⟨s0, hs0, e1, _, _, _⟩ := mem_setBusy_elim hs2
          rw [e1]
          exact h6 s0 hs0
        · intro w2 hw2
          exact h7 w2 ((uc_sublist sid st.waiters).subset hw2)
        · exact h8.sublist ((uc_sublist sid st.waiters).map Waiter.wid)
        · show ((setBusy st.sessions sid
              (useWaiterChain sid st.waiters).2.2).length : Int)
              + (st.newSessionsRequested : Int) - (st.sessionsBeingDeleted : Int)
              ≤ (st.maxLimit : Int) + 1
          rw [setBusy_length]
          exact h9
        · intro hne
          have hwne : st.waiters ≠ [] := by
            intro h0
            apply hne
            show (useWaiterChain sid st.waiters).1 = []
            rw [h0]
            unfold useWaiterChain
            rfl
          have htk : (useWaiterChain sid st.waiters).2.2 = true := by
            by_contra hcon
            exact hne (uc_not_taken sid st.waiters
              (by revert hcon; cases (useWaiterChain sid st.waiters).2.2 <;> simp))
          rw [htk]
          exact not_free_setBusyTrue (h10 hwne)

theorem poolInv_brokenSig (st : PoolState) (sid : Nat)
    (h : PoolInv st) : PoolInv (stepPool st (Ev.brokenSig sid)).1 := by
  have hinv := h
  cases hf : st.sessions.find? (fun s => s.sid = sid) with
  | none =>
    rw [step_broken_none hf]
    exact hinv
  | some s =>
    cases hb2 : (s.busy && !s.deleted) with
    | false =>
      rw [step_broken_noguard hf hb2]
      exact hinv
    | true =>
      have hb : s.busy = true := by
        cases hbu : s.busy
        · rw [hbu] at hb2; simp at hb2
        · rfl
      have hd : s.deleted = false := by
        cases hde : s.deleted
        · rfl
        · rw [hde] at hb2; simp [hb] at hb2
      rw [step_broken_live hf hb hd]
      exact poolInv_deleteSessionStart st sid hinv

theorem poolInv_markClosing (st : PoolState) (sid : Nat)
    (h : PoolInv st) : PoolInv (stepPool st (Ev.markClosing sid)).1 := by
  have hinv := h
  unfold PoolInv at h
  obtain ⟨h1, h2, h3, h4, h5, h6, h7, h8, h9, h10⟩ := h
  cases hf : st.sessions.find? (fun s => s.sid = sid) with
  | none =>
    rw [step_markClosing_none hf]
    exact hinv
  | some s =>
    cases hb2 : (s.busy && !s.deleted) with
    | false =>
      rw [step_markClosing_noguard hf hb2]
      exact hinv
    | true =>
      have hb : s.busy = true := by
        cases hbu : s.busy
        · rw [hbu] at hb2; simp at hb2
        · rfl
      have hd : s.deleted = false := by
        cases hde : s.deleted
        · rfl
        · rw [hde] at hb2; simp [hb] at hb2
      rw [step_markClosing_live hf hb hd]
      unfold PoolInv
      refine ⟨h1, h2, h3, pd_entries_setClosing sid h4, ?_, ?_, h7, h8, ?_, ?_⟩
      · show ((setClosing st.sessions sid).map Sess.sid).Nodup
        rw [setClosing_map_sid]
        exact h5
      · intro s2 hs2
        obtain ⟨s0, hs0, e1, _, _, _⟩ := mem_setClosing_elim hs2
        rw [e1]
        exact h6 s0 hs0
      · show ((setClosing st.sessions sid).length : Int)
            + (st.newSessionsRequested : Int) - (st.sessionsBeingDeleted : Int)
            ≤ (st.maxLimit : Int) + 1
        rw [setClosing_length]
        exact h9
      · intro hne s2 hs2
        exact not_free_setClosing (h10 hne) s2 hs2

theorem poolInv_deleteDone (st : PoolState) (sid : Nat)
    (h : PoolInv st) : PoolInv (stepPool st (Ev.deleteDone sid)).1 := by
  have hinv := h
  unfold PoolInv at h
  obtain ⟨h1, h2, h3, h4, h5, h6, h7, h8, h9, h10⟩ := h
  by_cases hin : sid ∈ st.pendingDeletes
  · rw [step_deleteDone_in hin]
    unfold PoolInv
    obtain ⟨sdel, hsdel, hsdsid, _⟩ := h4 sid hin
    have hpd1 : 1 ≤ st.pendingDeletes.length := List.length_pos.mpr
      (by intro h0; rw [h0] at hin; cases hin)
    refine ⟨h1, ?_, h3.erase sid, ?_, ?_, ?_, h7, h8, ?_, ?_⟩
    · show st.sessionsBeingDeleted - 1 = (st.pendingDeletes.erase sid).length
      rw [List.length_erase_of_mem hin]
      omega
    · intro y hy
      obtain ⟨hyne, hymem⟩ := (h3.mem_erase_iff).mp hy
      obtain ⟨s2, hs2, e, d⟩ := h4 y hymem
      refine ⟨s2, List.mem_filter.mpr ⟨hs2, ?_⟩, e, d⟩
      simp [e, hyne]
    · exact h5.sublist ((List.filter_sublist st.sessions).map Sess.sid)
    · intro s2 hs2
      exact h6 s2 (List.mem_of_mem_filter hs2)
    · show (((st.sessions.filter (fun s => s.sid ≠ sid)).length : Int)
          + (st.newSessionsRequested : Int)
          - ((st.sessionsBeingDeleted - 1 : Nat) : Int)) ≤ (st.maxLimit : Int) + 1
      rw [filter_ne_length st.sessions sid h5 ⟨sdel, hsdel, hsdsid⟩]
      have hsess1 : 1 ≤ st.sessions.length := List.length_pos.mpr
        (by intro h0; rw [h0] at hsdel; cases hsdel)
      unfold effectiveSize at h9
      have hdel1 : 1 ≤ st.sessionsBeingDeleted := by omega
      push_cast [hsess1, hdel1] at h9 ⊢
      omega
    · intro hne s2 hs2
      exact h10 hne s2 (List.mem_of_mem_filter hs2)
  · rw [step_deleteDone_out hin]
    exact hinv

theorem poolInv_timeoutFire (st : PoolState) (wid : Nat)
    (h : PoolInv st) : PoolInv (stepPool st (Ev.timeoutFire wid)).1 := by
  have hinv := h
  unfold PoolInv at h
  obtain ⟨h1, h2, h3, h4, h5, h6, h7, h8, h9, h10⟩ := h
  cases hfw : st.waiters.find? (fun w => w.wid = wid) with
  | none =>
    rw [step_timeout_none hfw]
    exact hinv
  | some w =>
    cases hg : (w.hasTimeout && !w.internal) with
    | false =>
      rw [step_timeout_noguard hfw hg]
      exact hinv
    | true =>
      have hht : w.hasTimeout = true := by
        cases hx : w.hasTimeout
        · rw [hx] at hg; simp at hg
        · rfl
      have hwi : w.internal = false := by
        cases hx : w.internal
        · rfl
        · rw [hx] at hg; simp [hht] at hg
      rw [step_timeout_hit hfw hht hwi]
      unfold PoolInv
      refine ⟨h1, h2, h3, h4, h5, h6, ?_, ?_, h9, ?_⟩
      · intro w2 hw2
        exact h7 w2 ((List.eraseP_sublist st.waiters).subset hw2)
      · exact h8.sublist ((List.eraseP_sublist st.waiters).map Waiter.wid)
      · intro hne s2 hs2
        refine h10 ?_ s2 hs2
        intro h0
        rw [h0] at hne
        simp at hne

theorem poolInv_step (st : PoolState) (e : Ev)
    (h : PoolInv st) : PoolInv (stepPool st e).1 := by
  cases e with
  | acquireStart cid ht => exact poolInv_acquireStart st cid ht h
  | createDone i => exact poolInv_createDone st i h
  | createFail i => exact poolInv_createFail st i h
  | releaseSig sid => exact poolInv_releaseSig st sid h
  | brokenSig sid => exact poolInv_brokenSig st sid h
  | markClosing sid => exact poolInv_markClosing st sid h
  | deleteDone sid => exact poolInv_deleteDone st sid h
  | timeoutFire wid => exact poolInv_timeoutFire st wid h

theorem poolInv_runPool (st : PoolState) (es : List Ev)
    (h : PoolInv st) : PoolInv (runPool st es).1 := by
  induction es generalizing st with
  | nil => exact h
  | cons e es ih =>
    show PoolInv (runPool st (e :: es)).1
    unfold runPool
    exact ih (stepPool st e).1 (poolInv_step st e h)

theorem replacementAcquire_maxLimit (st1 : PoolState) :
    (replacementAcquire st1).1.maxLimit = st1.maxLimit := by
  rcases replacementAcquire_cases st1 with
    ⟨_, hp⟩ | ⟨t, _, _, hp⟩ | ⟨_, _, _, hp⟩ | ⟨_, _, _, hp⟩ <;> rw [hp]

theorem deleteSessionStart_maxLimit (st : PoolState) (sid : Nat) :
    (deleteSessionStart st sid).1.maxLimit = st.maxLimit := by
  cases hf : st.sessions.find? (fun s => s.sid = sid) with
  | none => rw [deleteSessionStart_not_found hf]
  | some s =>
    cases hdel : s.deleted with
    | true => rw [deleteSessionStart_deleted hf hdel]
    | false =>
      rw [deleteSessionStart_live hf hdel]
      exact replacementAcquire_maxLimit _

theorem stepPool_maxLimit (st : PoolState) (e : Ev) :
    (stepPool st e).1.maxLimit = st.maxLimit := by
  cases e with
  | acquireStart cid ht =>
    cases hff : st.sessions.find? sessionIsFree with
    | some t => rw [step_acquire_free hff]
    | none =>
      by_cases hg : effectiveSize st ≤ (st.maxLimit : Int)
      · rw [step_acquire_gate hff hg]
      · rw [step_acquire_wait hff hg]
  | createDone i =>
    cases hcd : st.pendingCreates.get? i with
    | none => rw [step_createDone_none hcd]
    | some tok =>
      cases tok with
      | forCaller cid => rw [step_createDone_forCaller hcd]
      | forDelete =>
        cases hwx : st.waiters with
        | nil => rw [step_createDone_forDelete_nil hcd hwx]
        | cons w ws => rw [step_createDone_forDelete_cons hcd hwx]
  | createFail i =>
    by_cases hlen : i < st.pendingCreates.length
    · rw [step_createFail_in hlen]
    · rw [step_createFail_out hlen]
  | releaseSig sid =>
    cases hf : st.sessions.find? (fun s => s.sid = sid) with
    | none => rw [step_release_none hf]
    | some s =>
      cases hb2 : (s.busy && !s.deleted) with
      | false => rw [step_release_noguard hf hb2]
      | true =>
        have hb : s.busy = true := by
          cases hbu : s.busy
          · rw [hbu] at hb2; simp at hb2
          · rfl
        have hd : s.deleted = false := by
          cases hde : s.deleted
          · rfl
          · rw [hde] at hb2; simp [hb] at hb2
        cases hc : s.closing with
        | true =>
          rw [step_release_closing hf hb hd hc]
          exact deleteSessionStart_maxLimit _ sid
        | false => rw [step_release_open hf hb hd hc]
  | brokenSig sid =>
    cases hf : st.sessions.find? (fun s => s.sid = sid) with
    | none => rw [step_broken_none hf]
    | some s =>
      cases hb2 : (s.busy && !s.deleted) with
      | false => rw [step_broken_noguard hf hb2]
      | true =>
        have hb : s.busy = true := by
          cases hbu : s.busy
          · rw [hbu] at hb2; simp at hb2
          · rfl
        have hd : s.deleted = false := by
          cases hde : s.deleted
          · rfl
          · rw [hde] at hb2; simp [hb] at hb2
        rw [step_broken_live hf hb hd]
        exact deleteSessionStart_maxLimit st sid
  | markClosing sid =>
    cases hf : st.sessions.find? (fun s => s.sid = sid) with
    | none => rw [step_markClosing_none hf]
    | some s =>
      cases hb2 : (s.busy && !s.deleted) with
      | false => rw [step_markClosing_noguard hf hb2]
      | true =>
        have hb : s.busy = true := by
          cases hbu : s.busy
          · rw [hbu] at hb2; simp at hb2
          · rfl
        have hd : s.deleted = false := by
          cases hde : s.deleted
          · rfl
          · rw [hde] at hb2; simp [hb] at hb2
        rw [step_markClosing_live hf hb hd]
  | deleteDone sid =>
    by_cases hin : sid ∈ st.pendingDeletes
    · rw [step_deleteDone_in hin]
    · rw [step_deleteDone_out hin]
  | timeoutFire wid =>
    cases hfw : st.waiters.find? (fun w => w.wid = wid) with
    | none => rw [step_timeout_none hfw]
    | some w =>
      cases hg : (w.hasTimeout && !w.internal) with
      | false => rw [step_timeout_noguard hfw hg]
      | true =>
        have hht : w.hasTimeout = true := by
          cases hx : w.hasTimeout
          · rw [hx] at hg; simp at hg
          · rfl
        have hwi : w.internal = false := by
          cases hx : w.internal
          · rfl
          · rw [hx] at hg; simp [hht] at hg
        rw [step_timeout_hit hfw hht hwi]

theorem runPool_maxLimit (st : PoolState) (es : List Ev) :
    (runPool st es).1.maxLimit = st.maxLimit := by
  induction es generalizing st with
  | nil => rfl
  | cons e es ih =>
    show (runPool st (e :: es)).1.maxLimit = st.maxLimit
    unfold runPool
    rw [ih (stepPool st e).1, stepPool_maxLimit]

theorem deleteSessionStart_cases (st : PoolState) (sid : Nat) :
    deleteSessionStart st sid = (st, []) ∨
    (∃ s, st.sessions.find? (fun s2 => s2.sid = sid) = some s ∧ s ∈ st.sessions ∧
      s.sid = sid ∧ s.deleted = false ∧
      ((st.waiters = [] ∧
        deleteSessionStart st sid =
          ({ st with sessionsBeingDeleted := st.sessionsBeingDeleted + 1,
                     sessions := setDeleted st.sessions sid,
                     pendingDeletes := st.pendingDeletes ++ [sid] },
           [Output.evicted sid])) ∨
       (∃ t, st.waiters ≠ [] ∧ st.sessions.find? sessionIsFree = some t ∧
        deleteSessionStart st sid =
          ({ st with sessionsBeingDeleted := st.sessionsBeingDeleted + 1,
                     sessions := setDeleted
                       (setBusy st.sessions t.sid
                         (useWaiterChain t.sid st.waiters).2.2) sid,
                     waiters := (useWaiterChain t.sid st.waiters).1,
                     pendingDeletes := st.pendingDeletes ++ [sid] },
           (useWaiterChain t.sid st.waiters).2.1 ++ [Output.evicted sid])) ∨
       (st.waiters ≠ [] ∧ st.sessions.find? sessionIsFree = none ∧
        deleteSessionStart st sid =
          ({ st with sessionsBeingDeleted := st.sessionsBeingDeleted + 1,
                     newSessionsRequested := st.newSessionsRequested + 1,
                     pendingCreates := st.pendingCreates ++ [CreateTok.forDelete],
                     sessions := setDeleted st.sessions sid,
                     pendingDeletes := st.pendingDeletes ++ [sid] },
           [Output.evicted sid])) ∨
       (st.waiters ≠ [] ∧ st.sessions.find? sessionIsFree = none ∧
        deleteSessionStart st sid =
          ({ st with sessionsBeingDeleted := st.sessionsBeingDeleted + 1,
                     waiters := st.waiters ++ [⟨st.nextWid, false, true⟩],
                     nextWid := st.nextWid + 1,
                     sessions := setDeleted st.sessions sid,
                     pendingDeletes := st.pendingDeletes ++ [sid] },
           [Output.enq st.nextWid true false, Output.evicted sid])))) := by
  cases hf : st.sessions.find? (fun s2 => s2.sid = sid) with
  | none => exact Or.inl (deleteSessionStart_not_found hf)
  | some s =>
    cases hdel : s.deleted with
    | true => exact Or.inl (deleteSessionStart_deleted hf hdel)
    | false =>
      refine Or.inr ⟨s, rfl, List.mem_of_find?_eq_some hf,
        by simpa using List.find?_some hf, hdel, ?_⟩
      have hlive := deleteSessionStart_live hf hdel
      rcases replacementAcquire_cases
          { st with sessionsBeingDeleted := st.sessionsBeingDeleted + 1 } with
        ⟨hwA, hpA⟩ | ⟨t, hwB, hffB, hpB⟩ | ⟨hwC, hffC, hgC, hpC⟩ | ⟨hwD, hffD, hgD, hpD⟩
      · exact Or.inl ⟨hwA, by rw [hlive, hpA]; try rfl⟩
      · exact Or.inr (Or.inl ⟨t, hwB, hffB, by rw [hlive, hpB]; try rfl⟩)
      · exact Or.inr (Or.inr (Or.inl ⟨hwC, hffC, by rw [hlive, hpC]; try rfl⟩))
      · exact Or.inr (Or.inr (Or.inr ⟨hwD, hffD, by rw [hlive, hpD]; try rfl⟩))

theorem stepPool_cases (st : PoolState) (e : Ev) :
    stepPool st e = (st, []) ∨
    (∃ cid ht t, e = Ev.acquireStart cid ht ∧
      st.sessions.find? sessionIsFree = some t ∧
      stepPool st e = ({ st with sessions := setBusy st.sessions t.sid true },
        [Output.handout (Tgt.caller cid) t.sid])) ∨
    (∃ cid ht, e = Ev.acquireStart cid ht ∧
      st.sessions.find? sessionIsFree = none ∧
      effectiveSize st ≤ (st.maxLimit : Int) ∧
      stepPool st e = ({ st with
        newSessionsRequested := st.newSessionsRequested + 1,
        pendingCreates := st.pendingCreates ++ [CreateTok.forCaller cid] }, [])) ∨
    (∃ cid ht, e = Ev.acquireStart cid ht ∧
      st.sessions.find? sessionIsFree = none ∧
      ¬ effectiveSize st ≤ (st.maxLimit : Int) ∧
      stepPool st e = ({ st with
        waiters := st.waiters ++ [⟨st.nextWid, ht, false⟩],
        nextWid := st.nextWid + 1 }, [Output.enq st.nextWid false ht])) ∨
    (∃ i cid, e = Ev.createDone i ∧
      st.pendingCreates.get? i = some (CreateTok.forCaller cid) ∧
      stepPool st e = ({ st with
        pendingCreates := st.pendingCreates.eraseIdx i,
        newSessionsRequested := st.newSessionsRequested - 1,
        nextSid := st.nextSid + 1,
        sessions := setBusy (st.sessions ++ [initSess st.nextSid]) st.nextSid true },
        [Output.handout (Tgt.caller cid) st.nextSid])) ∨
    (∃ i, e = Ev.createDone i ∧
      st.pendingCreates.get? i = some CreateTok.forDelete ∧ st.waiters = [] ∧
      stepPool st e = ({ st with
        pendingCreates := st.pendingCreates.eraseIdx i,
        newSessionsRequested := st.newSessionsRequested - 1,
        nextSid := st.nextSid + 1,
        sessions := st.sessions ++ [initSess st.nextSid] },
        [Output.released st.nextSid])) ∨
    (∃ i, e = Ev.createDone i ∧
      st.pendingCreates.get? i = some CreateTok.forDelete ∧ st.waiters ≠ [] ∧
      stepPool st e = ({ st with
        pendingCreates := st.pendingCreates.eraseIdx i,
        newSessionsRequested := st.newSessionsRequested - 1,
        nextSid := st.nextSid + 1,
        sessions := setBusy (st.sessions ++ [initSess st.nextSid]) st.nextSid
          (useWaiterChain st.nextSid st.waiters).2.2,
        waiters := (useWaiterChain st.nextSid st.waiters).1 },
        (useWaiterChain st.nextSid st.waiters).2.1)) ∨
    (∃ i, e = Ev.createFail i ∧ i < st.pendingCreates.length ∧
      stepPool st e = ({ st with
        pendingCreates := st.pendingCreates.eraseIdx i,
        newSessionsRequested := st.newSessionsRequested - 1 }, [])) ∨
    (∃ sid s, e = Ev.releaseSig sid ∧
      st.sessions.find? (fun s2 => s2.sid = sid) = some s ∧ s ∈ st.sessions ∧
      s.sid = sid ∧ s.busy = true ∧ s.deleted = false ∧ s.closing = true ∧
      stepPool st e =
        ((deleteSessionStart
            { st with sessions := setBusy st.sessions sid false } sid).1,
         Output.released sid ::
           (deleteSessionStart
             { st with sessions := setBusy st.sessions sid false } sid).2)) ∨
    (∃ sid s, e = Ev.releaseSig sid ∧
      st.sessions.find? (fun s2 => s2.sid = sid) = some s ∧ s ∈ st.sessions ∧
      s.sid = sid ∧ s.busy = true ∧ s.deleted = false ∧ s.closing = false ∧
      stepPool st e = ({ st with
          sessions := setBusy st.sessions sid (useWaiterChain sid st.waiters).2.2,
          waiters := (useWaiterChain sid st.waiters).1 },
        Output.released sid :: (useWaiterChain sid st.waiters).2.1)) ∨
    (∃ sid s, e = Ev.brokenSig sid ∧
      st.sessions.find? (fun s2 => s2.sid = sid) = some s ∧ s ∈ st.sessions ∧
      s.sid = sid ∧ s.busy = true ∧ s.deleted = false ∧
      stepPool st e = deleteSessionStart st sid) ∨
    (∃ sid s, e = Ev.markClosing sid ∧
      st.sessions.find? (fun s2 => s2.sid = sid) = some s ∧
      s.busy = true ∧ s.deleted = false ∧
      stepPool st e = ({ st with sessions := setClosing st.sessions sid }, [])) ∨
    (∃ sid, e = Ev.deleteDone sid ∧ sid ∈ st.pendingDeletes ∧
      stepPool st e = ({ st with
        pendingDeletes := st.pendingDeletes.erase sid,
        sessionsBeingDeleted := st.sessionsBeingDeleted - 1,
        sessions := st.sessions.filter (fun s => s.sid ≠ sid) }, [])) ∨
    (∃ wid w, e = Ev.timeoutFire wid ∧
      st.waiters.find? (fun w2 => w2.wid = wid) = some w ∧ w ∈ st.waiters ∧
      w.wid = wid ∧ w.hasTimeout = true ∧ w.internal = false ∧
      stepPool st e = ({ st with
        waiters := st.waiters.eraseP (fun w2 => w2.wid = wid) },
        [Output.timedOut wid])) := by
  cases e with
  | acquireStart cid ht =>
    cases hff : st.sessions.find? sessionIsFree with
    | some t =>
      exact Or.inr (Or.inl ⟨cid, ht, t, rfl, rfl, step_acquire_free hff⟩)
    | none =>
      by_cases hg : effectiveSize st ≤ (st.maxLimit : Int)
      · exact Or.inr (Or.inr (Or.inl ⟨cid, ht, rfl, rfl, hg, step_acquire_gate hff hg⟩))
      · exact Or.inr (Or.inr (Or.inr (Or.inl
          ⟨cid, ht, rfl, rfl, hg, step_acquire_wait hff hg⟩)))
  | createDone i =>
    cases hcd : st.pendingCreates.get? i with
    | none => exact Or.inl (step_createDone_none hcd)
    | some tok =>
      cases tok with
      | forCaller cid =>
        exact Or.inr (Or.inr (Or.inr (Or.inr (Or.inl
          ⟨i, cid, rfl, hcd, step_createDone_forCaller hcd⟩))))
      | forDelete =>
        cases hwx : st.waiters with
        | nil =>
          exact Or.inr (Or.inr (Or.inr (Or.inr (Or.inr (Or.inl
            ⟨i, rfl, hcd, rfl, by rw [step_createDone_forDelete_nil hcd hwx, hwx]⟩)))))
        | cons w ws =>
          refine Or.inr (Or.inr (Or.inr (Or.inr (Or.inr (Or.inr (Or.inl
            ⟨i, rfl, hcd, by simp, ?_⟩))))))
          have h2 := step_createDone_forDelete_cons hcd hwx
          rw [hwx] at h2
          exact h2
  | createFail i =>
    by_cases hlen : i < st.pendingCreates.length
    · exact Or.inr (Or.inr (Or.inr (Or.inr (Or.inr (Or.inr (Or.inr (Or.inl
        ⟨i, rfl, hlen, step_createFail_in hlen⟩)))))))
    · exact Or.inl (step_createFail_out hlen)
  | releaseSig sid =>
    cases hf : st.sessions.find? (fun s2 => s2.sid = sid) with
    | none => exact Or.inl (step_release_none hf)
    | some s =>
      cases hb2 : (s.busy && !s.deleted) with
      | false => exact Or.inl (step_release_noguard hf hb2)
      | true =>
        have hb : s.busy = true := by
          cases hbu : s.busy
          · rw [hbu] at hb2; simp at hb2
          · rfl
        have hd : s.deleted = false := by
          cases hde : s.deleted
          · rfl
          · rw [hde] at hb2; simp [hb] at hb2
        have hsm : s ∈ st.sessions := List.mem_of_find?_eq_some hf
        have hss : s.sid = sid := by simpa using List.find?_some hf
        cases hc : s.closing with
        | true =>
          exact Or.inr (Or.inr (Or.inr (Or.inr (Or.inr (Or.inr (Or.inr (Or.inr (Or.inl
            ⟨sid, s, rfl, hf, hsm, hss, hb, hd, hc,
              step_release_closing hf hb hd hc⟩))))))))
        | false =>
          exact Or.inr (Or.inr (Or.inr (Or.inr (Or.inr (Or.inr (Or.inr (Or.inr (Or.inr
            (Or.inl ⟨sid, s, rfl, hf, hsm, hss, hb, hd, hc,
              step_release_open hf hb hd hc⟩)))))))))
  | brokenSig sid =>
    cases hf : st.sessions.find? (fun s2 => s2.sid = sid) with
    | none => exact Or.inl (step_broken_none hf)
    | some s =>
      cases hb2 : (s.busy && !s.deleted) with
      | false => exact Or.inl (step_broken_noguard hf hb2)
      | true =>
        have hb : s.busy = true := by
          cases hbu : s.busy
          · rw [hbu] at hb2; simp at hb2
          · rfl
        have hd : s.deleted = false := by
          cases hde : s.deleted
          · rfl
          · rw [hde] at hb2; simp [hb] at hb2
        exact Or.inr (Or.inr (Or.inr (Or.inr (Or.inr (Or.inr (Or.inr (Or.inr (Or.inr
          (Or.inr (Or.inl ⟨sid, s, rfl, hf, List.mem_of_find?_eq_some hf,
            by simpa using List.find?_some hf, hb, hd,
            step_broken_live hf hb hd⟩))))))))))
  | markClosing sid =>
    cases hf : st.sessions.find? (fun s2 => s2.sid = sid) with
    | none => exact Or.inl (step_markClosing_none hf)
    | some s =>
      cases hb2 : (s.busy && !s.deleted) with
      | false => exact Or.inl (step_markClosing_noguard hf hb2)
      | true =>
        have hb : s.busy = true := by
          cases hbu : s.busy
          · rw [hbu] at hb2; simp at hb2
          · rfl
        have hd : s.deleted = false := by
          cases hde : s.deleted
          · rfl
          · rw [hde] at hb2; simp [hb] at hb2
        exact Or.inr (Or.inr (Or.inr (Or.inr (Or.inr (Or.inr (Or.inr (Or.inr (Or.inr
          (Or.inr (Or.inr (Or.inl ⟨sid, s, rfl, hf, hb, hd,
            step_markClosing_live hf hb hd⟩)))))))))))
  | deleteDone sid =>
    by_cases hin : sid ∈ st.pendingDeletes
    · exact Or.inr (Or.inr (Or.inr (Or.inr (Or.inr (Or.inr (Or.inr (Or.inr (Or.inr
        (Or.inr (Or.inr (Or.inr (Or.inl ⟨sid, rfl, hin,
          step_deleteDone_in hin⟩))))))))))))
    · exact Or.inl (step_deleteDone_out hin)
  | timeoutFire wid =>
    cases hfw : st.waiters.find? (fun w2 => w2.wid = wid) with
    | none => exact Or.inl (step_timeout_none hfw)
    | some w =>
      cases hg : (w.hasTimeout && !w.internal) with
      | false => exact Or.inl (step_timeout_noguard hfw hg)
      | true =>
        have hht : w.hasTimeout = true := by
          cases hx : w.hasTimeout
          · rw [hx] at hg; simp at hg
          · rfl
        have hwi : w.internal = false := by
          cases hx : w.internal
          · rfl
          · rw [hx] at hg; simp [hht] at hg
        exact Or.inr (Or.inr (Or.inr (Or.inr (Or.inr (Or.inr (Or.inr (Or.inr (Or.inr
          (Or.inr (Or.inr (Or.inr (Or.inr ⟨wid, w, rfl, hfw,
            List.mem_of_find?_eq_some hfw, by simpa using List.find?_some hfw,
            hht, hwi, step_timeout_hit hfw hht hwi⟩))))))))))))

/-- Claim C1, amended.  Along every event sequence from a fresh pool with
capacity maxLimit = m, the admission quantity sessions.size +
newSessionsRequested - sessionsBeingDeleted never exceeds m + 1: a creation
is admitted only while the quantity is still at most m (the gate of
line 172 uses a non-strict comparison and increments afterwards), so a
concurrent burst can drive the number of live sessions plus in-flight
creations to maxLimit + 1 — one beyond the bound the claim states — but
never further. -/
theorem C1_admission_bound_amended (m : Nat) (es : List Ev) :
    effectiveSize (runPool (initPool m) es).1 ≤ (m : Int) + 1 := by
  have h := poolInv_runPool (initPool m) es (poolInv_initPool m)
  unfold PoolInv at h
  obtain ⟨_, _, _, _, _, _, _, _, h9, _⟩ := h
  rw [runPool_maxLimit] at h9
  exact h9

/-- Claim C1, counterexample to the claim as stated.  With maxLimit = 1 and
an empty pool, two acquire calls in a burst (no completion in between) are
both admitted by the gate, leaving two in-flight session creations and no
live session: live + in-flight = 2 exceeds maxLimit = 1. -/
theorem C1_admission_bound_counterexample :
    (runPool (initPool 1)
        [Ev.acquireStart 1 false, Ev.acquireStart 2 false]).1.maxLimit = 1 ∧
    effectiveSize (runPool (initPool 1)
        [Ev.acquireStart 1 false, Ev.acquireStart 2 false]).1 = 2 ∧
    ¬ effectiveSize (runPool (initPool 1)
        [Ev.acquireStart 1 false, Ev.acquireStart 2 false]).1 ≤
      ((runPool (initPool 1)
        [Ev.acquireStart 1 false, Ev.acquireStart 2 false]).1.maxLimit : Int) := by
  refine ⟨?_, ?_, ?_⟩ <;> decide


theorem runPool_preserve (P : PoolState → List Output → Prop)
    (hstep : ∀ st outs e, PoolInv st → P st outs →
      P (stepPool st e).1 (outs ++ (stepPool st e).2)) :
    ∀ (es : List Ev) (st : PoolState) (outs : List Output), PoolInv st →
      P st outs → P (runPool st es).1 (outs ++ (runPool st es).2) := by
  intro es
  induction es with
  | nil =>
    intro st outs _ hP
    show P (runPool st []).1 (outs ++ (runPool st []).2)
    unfold runPool
    simpa using hP
  | cons e es ih =>
    intro st outs hinv hP
    show P (runPool st (e :: es)).1 _
    unfold runPool
    have h2 := ih (stepPool st e).1 (outs ++ (stepPool st e).2)
      (poolInv_step st e hinv) (hstep st outs e hinv hP)
    simpa [List.append_assoc] using h2

theorem nhae_nil : noHandoutAfterEvicted [] := by
  intro i j sid hij hi
  simp at hi

theorem nhae_of_no_evicted {l : List Output}
    (h : ∀ x, Output.evicted x ∉ l) : noHandoutAfterEvicted l := by
  intro i j sid hij hi t hj
  exact h sid (List.get?_mem hi)

theorem nhae_append {l1 l2 : List Output}
    (h1 : noHandoutAfterEvicted l1) (h2 : noHandoutAfterEvicted l2)
    (h3 : ∀ x, Output.evicted x ∈ l1 → ∀ t, Output.handout t x ∉ l2) :
    noHandoutAfterEvicted (l1 ++ l2) := by
  intro i j sid hij hi t hj
  by_cases hi1 : i < l1.length
  · rw [List.get?_append hi1] at hi
    by_cases hj1 : j < l1.length
    · rw [List.get?_append hj1] at hj
      exact h1 i j sid hij hi t hj
    · rw [List.get?_append_right (Nat.le_of_not_lt hj1)] at hj
      exact h3 sid (List.get?_mem hi) t (List.get?_mem hj)
  · have hi1' : l1.length ≤ i := Nat.le_of_not_lt hi1
    have hj1' : l1.length ≤ j := le_trans hi1' (Nat.le_of_lt hij)
    rw [List.get?_append_right hi1'] at hi
    rw [List.get?_append_right hj1'] at hj
    exact h2 (i - l1.length) (j - l1.length) sid (by omega) hi t hj

theorem sidMarks_append (sid : Nat) (l1 l2 : List Output) :
    sidMarks sid (l1 ++ l2) = sidMarks sid l1 ++ sidMarks sid l2 := by
  simp [sidMarks]

theorem sidMarks_empty_of_bound {outs : List Output} {n m : Nat}
    (hh : ∀ t x, Output.handout t x ∈ outs → x < n)
    (hr : ∀ x, Output.released x ∈ outs → x < n) (hnm : n ≤ m) :
    sidMarks m outs = [] := by
  rw [sidMarks, List.filterMap_eq_nil_iff]
  intro o ho
  cases o with
  | handout t x =>
    have := hh t x ho
    cases t <;> simp <;> omega
  | released x =>
    have := hr x ho
    simp
    omega
  | evicted x => rfl
  | enq w i t => rfl
  | timedOut w => rfl

theorem marks_sid_lt {outs : List Output} {n sid : Nat}
    (hh : ∀ t x, Output.handout t x ∈ outs → x < n)
    (hr : ∀ x, Output.released x ∈ outs → x < n)
    (hne : sidMarks sid outs ≠ []) : sid < n := by
  by_contra hcon
  exact hne (sidMarks_empty_of_bound hh hr (Nat.le_of_not_lt hcon))

theorem uc_released_sid (sid x : Nat) (q : List Waiter)
    (h : Output.released x ∈ (useWaiterChain sid q).2.1) : x = sid := by
  rcases uc_outs_shape sid q _ h with ⟨t2, ht⟩ | ht
  · cases ht
  · cases ht
    rfl

theorem uc_enqFull (sid : Nat) (q : List Waiter) :
    enqFull (useWaiterChain sid q).2.1 = [] := by
  rw [enqFull, List.filterMap_eq_nil_iff]
  intro o ho
  rcases uc_outs_shape sid q o ho with ⟨t, rfl⟩ | rfl <;> rfl

theorem matchdel_setBusy {l : List Sess} {y x : Nat} {b : Bool}
    (h : ∀ s ∈ l, s.sid = x → s.deleted = true) :
    ∀ s2 ∈ setBusy l y b, s2.sid = x → s2.deleted = true := by
  intro s2 hs2 hx
  obtain ⟨s0, hs0, e1, e2, _, _⟩ := mem_setBusy_elim hs2
  rw [e2]
  exact h s0 hs0 (by rw [← e1, hx])

theorem matchdel_setClosing {l : List Sess} {y x : Nat}
    (h : ∀ s ∈ l, s.sid = x → s.deleted = true) :
    ∀ s2 ∈ setClosing l y, s2.sid = x → s2.deleted = true := by
  intro s2 hs2 hx
  obtain ⟨s0, hs0, e1, _, e3, _⟩ := mem_setClosing_elim hs2
  rw [e3]
  exact h s0 hs0 (by rw [← e1, hx])

theorem matchdel_setDeleted {l : List Sess} {y x : Nat}
    (h : ∀ s ∈ l, s.sid = x → s.deleted = true) :
    ∀ s2 ∈ setDeleted l y, s2.sid = x → s2.deleted = true := by
  intro s2 hs2 hx
  obtain ⟨s0, hs0, e1, _, _, e4⟩ := mem_setDeleted_elim hs2
  rw [e4]
  by_cases hc : s0.sid = y
  · simp [hc]
  · simp [hc]
    exact h s0 hs0 (by rw [← e1, hx])

theorem matchdel_append_fresh {l : List Sess} {n x : Nat}
    (hne : n ≠ x) (h : ∀ s ∈ l, s.sid = x → s.deleted = true) :
    ∀ s2 ∈ l ++ [initSess n], s2.sid = x → s2.deleted = true := by
  intro s2 hs2 hx
  rcases List.mem_append.mp hs2 with hl | hr
  · exact h s2 hl hx
  · have : s2 = initSess n := by simpa using hr
    rw [this] at hx
    exact absurd hx hne

theorem matchbusy_setDeleted {l : List Sess} {y sid : Nat}
    (h : ∀ s ∈ l, s.sid = sid → s.busy = true) :
    ∀ s2 ∈ setDeleted l y, s2.sid = sid → s2.busy = true := by
  intro s2 hs2 hx
  obtain ⟨s0, hs0, e1, e2, _, _⟩ := mem_setDeleted_elim hs2
  rw [e2]
  exact h s0 hs0 (by rw [← e1, hx])

theorem matchbusy_setClosing {l : List Sess} {y sid : Nat}
    (h : ∀ s ∈ l, s.sid = sid → s.busy = true) :
    ∀ s2 ∈ setClosing l y, s2.sid = sid → s2.busy = true := by
  intro s2 hs2 hx
  obtain ⟨s0, hs0, e1, e2, _, _⟩ := mem_setClosing_elim hs2
  rw [e2]
  exact h s0 hs0 (by rw [← e1, hx])

theorem matchbusy_setBusy_ne {l : List Sess} {y sid : Nat} {b : Bool}
    (hne : y ≠ sid) (h : ∀ s ∈ l, s.sid = sid → s.busy = true) :
    ∀ s2 ∈ setBusy l y b, s2.sid = sid → s2.busy = true := by
  intro s2 hs2 hx
  obtain ⟨s0, hs0, e1, _, _, e4⟩ := mem_setBusy_elim hs2
  rw [e4]
  by_cases hc : s0.sid = y
  · exfalso
    rw [← e1, hx] at hc
    exact hne hc.symm
  · simp [hc]
    exact h s0 hs0 (by rw [← e1, hx])

theorem matchbusy_setBusy_true {l : List Sess} {y sid : Nat}
    (h : ∀ s ∈ l, s.sid = sid → s.busy = true) :
    ∀ s2 ∈ setBusy l y true, s2.sid = sid → s2.busy = true := by
  intro s2 hs2 hx
  obtain ⟨s0, hs0, e1, _, _, e4⟩ := mem_setBusy_elim hs2
  rw [e4]
  by_cases hc : s0.sid = y
  · simp [hc]
  · simp [hc]
    exact h s0 hs0 (by rw [← e1, hx])

theorem matchbusy_append_fresh {l : List Sess} {n sid : Nat}
    (hne : n ≠ sid) (h : ∀ s ∈ l, s.sid = sid → s.busy = true) :
    ∀ s2 ∈ l ++ [initSess n], s2.sid = sid → s2.busy = true := by
  intro s2 hs2 hx
  rcases List.mem_append.mp hs2 with hl | hr
  · exact h s2 hl hx
  · have : s2 = initSess n := by simpa using hr
    rw [this] at hx
    exact absurd hx hne

theorem matchbusy_setBusy_self {l : List Sess} {y : Nat} :
    ∀ s2 ∈ setBusy l y true, s2.sid = y → s2.busy = true := by
  intro s2 hs2 hx
  obtain ⟨s0, hs0, e1, _, _, e4⟩ := mem_setBusy_elim hs2
  rw [e4]
  have : s0.sid = y := by rw [← e1, hx]
  simp [this]

theorem matchdel_setDeleted_self {l : List Sess} {y : Nat} :
    ∀ s2 ∈ setDeleted l y, s2.sid = y → s2.deleted = true := by
  intro s2 hs2 hx
  obtain ⟨s0, hs0, e1, _, _, e4⟩ := mem_setDeleted_elim hs2
  rw [e4]
  have : s0.sid = y := by rw [← e1, hx]
  simp [this]

theorem nhae_of_no_handout {l : List Output}
    (h : ∀ t x, Output.handout t x ∉ l) : noHandoutAfterEvicted l := by
  intro i j sid hij hi t hj
  exact h t sid (List.get?_mem hj)

theorem nhae_singleton (o : Output) : noHandoutAfterEvicted [o] := by
  intro i j sid hij hi t hj
  have hj1 : j < 1 := by
    by_contra hcon
    have hlen : ([o] : List Output).length ≤ j := by
      simp
      omega
    rw [List.get?_eq_none.mpr hlen] at hj
    cases hj
  omega

theorem sidTraceInv_dss (stX : PoolState) (sid : Nat) (outsX : List Output)
    (hinv : PoolInv stX) (hS : SidTraceInv stX outsX) :
    SidTraceInv (deleteSessionStart stX sid).1
      (outsX ++ (deleteSessionStart stX sid).2) := by
  obtain ⟨B1, B2, B3, B4, B5, B6⟩ := hS
  unfold PoolInv at hinv
  obtain ⟨h1, h2, h3, h4, h5, h6, h7, h8, h9, h10⟩ := hinv
  rcases deleteSessionStart_cases stX sid with heq | ⟨s, hf, hsm, hss, hsd, hsub⟩
  · rw [heq]
    simpa using ⟨B1, B2, B3, B4, B5, B6⟩
  · have hsidlt : sid < stX.nextSid := hss ▸ h6 s hsm
    rcases hsub with ⟨hw, heq⟩ | ⟨t, hw, hff, heq⟩ | ⟨hw, hff, heq⟩ | ⟨hw, hff, heq⟩
    -- no waiters pending
    · rw [heq]
      refine ⟨?_, ?_, ?_, ?_, ?_, ?_⟩
      · intro tt x hx
        rcases List.mem_append.mp hx with hx | hx
        · exact B1 tt x hx
        · simp at hx
      · intro x hx
        rcases List.mem_append.mp hx with hx | hx
        · exact B2 x hx
        · simp at hx
      · intro x hx
        rcases List.mem_append.mp hx with hx | hx
        · exact ⟨(B3 x hx).1, matchdel_setDeleted (B3 x hx).2⟩
        · have hx' : x = sid := by simpa using hx
          subst hx'
          exact ⟨hsidlt, matchdel_setDeleted_self⟩
      · intro sid2
        rw [sidMarks_append]
        have hz : sidMarks sid2 [Output.evicted sid] = [] := rfl
        rw [hz, List.append_nil]
        exact B4 sid2
      · intro sid2 hlast
        rw [sidMarks_append] at hlast
        have hz : sidMarks sid2 [Output.evicted sid] = [] := rfl
        rw [hz, List.append_nil] at hlast
        exact matchbusy_setDeleted (B5 sid2 hlast)
      · refine nhae_append B6 (nhae_singleton _) ?_
        intro x _ tt hmem
        simp at hmem
    -- a free session coexisting with a pending waiter contradicts PoolInv
    · exfalso
      have hfree : sessionIsFree t = true := List.find?_some hff
      have := h10 hw t (List.mem_of_find?_eq_some hff)
      rw [hfree] at this
      cases this
    -- replacement creation requested
    · rw [heq]
      refine ⟨?_, ?_, ?_, ?_, ?_, ?_⟩
      · intro tt x hx
        rcases List.mem_append.mp hx with hx | hx
        · exact B1 tt x hx
        · simp at hx
      · intro x hx
        rcases List.mem_append.mp hx with hx | hx
        · exact B2 x hx
        · simp at hx
      · intro x hx
        rcases List.mem_append.mp hx with hx | hx
        · exact ⟨(B3 x hx).1, matchdel_setDeleted (B3 x hx).2⟩
        · have hx' : x = sid := by simpa using hx
          subst hx'
          exact ⟨hsidlt, matchdel_setDeleted_self⟩
      · intro sid2
        rw [sidMarks_append]
        have hz : sidMarks sid2 [Output.evicted sid] = [] := rfl
        rw [hz, List.append_nil]
        exact B4 sid2
      · intro sid2 hlast
        rw [sidMarks_append] at hlast
        have hz : sidMarks sid2 [Output.evicted sid] = [] := rfl
        rw [hz, List.append_nil] at hlast
        exact matchbusy_setDeleted (B5 sid2 hlast)
      · refine nhae_append B6 (nhae_singleton _) ?_
        intro x _ tt hmem
        simp at hmem
    -- internal waiter enqueued
    · rw [heq]
      refine ⟨?_, ?_, ?_, ?_, ?_, ?_⟩
      · intro tt x hx
        rcases List.mem_append.mp hx with hx | hx
        · exact B1 tt x hx
        · simp at hx
      · intro x hx
        rcases List.mem_append.mp hx with hx | hx
        · exact B2 x hx
        · simp at hx
      · intro x hx
        rcases List.mem_append.mp hx with hx | hx
        · exact ⟨(B3 x hx).1, matchdel_setDeleted (B3 x hx).2⟩
        · have hx' : x = sid := by simpa using hx
          subst hx'
          exact ⟨hsidlt, matchdel_setDeleted_self⟩
      · intro sid2
        rw [sidMarks_append]
        have hz : sidMarks sid2 [Output.enq stX.nextWid true false,
            Output.evicted sid] = [] := rfl
        rw [hz, List.append_nil]
        exact B4 sid2
      · intro sid2 hlast
        rw [sidMarks_append] at hlast
        have hz : sidMarks sid2 [Output.enq stX.nextWid true false,
            Output.evicted sid] = [] := rfl
        rw [hz, List.append_nil] at hlast
        exact matchbusy_setDeleted (B5 sid2 hlast)
      · refine nhae_append B6 (nhae_of_no_handout ?_) ?_
        · intro tt x hmem
          simp at hmem
        · intro x _ tt hmem
          simp at hmem

theorem poolInv_setBusyFalse (st : PoolState) (sid : Nat) (s : Sess)
    (hinv : PoolInv st) (hsm : s ∈ st.sessions) (hss : s.sid = sid)
    (hc : s.closing = true) :
    PoolInv { st with sessions := setBusy st.sessions sid false } := by
  unfold PoolInv at hinv
  obtain ⟨h1, h2, h3, h4, h5, h6, h7, h8, h9, h10⟩ := hinv
  unfold PoolInv
  refine ⟨h1, h2, h3, pd_entries_setBusy sid false h4, ?_, ?_, h7, h8, ?_, ?_⟩
  · show ((setBusy st.sessions sid false).map Sess.sid).Nodup
    rw [setBusy_map_sid]
    exact h5
  · intro s2 hs2
    obtain ⟨s0, hs0, e1, _, _, _⟩ := mem_setBusy_elim hs2
    rw [e1]
    exact h6 s0 hs0
  · show ((setBusy st.sessions sid false).length : Int)
        + (st.newSessionsRequested : Int) - (st.sessionsBeingDeleted : Int)
        ≤ (st.maxLimit : Int) + 1
    rw [setBusy_length]
    exact h9
  · intro hne s2 hs2
    obtain ⟨s0, hs0, e1, e2, e3, e4⟩ := mem_setBusy_elim hs2
    by_cases hcs : s0.sid = sid
    · have hse : s0 = s :=
        List.inj_on_of_nodup_map h5 hs0 hsm (by rw [hcs, hss])
      unfold sessionIsFree
      rw [e3, hse, hc]
      simp
    · have hff := h10 hne s0 hs0
      unfold sessionIsFree at hff ⊢
      rw [e4, e3, e2]
      simpa [hcs] using hff

theorem sidTraceInv_release_label (st : PoolState) (sid : Nat) (s : Sess)
    (outs : List Output) (hS : SidTraceInv st outs) (hsm : s ∈ st.sessions)
    (hss : s.sid = sid) (hlt : sid < st.nextSid) :
    SidTraceInv { st with sessions := setBusy st.sessions sid false }
      (outs ++ [Output.released sid]) := by
  obtain ⟨B1, B2, B3, B4, B5, B6⟩ := hS
  refine ⟨?_, ?_, ?_, ?_, ?_, ?_⟩
  · intro tt x hx
    rcases List.mem_append.mp hx with hx | hx
    · exact B1 tt x hx
    · simp at hx
  · intro x hx
    rcases List.mem_append.mp hx with hx | hx
    · exact B2 x hx
    · have hx' : x = sid := by simpa using hx
      rw [hx']
      exact hlt
  · intro x hx
    rcases List.mem_append.mp hx with hx | hx
    · exact ⟨(B3 x hx).1, matchdel_setBusy (B3 x hx).2⟩
    · simp at hx
  · intro sid2
    rw [sidMarks_append]
    by_cases hc2 : sid = sid2
    · subst hc2
      have hz : sidMarks sid [Output.released sid] = [false] := by
        simp [sidMarks]
      rw [hz]
      rw [List.chain'_append]
      refine ⟨B4 sid, List.chain'_singleton _, ?_⟩
      intro x _ y hy
      have : y = false := by simpa using hy
      rw [this]
      exact Or.inr rfl
    · have hz : sidMarks sid2 [Output.released sid] = [] := by
        simp [sidMarks, hc2]
      rw [hz, List.append_nil]
      exact B4 sid2
  · intro sid2 hlast
    rw [sidMarks_append] at hlast
    by_cases hc2 : sid = sid2
    · subst hc2
      have hz : sidMarks sid [Output.released sid] = [false] := by
        simp [sidMarks]
      rw [hz, List.getLast?_concat] at hlast
      simp at hlast
    · have hz : sidMarks sid2 [Output.released sid] = [] := by
        simp [sidMarks, hc2]
      rw [hz, List.append_nil] at hlast
      exact matchbusy_setBusy_ne hc2 (B5 sid2 hlast)
  · refine nhae_append B6 (nhae_singleton _) ?_
    intro x _ tt hmem
    simp at hmem

theorem sidTraceInv_step (st : PoolState) (outs : List Output) (e : Ev)
    (hinv : PoolInv st) (hS : SidTraceInv st outs) :
    SidTraceInv (stepPool st e).1 (outs ++ (stepPool st e).2) := by
  obtain ⟨B1, B2, B3, B4, B5, B6⟩ := hS
  have hinv' := hinv
  unfold PoolInv at hinv'
  obtain ⟨h1, h2, h3, h4, h5, h6, h7, h8, h9, h10⟩ := hinv'
  rcases stepPool_cases st e with heq |
    ⟨cid, ht, t, he, hff, heq⟩ | ⟨cid, ht, he, hff, hg, heq⟩ |
    ⟨cid, ht, he, hff, hg, heq⟩ | ⟨i, cid, he, hcd, heq⟩ |
    ⟨i, he, hcd, hw, heq⟩ | ⟨i, he, hcd, hw, heq⟩ | ⟨i, he, hlen, heq⟩ |
    ⟨sid, s, he, hf, hsm, hss, hb, hd, hc, heq⟩ |
    ⟨sid, s, he, hf, hsm, hss, hb, hd, hc, heq⟩ |
    ⟨sid, s, he, hf, hsm, hss, hb, hd, heq⟩ |
    ⟨sid, s, he, hf, hb, hd, heq⟩ | ⟨sid, he, hin, heq⟩ |
    ⟨wid, w, he, hfw, hwm, hww, hht, hwi, heq⟩
  -- no-op event
  · rw [heq]
    simpa using ⟨B1, B2, B3, B4, B5, B6⟩
  -- acquire finds a free session
  · rw [heq]
    have htm : t ∈ st.sessions := List.mem_of_find?_eq_some hff
    have htfree : sessionIsFree t = true := List.find?_some hff
    have htb : t.busy = false := by
      unfold sessionIsFree at htfree
      cases hb2 : t.busy
      · rfl
      · rw [hb2] at htfree; simp at htfree
    have htd : t.deleted = false := by
      unfold sessionIsFree at htfree
      cases hd2 : t.deleted
      · rfl
      · rw [hd2] at htfree; simp at htfree
    have htlt : t.sid < st.nextSid := h6 t htm
    refine ⟨?_, ?_, ?_, ?_, ?_, ?_⟩
    · intro tt x hx
      rcases List.mem_append.mp hx with hx | hx
      · exact B1 tt x hx
      · simp at hx
        rw [hx.2]
        exact htlt
    · intro x hx
      rcases List.mem_append.mp hx with hx | hx
      · exact B2 x hx
      · simp at hx
    · intro x hx
      rcases List.mem_append.mp hx with hx | hx
      · exact ⟨(B3 x hx).1, matchdel_setBusy (B3 x hx).2⟩
      · simp at hx
    · intro sid2
      rw [sidMarks_append]
      by_cases hc2 : t.sid = sid2
      · subst hc2
        have hz : sidMarks t.sid [Output.handout (Tgt.caller cid) t.sid]
            = [true] := by simp [sidMarks]
        rw [hz, List.chain'_append]
        refine ⟨B4 t.sid, List.chain'_singleton _, ?_⟩
        intro x hxl y hy
        have hy' : y = true := by simpa using hy
        cases hxv : x
        · exact Or.inl rfl
        · exfalso
          rw [hxv] at hxl
          have hxl' : (sidMarks t.sid outs).getLast? = some true := hxl
          have hbt := B5 t.sid hxl' t htm rfl
          rw [htb] at hbt
          cases hbt
      · have hz : sidMarks sid2 [Output.handout (Tgt.caller cid) t.sid]
            = [] := by simp [sidMarks, hc2]
        rw [hz, List.append_nil]
        exact B4 sid2
    · intro sid2 hlast
      rw [sidMarks_append] at hlast
      by_cases hc2 : t.sid = sid2
      · subst hc2
        exact matchbusy_setBusy_self
      · have hz : sidMarks sid2 [Output.handout (Tgt.caller cid) t.sid]
            = [] := by simp [sidMarks, hc2]
        rw [hz, List.append_nil] at hlast
        exact matchbusy_setBusy_ne hc2 (B5 sid2 hlast)
    · refine nhae_append B6 (nhae_singleton _) ?_
      intro x hev tt hmem
      simp at hmem
      obtain ⟨_, hx⟩ := hmem
      subst hx
      have := (B3 t.sid hev).2 t htm rfl
      rw [htd] at this
      cases this
  -- acquire admits a creation
  · rw [heq]
    simpa using ⟨B1, B2, B3, B4, B5, B6⟩
  -- acquire enqueues a waiter
  · rw [heq]
    refine ⟨?_, ?_, ?_, ?_, ?_, ?_⟩
    · intro tt x hx
      rcases List.mem_append.mp hx with hx | hx
      · exact B1 tt x hx
      · simp at hx
    · intro x hx
      rcases List.mem_append.mp hx with hx | hx
      · exact B2 x hx
      · simp at hx
    · intro x hx
      rcases List.mem_append.mp hx with hx | hx
      · exact B3 x hx
      · simp at hx
    · intro sid2
      rw [sidMarks_append]
      have hz : sidMarks sid2 [Output.enq st.nextWid false ht] = [] := rfl
      rw [hz, List.append_nil]
      exact B4 sid2
    · intro sid2 hlast
      rw [sidMarks_append] at hlast
      have hz : sidMarks sid2 [Output.enq st.nextWid false ht] = [] := rfl
      rw [hz, List.append_nil] at hlast
      exact B5 sid2 hlast
    · refine nhae_append B6 (nhae_singleton _) ?_
      intro x _ tt hmem
      simp at hmem
  -- createDone hands the new session to a caller
  · rw [heq]
    refine ⟨?_, ?_, ?_, ?_, ?_, ?_⟩
    · intro tt x hx
      rcases List.mem_append.mp hx with hx | hx
      · exact Nat.lt_succ_of_lt (B1 tt x hx)
      · simp at hx
        rw [hx.2]
        exact Nat.lt_succ_self _
    · intro x hx
      rcases List.mem_append.mp hx with hx | hx
      · exact Nat.lt_succ_of_lt (B2 x hx)
      · simp at hx
    · intro x hx
      rcases List.mem_append.mp hx with hx | hx
      · have hxlt := (B3 x hx).1
        exact ⟨Nat.lt_succ_of_lt hxlt,
          matchdel_setBusy (matchdel_append_fresh (by omega) (B3 x hx).2)⟩
      · simp at hx
    · intro sid2
      rw [sidMarks_append]
      by_cases hc2 : st.nextSid = sid2
      · subst hc2
        rw [sidMarks_empty_of_bound B1 B2 (le_refl _), List.nil_append]
        have hz : sidMarks st.nextSid
            [Output.handout (Tgt.caller cid) st.nextSid] = [true] := by
          simp [sidMarks]
        rw [hz]
        exact List.chain'_singleton _
      · have hz : sidMarks sid2 [Output.handout (Tgt.caller cid) st.nextSid]
            = [] := by simp [sidMarks, hc2]
        rw [hz, List.append_nil]
        exact B4 sid2
    · intro sid2 hlast
      by_cases hc2 : st.nextSid = sid2
      · subst hc2
        exact matchbusy_setBusy_self
      · rw [sidMarks_append] at hlast
        have hz : sidMarks sid2 [Output.handout (Tgt.caller cid) st.nextSid]
            = [] := by simp [sidMarks, hc2]
        rw [hz, List.append_nil] at hlast
        exact matchbusy_setBusy_ne hc2
          (matchbusy_append_fresh hc2 (B5 sid2 hlast))
    · refine nhae_append B6 (nhae_singleton _) ?_
      intro x hev tt hmem
      simp at hmem
      obtain ⟨_, hx⟩ := hmem
      have := (B3 x hev).1
      omega
  -- createDone for the delete replacement, no waiter left: release the
  -- fresh session
  · rw [heq]
    refine ⟨?_, ?_, ?_, ?_, ?_, ?_⟩
    · intro tt x hx
      rcases List.mem_append.mp hx with hx | hx
      · exact Nat.lt_succ_of_lt (B1 tt x hx)
      · simp at hx
    · intro x hx
      rcases List.mem_append.mp hx with hx | hx
      · exact Nat.lt_succ_of_lt (B2 x hx)
      · simp at hx
        rw [hx]
        exact Nat.lt_succ_self _
    · intro x hx
      rcases List.mem_append.mp hx with hx | hx
      · have hxlt := (B3 x hx).1
        exact ⟨Nat.lt_succ_of_lt hxlt,
          matchdel_append_fresh (by omega) (B3 x hx).2⟩
      · simp at hx
    · intro sid2
      rw [sidMarks_append]
      by_cases hc2 : st.nextSid = sid2
      · subst hc2
        rw [sidMarks_empty_of_bound B1 B2 (le_refl _), List.nil_append]
        have hz : sidMarks st.nextSid [Output.released st.nextSid]
            = [false] := by simp [sidMarks]
        rw [hz]
        exact List.chain'_singleton _
      · have hz : sidMarks sid2 [Output.released st.nextSid] = [] := by
          simp [sidMarks, hc2]
        rw [hz, List.append_nil]
        exact B4 sid2
    · intro sid2 hlast
      rw [sidMarks_append] at hlast
      by_cases hc2 : st.nextSid = sid2
      · subst hc2
        rw [sidMarks_empty_of_bound B1 B2 (le_refl _), List.nil_append] at hlast
        have hz : sidMarks st.nextSid [Output.released st.nextSid]
            = [false] := by simp [sidMarks]
        rw [hz] at hlast
        simp at hlast
      · have hz : sidMarks sid2 [Output.released st.nextSid] = [] := by
          simp [sidMarks, hc2]
        rw [hz, List.append_nil] at hlast
        exact matchbusy_append_fresh hc2 (B5 sid2 hlast)
    · refine nhae_append B6 (nhae_singleton _) ?_
      intro x _ tt hmem
      simp at hmem
  -- createDone for the delete replacement with waiters: run the chain
  · rw [heq]
    refine ⟨?_, ?_, ?_, ?_, ?_, ?_⟩
    · intro tt x hx
      rcases List.mem_append.mp hx with hx | hx
      · exact Nat.lt_succ_of_lt (B1 tt x hx)
      · rw [uc_handout_sid st.nextSid x tt st.waiters hx]
        exact Nat.lt_succ_self _
    · intro x hx
      rcases List.mem_append.mp hx with hx | hx
      · exact Nat.lt_succ_of_lt (B2 x hx)
      · rw [uc_released_sid st.nextSid x st.waiters hx]
        exact Nat.lt_succ_self _
    · intro x hx
      rcases List.mem_append.mp hx with hx | hx
      · have hxlt := (B3 x hx).1
        exact ⟨Nat.lt_succ_of_lt hxlt,
          matchdel_setBusy (matchdel_append_fresh (by omega) (B3 x hx).2)⟩
      · exact absurd hx (uc_no_evicted st.nextSid x st.waiters)
    · intro sid2
      rw [sidMarks_append]
      by_cases hc2 : st.nextSid = sid2
      · subst hc2
        rw [sidMarks_empty_of_bound B1 B2 (le_refl _), List.nil_append,
          uc_marks]
        by_cases hwe : st.waiters.isEmpty
        · simp [hwe]
        · simp only [hwe, if_false, Bool.false_eq_true]
          split <;> exact List.chain'_singleton _
      · rw [uc_marks_other st.nextSid sid2 st.waiters (fun h2 => hc2 h2.symm),
          List.append_nil]
        exact B4 sid2
    · intro sid2 hlast
      rw [sidMarks_append] at hlast
      by_cases hc2 : st.nextSid = sid2
      · subst hc2
        rw [sidMarks_empty_of_bound B1 B2 (le_refl _), List.nil_append,
          uc_marks] at hlast
        have hwe : st.waiters.isEmpty = false := by
          cases hq : st.waiters
          · exact absurd hq hw
          · rfl
        rw [hwe] at hlast
        simp only [Bool.false_eq_true, if_false] at hlast
        cases htk : (useWaiterChain st.nextSid st.waiters).2.2
        · rw [htk] at hlast
          simp at hlast
        · exact matchbusy_setBusy_self
      · rw [uc_marks_other st.nextSid sid2 st.waiters (fun h2 => hc2 h2.symm),
          List.append_nil] at hlast
        exact matchbusy_setBusy_ne hc2
          (matchbusy_append_fresh hc2 (B5 sid2 hlast))
    · refine nhae_append B6
        (nhae_of_no_evicted (fun x => uc_no_evicted st.nextSid x st.waiters)) ?_
      intro x hev tt hmem
      have hx := uc_handout_sid st.nextSid x tt st.waiters hmem
      have := (B3 x hev).1
      omega
  -- createFail
  · rw [heq]
    simpa using ⟨B1, B2, B3, B4, B5, B6⟩
  -- release of a closing session: delete it
  · rw [heq, List.append_cons]
    exact sidTraceInv_dss
      { st with sessions := setBusy st.sessions sid false } sid
      (outs ++ [Output.released sid])
      (poolInv_setBusyFalse st sid s hinv hsm hss hc)
      (sidTraceInv_release_label st sid s outs ⟨B1, B2, B3, B4, B5, B6⟩
        hsm hss (hss ▸ h6 s hsm))
  -- release of an open session: busy cleared, waiter chain runs
  · rw [heq]
    have hsidlt : sid < st.nextSid := hss ▸ h6 s hsm
    have hnotev : Output.evicted sid ∉ outs := by
      intro hev
      have := (B3 sid hev).2 s hsm hss
      rw [hd] at this
      cases this
    refine ⟨?_, ?_, ?_, ?_, ?_, ?_⟩
    · intro tt x hx
      rcases List.mem_append.mp hx with hx | hx
      · exact B1 tt x hx
      · rcases List.mem_cons.mp hx with hx | hx
        · cases hx
        · rw [uc_handout_sid sid x tt st.waiters hx]
          exact hsidlt
    · intro x hx
      rcases List.mem_append.mp hx with hx | hx
      · exact B2 x hx
      · rcases List.mem_cons.mp hx with hx | hx
        · cases hx
          exact hsidlt
        · rw [uc_released_sid sid x st.waiters hx]
          exact hsidlt
    · intro x hx
      rcases List.mem_append.mp hx with hx | hx
      · exact ⟨(B3 x hx).1, matchdel_setBusy (B3 x hx).2⟩
      · rcases List.mem_cons.mp hx with hx | hx
        · cases hx
        · exact absurd hx (uc_no_evicted sid x st.waiters)
    · intro sid2
      rw [sidMarks_append]
      by_cases hc2 : sid = sid2
      · subst hc2
        have hz : sidMarks sid
            (Output.released sid :: (useWaiterChain sid st.waiters).2.1)
            = false :: sidMarks sid (useWaiterChain sid st.waiters).2.1 := by
          simp [sidMarks]
        rw [hz, List.chain'_append]
        refine ⟨B4 sid, ?_, ?_⟩
        · rw [uc_marks]
          by_cases hwe : st.waiters.isEmpty
          · simp [hwe]
          · simp only [hwe, if_false, Bool.false_eq_true]
            split
            · exact List.chain'_pair.mpr (Or.inl rfl)
            · exact List.chain'_pair.mpr (Or.inl rfl)
        · intro x _ y hy
          have hy' : y = false := by simpa using hy
          rw [hy']
          exact Or.inr rfl
      · have hz : sidMarks sid2
            (Output.released sid :: (useWaiterChain sid st.waiters).2.1)
            = [] := by
          have h2z := uc_marks_other sid sid2 st.waiters
            (fun h2 => hc2 h2.symm)
          simp only [sidMarks] at h2z ⊢
          rw [List.filterMap_cons]
          simpa [hc2] using h2z
        rw [hz, List.append_nil]
        exact B4 sid2
    · intro sid2 hlast
      by_cases hc2 : sid = sid2
      · subst hc2
        cases htk : (useWaiterChain sid st.waiters).2.2
        · rw [sidMarks_append] at hlast
          have hz : sidMarks sid
              (Output.released sid :: (useWaiterChain sid st.waiters).2.1)
              = false :: sidMarks sid (useWaiterChain sid st.waiters).2.1 := by
            simp [sidMarks]
          rw [hz, uc_marks, htk] at hlast
          by_cases hwe : st.waiters.isEmpty
          · rw [if_pos hwe] at hlast
            rw [List.getLast?_concat] at hlast
            simp at hlast
          · rw [if_neg hwe] at hlast
            simp only [Bool.false_eq_true, if_false] at hlast
            have : (sidMarks sid outs ++ [false, false]).getLast? = some false := by
              have : sidMarks sid outs ++ [false, false]
                  = (sidMarks sid outs ++ [false]) ++ [false] := by simp
              rw [this, List.getLast?_concat]
            rw [this] at hlast
            simp at hlast
        · exact matchbusy_setBusy_self
      · rw [sidMarks_append] at hlast
        have hz : sidMarks sid2
            (Output.released sid :: (useWaiterChain sid st.waiters).2.1)
            = [] := by
          have h2z := uc_marks_other sid sid2 st.waiters
            (fun h2 => hc2 h2.symm)
          simp only [sidMarks] at h2z ⊢
          rw [List.filterMap_cons]
          simpa [hc2] using h2z
        rw [hz, List.append_nil] at hlast
        exact matchbusy_setBusy_ne hc2 (B5 sid2 hlast)
    · refine nhae_append B6 (nhae_of_no_evicted ?_) ?_
      · intro x hmem
        rcases List.mem_cons.mp hmem with hx | hx
        · cases hx
        · exact uc_no_evicted sid x st.waiters hx
      · intro x hev tt hmem
        rcases List.mem_cons.mp hmem with hx | hx
        · cases hx
        · rw [uc_handout_sid sid x tt st.waiters hx] at hev
          exact hnotev hev
  -- broken session: delete it
  · rw [heq]
    exact sidTraceInv_dss st sid outs hinv ⟨B1, B2, B3, B4, B5, B6⟩
  -- attach stream closed while held: mark closing
  · rw [heq]
    refine ⟨?_, ?_, ?_, ?_, ?_, ?_⟩
    · intro tt x hx
      rw [List.append_nil] at hx
      exact B1 tt x hx
    · intro x hx
      rw [List.append_nil] at hx
      exact B2 x hx
    · intro x hx
      rw [List.append_nil] at hx
      exact ⟨(B3 x hx).1, matchdel_setClosing (B3 x hx).2⟩
    · intro sid2
      rw [List.append_nil]
      exact B4 sid2
    · intro sid2 hlast
      rw [List.append_nil] at hlast
      exact matchbusy_setClosing (B5 sid2 hlast)
    · rw [List.append_nil]
      exact B6
  -- deleteDone: session leaves the live set
  · rw [heq]
    refine ⟨?_, ?_, ?_, ?_, ?_, ?_⟩
    · intro tt x hx
      rw [List.append_nil] at hx
      exact B1 tt x hx
    · intro x hx
      rw [List.append_nil] at hx
      exact B2 x hx
    · intro x hx
      rw [List.append_nil] at hx
      refine ⟨(B3 x hx).1, ?_⟩
      intro s2 hs2 hx2
      exact (B3 x hx).2 s2 (List.mem_of_mem_filter hs2) hx2
    · intro sid2
      rw [List.append_nil]
      exact B4 sid2
    · intro sid2 hlast
      rw [List.append_nil] at hlast
      intro s2 hs2 hx2
      exact B5 sid2 hlast s2 (List.mem_of_mem_filter hs2) hx2
    · rw [List.append_nil]
      exact B6
  -- waiter timeout
  · rw [heq]
    refine ⟨?_, ?_, ?_, ?_, ?_, ?_⟩
    · intro tt x hx
      rcases List.mem_append.mp hx with hx | hx
      · exact B1 tt x hx
      · simp at hx
    · intro x hx
      rcases List.mem_append.mp hx with hx | hx
      · exact B2 x hx
      · simp at hx
    · intro x hx
      rcases List.mem_append.mp hx with hx | hx
      · exact B3 x hx
      · simp at hx
    · intro sid2
      rw [sidMarks_append]
      have hz : sidMarks sid2 [Output.timedOut wid] = [] := rfl
      rw [hz, List.append_nil]
      exact B4 sid2
    · intro sid2 hlast
      rw [sidMarks_append] at hlast
      have hz : sidMarks sid2 [Output.timedOut wid] = [] := rfl
      rw [hz, List.append_nil] at hlast
      exact B5 sid2 hlast
    · refine nhae_append B6 (nhae_singleton _) ?_
      intro x _ tt hmem
      simp at hmem

theorem sidTraceInv_init (m : Nat) : SidTraceInv (initPool m) [] := by
  refine ⟨?_, ?_, ?_, ?_, ?_, nhae_nil⟩
  · intro t x hx
    simp at hx
  · intro x hx
    simp at hx
  · intro x hx
    simp at hx
  · intro sid
    show List.Chain' marksStep (sidMarks sid [])
    simp [sidMarks]
  · intro sid hlast
    simp [sidMarks] at hlast

theorem sidTraceInv_run (m : Nat) (es : List Ev) :
    SidTraceInv (runPool (initPool m) es).1 (runPool (initPool m) es).2 := by
  have h := runPool_preserve SidTraceInv
    (fun st outs e hinv hP => sidTraceInv_step st outs e hinv hP)
    es (initPool m) [] (poolInv_initPool m) (sidTraceInv_init m)
  simpa using h

/-- Claim C2.  Mutual exclusion of session hand-outs: along every event
sequence from a fresh pool, the sequence of hand-out (true) and release
(false) marks of every session never contains two adjacent hand-outs — no
two successful acquires receive the same session without a release of that
session strictly between them, whether the session was handed out by the
free-session scan, by a fresh creation, or by the FIFO waiter hand-off —
and a session whose last mark is a hand-out is marked busy in the pool. -/
theorem C2_mutual_exclusion (m : Nat) (es : List Ev) (sid : Nat) :
    List.Chain' marksStep (sidMarks sid (runPool (initPool m) es).2) ∧
    ((sidMarks sid (runPool (initPool m) es).2).getLast? = some true →
      ∀ s ∈ (runPool (initPool m) es).1.sessions, s.sid = sid →
        s.busy = true) := by
  obtain ⟨_, _, _, B4, B5, _⟩ := sidTraceInv_run m es
  exact ⟨B4 sid, B5 sid⟩

/-- Claim C2, witness: a concrete run in which the marks of session 0 end
in a hand-out, whence the session is busy. -/
theorem C2_mutual_exclusion_witness :
    (sidMarks 0 (runPool (initPool 0)
      [Ev.acquireStart 1 false, Ev.createDone 0]).2).getLast? = some true ∧
    ∀ s ∈ (runPool (initPool 0)
      [Ev.acquireStart 1 false, Ev.createDone 0]).1.sessions,
        s.sid = 0 → s.busy = true := by
  refine ⟨by decide, ?_⟩
  exact (C2_mutual_exclusion 0 [Ev.acquireStart 1 false, Ev.createDone 0] 0).2
    (by decide)

end YdbPool

namespace YdbClient

/-- Exhaustive case analysis of one attempt of QueryClient.do: the five
control-flow paths of part_000 lines 82-118 with their exact results. -/
theorem doAttempt_cases {T : Type} (opts : DoOpts) (b : FnBehavior T) :
    (∃ e, b.outcome = Except.error e ∧
      (b.txIdAfter.isSome && !isSessionErr e) = true ∧
      ((∃ re, b.rollbackErr = some re ∧
          doAttempt opts b = (AttemptRes.fail re (doIdem opts),
            [SessAction.rollbackTx, terminalAction re])) ∨
       (b.rollbackErr = none ∧
          doAttempt opts b = (AttemptRes.fail e (doIdem opts),
            [SessAction.rollbackTx, terminalAction e])))) ∨
    (∃ e, b.outcome = Except.error e ∧
      (b.txIdAfter.isSome && !isSessionErr e) = false ∧
      doAttempt opts b = (AttemptRes.fail e (doIdem opts), [terminalAction e])) ∨
    (∃ v, b.outcome = Except.ok v ∧ b.txIdAfter = none ∧
      doAttempt opts b = (AttemptRes.ok v, [SessAction.releaseSession])) ∨
    (∃ v tx, b.outcome = Except.ok v ∧ b.txIdAfter = some tx ∧
      opts.txSettings.isSome = true ∧
      ((∃ ce, b.commitErr = some ce ∧
          doAttempt opts b = (AttemptRes.fail ce (doIdem opts),
            [SessAction.commitTx, terminalAction ce])) ∨
       (b.commitErr = none ∧
          doAttempt opts b = (AttemptRes.ok v,
            [SessAction.commitTx, SessAction.releaseSession])))) ∨
    (∃ v tx, b.outcome = Except.ok v ∧ b.txIdAfter = some tx ∧
      opts.txSettings.isSome = false ∧
      ((∃ re, b.rollbackErr = some re ∧
          doAttempt opts b = (AttemptRes.fail re (doIdem opts),
            [SessAction.rollbackTx, terminalAction re])) ∨
       (b.rollbackErr = none ∧
          doAttempt opts b = (AttemptRes.ok v,
            [SessAction.rollbackTx, SessAction.releaseSession])))) := by
  cases ho : b.outcome with
  | error e =>
    cases hc : (b.txIdAfter.isSome && !isSessionErr e) with
    | true =>
      cases hrb : b.rollbackErr with
      | some re =>
        refine Or.inl ⟨e, rfl, hc, Or.inl ⟨re, rfl, ?_⟩⟩
        unfold doAttempt
        rw [ho]
        simp [hc, hrb, doIdem]
      | none =>
        refine Or.inl ⟨e, rfl, hc, Or.inr ⟨rfl, ?_⟩⟩
        unfold doAttempt
        rw [ho]
        simp [hc, hrb, doIdem]
    | false =>
      refine Or.inr (Or.inl ⟨e, rfl, hc, ?_⟩)
      unfold doAttempt
      rw [ho]
      simp [hc, doIdem]
  | ok v =>
    cases htx : b.txIdAfter with
    | none =>
      refine Or.inr (Or.inr (Or.inl ⟨v, rfl, rfl, ?_⟩))
      unfold doAttempt
      rw [ho, htx]
    | some tx =>
      cases hts : opts.txSettings.isSome with
      | true =>
        cases hce : b.commitErr with
        | some ce =>
          refine Or.inr (Or.inr (Or.inr (Or.inl
            ⟨v, tx, rfl, rfl, rfl, Or.inl ⟨ce, rfl, ?_⟩⟩)))
          unfold doAttempt
          rw [ho, htx]
          simp [hts, hce, doIdem]
        | none =>
          refine Or.inr (Or.inr (Or.inr (Or.inl
            ⟨v, tx, rfl, rfl, rfl, Or.inr ⟨rfl, ?_⟩⟩)))
          unfold doAttempt
          rw [ho, htx]
          simp [hts, hce, doIdem]
      | false =>
        cases hrb : b.rollbackErr with
        | some re =>
          refine Or.inr (Or.inr (Or.inr (Or.inr
            ⟨v, tx, rfl, rfl, rfl, Or.inl ⟨re, rfl, ?_⟩⟩)))
          unfold doAttempt
          rw [ho, htx]
          simp [hts, hrb, doIdem]
        | none =>
          refine Or.inr (Or.inr (Or.inr (Or.inr
            ⟨v, tx, rfl, rfl, rfl, Or.inr ⟨rfl, ?_⟩⟩)))
          unfold doAttempt
          rw [ho, htx]
          simp [hts, hrb, doIdem]

/-- The finally block always runs last (part_000 lines 106-118): a failed
attempt ends with the terminal action classified from its error, a
successful attempt ends by releasing the session. -/
theorem doAttempt_terminal {T : Type} (opts : DoOpts) (b : FnBehavior T) :
    (∀ e idem, (doAttempt opts b).1 = AttemptRes.fail e idem →
      (doAttempt opts b).2.getLast? = some (terminalAction e)) ∧
    (∀ v, (doAttempt opts b).1 = AttemptRes.ok v →
      (doAttempt opts b).2.getLast? = some SessAction.releaseSession) := by
  rcases doAttempt_cases opts b with
    ⟨e0, -, -, ⟨re, -, heq⟩ | ⟨-, heq⟩⟩ | ⟨e0, -, -, heq⟩ | ⟨v0, -, -, heq⟩ |
    ⟨v0, tx, -, -, -, ⟨ce, -, heq⟩ | ⟨-, heq⟩⟩ |
    ⟨v0, tx, -, -, -, ⟨re, -, heq⟩ | ⟨-, heq⟩⟩ <;> rw [heq] <;>
    constructor <;> intro x
  · intro idem h
    simp only [AttemptRes.fail.injEq] at h
    rw [← h.1]
    rfl
  · intro h
    simp at h
  · intro idem h
    simp only [AttemptRes.fail.injEq] at h
    rw [← h.1]
    rfl
  · intro h
    simp at h
  · intro idem h
    simp only [AttemptRes.fail.injEq] at h
    rw [← h.1]
    rfl
  · intro h
    simp at h
  · intro idem h
    simp at h
  · intro h
    rfl
  · intro idem h
    simp only [AttemptRes.fail.injEq] at h
    rw [← h.1]
    rfl
  · intro h
    simp at h
  · intro idem h
    simp at h
  · intro h
    rfl
  · intro idem h
    simp only [AttemptRes.fail.injEq] at h
    rw [← h.1]
    rfl
  · intro h
    simp at h
  · intro idem h
    simp at h
  · intro h
    rfl

end YdbClient

namespace YdbClient

/-- C3 counterexample: when the user callback fails with an ordinary error
while a transaction is open and the best-effort rollback itself fails, the
attempt reports the rollback's error, not the original callback error — the
rethrow of the original error (part_000 line 91) is unreachable because the
await of the rollback on line 89 already rejected the enclosing block. -/
theorem C3_rollback_error_counterexample :
    doAttempt (T := Nat)
        { txSettings := none, hasIdempotent := false, idempotent := false }
        { outcome := Except.error (QErr.other 1), txIdAfter := some 7,
          rollbackErr := some (QErr.other 2), commitErr := none } =
      (AttemptRes.fail (QErr.other 2) none,
        [SessAction.rollbackTx, SessAction.releaseSession]) ∧
    QErr.other 2 ≠ QErr.other 1 := by
  exact ⟨rfl, by decide⟩

/-- C3 (amended): when the callback fails with a non-session error while a
transaction is open, the wrapper does attempt the rollback first, and the
attempt reports the original error if the rollback succeeds — but if the
rollback itself fails, the rollback's error replaces the original one. -/
theorem C3_rollback_before_propagation {T : Type} (opts : DoOpts)
    (b : FnBehavior T) (e : QErr) (hout : b.outcome = Except.error e)
    (hns : isSessionErr e = false) (htx : b.txIdAfter.isSome = true) :
    (doAttempt opts b).2.head? = some SessAction.rollbackTx ∧
    (b.rollbackErr = none →
      (doAttempt opts b).1 = AttemptRes.fail e (doIdem opts)) ∧
    (∀ re, b.rollbackErr = some re →
      (doAttempt opts b).1 = AttemptRes.fail re (doIdem opts)) := by
  have hcond : (b.txIdAfter.isSome && !isSessionErr e) = true := by
    rw [htx, hns]
    rfl
  rcases doAttempt_cases opts b with
    ⟨e0, he0, hc0, hbr⟩ | ⟨e0, he0, hc0, heq⟩ | ⟨v0, hv0, -, -⟩ |
    ⟨v0, tx, hv0, -, -, -⟩ | ⟨v0, tx, hv0, -, -, -⟩
  · rw [hout] at he0
    injection he0 with he0
    subst he0
    rcases hbr with ⟨re, hre, heq⟩ | ⟨hre, heq⟩
    · rw [heq]
      refine ⟨rfl, ?_, ?_⟩
      · intro h0
        rw [h0] at hre
        cases hre
      · intro re2 hre2
        rw [hre] at hre2
        injection hre2 with h2
        rw [← h2]
    · rw [heq]
      refine ⟨rfl, fun _ => rfl, ?_⟩
      intro re2 hre2
      rw [hre] at hre2
      cases hre2
  · rw [hout] at he0
    injection he0 with he0
    subst he0
    rw [hcond] at hc0
    cases hc0
  · rw [hout] at hv0
    cases hv0
  · rw [hout] at hv0
    cases hv0
  · rw [hout] at hv0
    cases hv0

theorem C3_rollback_before_propagation_witness :
    (doAttempt (T := Nat)
        { txSettings := some 0, hasIdempotent := true, idempotent := false }
        { outcome := Except.error (QErr.other 3), txIdAfter := some 1,
          rollbackErr := some (QErr.other 4), commitErr := none }).2.head? =
      some SessAction.rollbackTx ∧
    (doAttempt (T := Nat)
        { txSettings := some 0, hasIdempotent := true, idempotent := false }
        { outcome := Except.error (QErr.other 3), txIdAfter := some 1,
          rollbackErr := some (QErr.other 4), commitErr := none }).1 =
      AttemptRes.fail (QErr.other 4)
        (doIdem { txSettings := some 0, hasIdempotent := true,
                  idempotent := false }) := by
  have h := C3_rollback_before_propagation (T := Nat)
      { txSettings := some 0, hasIdempotent := true, idempotent := false }
      { outcome := Except.error (QErr.other 3), txIdAfter := some 1,
        rollbackErr := some (QErr.other 4), commitErr := none }
      (QErr.other 3) rfl (by decide) rfl
  exact ⟨h.1, h.2.2 (QErr.other 4) rfl⟩

/-- C4: when the callback returns successfully with an open transaction,
the first session action is a commit exactly when txSettings was supplied
and a rollback when it was not, and when that resolution RPC succeeds the
actions are exactly the resolution followed by the release of the session
back to the pool. -/
theorem C4_commit_or_rollback_on_success {T : Type} (opts : DoOpts)
    (b : FnBehavior T) (v : T) (hout : b.outcome = Except.ok v)
    (htx : b.txIdAfter.isSome = true) :
    (opts.txSettings.isSome = true →
      (doAttempt opts b).2.head? = some SessAction.commitTx) ∧
    (opts.txSettings = none →
      (doAttempt opts b).2.head? = some SessAction.rollbackTx) ∧
    (opts.txSettings.isSome = true → b.commitErr = none →
      (doAttempt opts b).2 =
        [SessAction.commitTx, SessAction.releaseSession]) ∧
    (opts.txSettings = none → b.rollbackErr = none →
      (doAttempt opts b).2 =
        [SessAction.rollbackTx, SessAction.releaseSession]) := by
  rcases doAttempt_cases opts b with
    ⟨e0, he0, -, -⟩ | ⟨e0, he0, -, -⟩ | ⟨v0, hv0, htx0, -⟩ |
    ⟨v0, tx, hv0, -, hts, hbr⟩ | ⟨v0, tx, hv0, -, hts, hbr⟩
  · rw [hout] at he0
    cases he0
  · rw [hout] at he0
    cases he0
  · rw [htx0] at htx
    cases htx
  · refine ⟨?_, ?_, ?_, ?_⟩
    · intro h
      rcases hbr with ⟨ce, hce, heq⟩ | ⟨hce, heq⟩ <;> rw [heq] <;> rfl
    · intro h
      rw [h] at hts
      cases hts
    · intro h hce0
      rcases hbr with ⟨ce, hce, heq⟩ | ⟨hce, heq⟩
      · rw [hce0] at hce
        cases hce
      · rw [heq]
    · intro h
      rw [h] at hts
      cases hts
  · refine ⟨?_, ?_, ?_, ?_⟩
    · intro h
      rw [h] at hts
      cases hts
    · intro h
      rcases hbr with ⟨re, hre, heq⟩ | ⟨hre, heq⟩ <;> rw [heq] <;> rfl
    · intro h
      rw [h] at hts
      cases hts
    · intro h hre0
      rcases hbr with ⟨re, hre, heq⟩ | ⟨hre, heq⟩
      · rw [hre0] at hre
        cases hre
      · rw [heq]

theorem C4_commit_or_rollback_on_success_witness :
    (doAttempt (T := Nat)
      { txSettings := some 0, hasIdempotent := false, idempotent := false }
      { outcome := Except.ok 5, txIdAfter := some 1, rollbackErr := none,
        commitErr := none }).2 =
      [SessAction.commitTx, SessAction.releaseSession] ∧
    (doAttempt (T := Nat)
      { txSettings := none, hasIdempotent := false, idempotent := false }
      { outcome := Except.ok 5, txIdAfter := some 1, rollbackErr := none,
        commitErr := none }).2 =
      [SessAction.rollbackTx, SessAction.releaseSession] := by
  constructor
  · exact (C4_commit_or_rollback_on_success
      { txSettings := some 0, hasIdempotent := false, idempotent := false }
      { outcome := Except.ok 5, txIdAfter := some 1, rollbackErr := none,
        commitErr := none } 5 rfl rfl).2.2.1 rfl rfl
  · exact (C4_commit_or_rollback_on_success
      { txSettings := none, hasIdempotent := false, idempotent := false }
      { outcome := Except.ok 5, txIdAfter := some 1, rollbackErr := none,
        commitErr := none } 5 rfl rfl).2.2.2 rfl rfl

/-- C9: doTx with no txSettings behaves exactly as do on the same options
extended with the auto-begin transaction settings, and doTx with explicit
txSettings behaves exactly as do on the unchanged options. -/
theorem C9_doTx_defaults {T : Type} (opts : DoOpts) (b : FnBehavior T) :
    (opts.txSettings = none →
      doTxAttempt opts b =
        doAttempt { opts with txSettings := some AUTO_TX_beginTx } b) ∧
    (opts.txSettings.isSome = true → doTxAttempt opts b = doAttempt opts b) := by
  constructor
  · intro h
    unfold doTxAttempt doTxOpts
    rw [h]
    rfl
  · intro h
    cases hts : opts.txSettings with
    | none =>
      rw [hts] at h
      cases h
    | some tx =>
      unfold doTxAttempt doTxOpts
      rw [hts]
      rfl

theorem C9_doTx_defaults_witness :
    doTxAttempt (T := Nat)
        { txSettings := none, hasIdempotent := false, idempotent := false }
        { outcome := Except.ok 1, txIdAfter := none, rollbackErr := none,
          commitErr := none } =
      doAttempt
        { txSettings := some AUTO_TX_beginTx, hasIdempotent := false,
          idempotent := false }
        { outcome := Except.ok 1, txIdAfter := none, rollbackErr := none,
          commitErr := none } ∧
    doTxAttempt (T := Nat)
        { txSettings := some 5, hasIdempotent := false, idempotent := false }
        { outcome := Except.ok 1, txIdAfter := none, rollbackErr := none,
          commitErr := none } =
      doAttempt
        { txSettings := some 5, hasIdempotent := false, idempotent := false }
        { outcome := Except.ok 1, txIdAfter := none, rollbackErr := none,
          commitErr := none } := by
  constructor
  · exact (C9_doTx_defaults
      { txSettings := none, hasIdempotent := false, idempotent := false }
      { outcome := Except.ok 1, txIdAfter := none, rollbackErr := none,
        commitErr := none }).1 rfl
  · exact (C9_doTx_defaults
      { txSettings := some 5, hasIdempotent := false, idempotent := false }
      { outcome := Except.ok 1, txIdAfter := none, rollbackErr := none,
        commitErr := none }).2 rfl

/-- The retry loop performs at least one attempt when any outcome is
prescribed. -/
theorem retryExec_pos {T : Type} (maxR : Nat) (a : AttemptRes T)
    (rest : List (AttemptRes T)) (made : Nat) :
    1 ≤ (retryExec maxR (a :: rest) made).2 := by
  cases a with
  | ok v =>
    show 1 ≤ (1 : Nat)
    omega
  | fail e idem =>
    simp only [retryExec]
    split
    · show 1 ≤ (retryExec maxR rest (made + 1)).2 + 1
      omega
    · show 1 ≤ (1 : Nat)
      omega

/-- With a positive maxRetries budget the retry loop performs at most
maxRetries minus already-made attempts. -/
theorem retryExec_bound {T : Type} (maxR : Nat) (l : List (AttemptRes T)) :
    ∀ made, made < maxR → (retryExec maxR l made).2 ≤ maxR - made := by
  induction l with
  | nil =>
    intro made h
    show 0 ≤ maxR - made
    omega
  | cons a rest ih =>
    intro made h
    cases a with
    | ok v =>
      show 1 ≤ maxR - made
      omega
    | fail e idem =>
      simp only [retryExec]
      split
      · rename_i hc
        have h2 : made + 1 < maxR := by
          simp only [Bool.and_eq_true, Bool.or_eq_true, decide_eq_true_eq] at hc
          rcases hc.2 with h0 | h1 <;> omega
        have h3 := ih (made + 1) h2
        show (retryExec maxR rest (made + 1)).2 + 1 ≤ maxR - made
        omega
      · show 1 ≤ maxR - made
        omega

end YdbClient

namespace YdbClient

/-- C10: with the QueryClient's retry configuration (maxRetries 0, i.e. no
attempt-count bound), a failure that is not a session error and carries
idempotent = false stops the loop after that single attempt; a transient
(non-session) failure with idempotent = true is followed by at least one
further attempt; and a positive maxRetries budget bounds the total number
of attempts by maxRetries. -/
theorem C10_idempotent_retry_gating {T : Type} :
    (∀ (n : Nat) (rest : List (AttemptRes T)),
      retryExec queryClientMaxRetries
          (AttemptRes.fail (QErr.other n) (some false) :: rest) 0 =
        (some (Except.error (QErr.other n)), 1)) ∧
    (∀ (n : Nat) (a2 : AttemptRes T) (rest : List (AttemptRes T)),
      2 ≤ (retryExec queryClientMaxRetries
          (AttemptRes.fail (QErr.other n) (some true) :: a2 :: rest) 0).2) ∧
    (∀ (maxR : Nat) (l : List (AttemptRes T)), maxR ≠ 0 →
      (retryExec maxR l 0).2 ≤ maxR) := by
  refine ⟨?_, ?_, ?_⟩
  · intro n rest
    rfl
  · intro n a2 rest
    have h1 := retryExec_pos queryClientMaxRetries a2 rest 1
    have h2 : (retryExec queryClientMaxRetries
        (AttemptRes.fail (QErr.other n) (some true) :: a2 :: rest) 0).2
        = (retryExec queryClientMaxRetries (a2 :: rest) 1).2 + 1 := rfl
    rw [h2]
    omega
  · intro maxR l h
    have h1 := retryExec_bound maxR l 0 (by omega)
    omega

theorem C10_idempotent_retry_gating_witness :
    retryExec (T := Nat) queryClientMaxRetries
        [AttemptRes.fail (QErr.other 1) (some false)] 0 =
      (some (Except.error (QErr.other 1)), 1) ∧
    2 ≤ (retryExec (T := Nat) queryClientMaxRetries
        [AttemptRes.fail (QErr.other 1) (some true),
         AttemptRes.fail (QErr.other 1) (some false)] 0).2 ∧
    (retryExec (T := Nat) 3
        [AttemptRes.fail QErr.badSession none,
         AttemptRes.fail QErr.badSession none,
         AttemptRes.fail QErr.badSession none,
         AttemptRes.fail QErr.badSession none] 0).2 ≤ 3 := by
  refine ⟨?_, ?_, ?_⟩
  · exact (C10_idempotent_retry_gating (T := Nat)).1 1 []
  · exact (C10_idempotent_retry_gating (T := Nat)).2.1 1
      (AttemptRes.fail (QErr.other 1) (some false)) []
  · exact (C10_idempotent_retry_gating (T := Nat)).2.2 3
      [AttemptRes.fail QErr.badSession none,
       AttemptRes.fail QErr.badSession none,
       AttemptRes.fail QErr.badSession none,
       AttemptRes.fail QErr.badSession none] (by decide)

end YdbClient

namespace YdbPool

/-- The replacement acquire of deleteSession never hands out a session
synchronously when the queue invariant holds, because a pending waiter
implies no free session exists to scan. -/
theorem replacementAcquire_no_handout (st1 : PoolState)
    (hj : st1.waiters ≠ [] → ∀ s ∈ st1.sessions, sessionIsFree s = false) :
    ∀ t x, Output.handout t x ∉ (replacementAcquire st1).2 := by
  intro t x hmem
  rcases replacementAcquire_cases st1 with
    ⟨hw, heq⟩ | ⟨t0, hw, hff, heq⟩ | ⟨hw, hff, hg, heq⟩ | ⟨hw, hff, hg, heq⟩
  · rw [heq] at hmem
    simp at hmem
  · have hfree := List.find?_some hff
    have hmem0 := List.mem_of_find?_eq_some hff
    rw [hj hw t0 hmem0] at hfree
    cases hfree
  · rw [heq] at hmem
    simp at hmem
  · rw [heq] at hmem
    simp at hmem

/-- The first output of a nonempty waiter chain is the hand-out of the
session to the head waiter. -/
theorem uc_head (sid : Nat) (w : Waiter) (ws : List Waiter) :
    ∃ rest, (useWaiterChain sid (w :: ws)).2.1 =
      Output.handout
        (if w.internal then Tgt.intWaiter w.wid else Tgt.extWaiter w.wid)
        sid :: rest := by
  cases hw : w.internal with
  | true =>
    cases ws with
    | nil =>
      refine ⟨[Output.released sid], ?_⟩
      unfold useWaiterChain
      simp [hw]
    | cons r rs =>
      refine ⟨(useWaiterChain sid (r :: rs)).2.1, ?_⟩
      rw [useWaiterChain.eq_def]
      simp [hw]
  | false =>
    refine ⟨[], ?_⟩
    unfold useWaiterChain
    simp [hw]

/-- In every run of the pool, a session is never handed out after its
eviction. -/
theorem evictedNeverHanded (m : Nat) (es : List Ev) :
    noHandoutAfterEvicted (runPool (initPool m) es).2 :=
  (sidTraceInv_run m es).2.2.2.2.2

/-- C5: a failed attempt whose error is BadSession or SessionBusy ends by
signalling the session broken, every other attempt outcome ends by
releasing it; on a broken signal for a live held session, the pool marks
every live copy of that session deleted, registers its pending delete and
never hands it out in that step; and along every run no session is handed
out after its eviction. -/
theorem C5_broken_session_eviction :
    (∀ (T : Type) (opts : YdbClient.DoOpts) (b : YdbClient.FnBehavior T)
        (e : YdbClient.QErr) (idem : Option Bool),
      (YdbClient.doAttempt opts b).1 = YdbClient.AttemptRes.fail e idem →
      (YdbClient.isSessionErr e = true →
        (YdbClient.doAttempt opts b).2.getLast? =
          some YdbClient.SessAction.emitBroken) ∧
      (YdbClient.isSessionErr e = false →
        (YdbClient.doAttempt opts b).2.getLast? =
          some YdbClient.SessAction.releaseSession)) ∧
    (∀ (T : Type) (opts : YdbClient.DoOpts) (b : YdbClient.FnBehavior T)
        (v : T),
      (YdbClient.doAttempt opts b).1 = YdbClient.AttemptRes.ok v →
      (YdbClient.doAttempt opts b).2.getLast? =
        some YdbClient.SessAction.releaseSession) ∧
    (∀ (st : PoolState) (sid : Nat) (s : Sess), PoolInv st →
      st.sessions.find? (fun s2 => s2.sid = sid) = some s →
      s.busy = true → s.deleted = false →
      (∀ s2 ∈ (stepPool st (Ev.brokenSig sid)).1.sessions,
        s2.sid = sid → s2.deleted = true) ∧
      sid ∈ (stepPool st (Ev.brokenSig sid)).1.pendingDeletes ∧
      (∀ t, Output.handout t sid ∉ (stepPool st (Ev.brokenSig sid)).2)) ∧
    (∀ (m : Nat) (es : List Ev),
      noHandoutAfterEvicted (runPool (initPool m) es).2) := by
  refine ⟨?_, ?_, ?_, ?_⟩
  · intro T opts b e idem h
    have ht := (YdbClient.doAttempt_terminal opts b).1 e idem h
    constructor
    · intro hse
      rw [ht]
      simp [YdbClient.terminalAction, hse]
    · intro hse
      rw [ht]
      simp [YdbClient.terminalAction, hse]
  · intro T opts b v h
    exact (YdbClient.doAttempt_terminal opts b).2 v h
  · intro st sid s hinv hf hb hd
    unfold PoolInv at hinv
    obtain ⟨h1, h2, h3, h4, h5, h6, h7, h8, h9, h10⟩ := hinv
    rw [step_broken_live hf hb hd, deleteSessionStart_live hf hd]
    refine ⟨?_, ?_, ?_⟩
    · exact fun s2 hs2 hx => matchdel_setDeleted_self s2 hs2 hx
    · exact List.mem_append_right _ (List.mem_singleton.mpr rfl)
    · intro t hmem
      rcases List.mem_append.mp hmem with hm | hm
      · refine replacementAcquire_no_handout
          { st with sessionsBeingDeleted := st.sessionsBeingDeleted + 1 }
          ?_ t sid hm
        intro hw s2 hs2
        exact h10 hw s2 hs2
      · simp at hm
  · exact evictedNeverHanded

theorem C5_broken_session_eviction_witness :
    (YdbClient.doAttempt (T := Nat)
        { txSettings := none, hasIdempotent := false, idempotent := false }
        { outcome := Except.error YdbClient.QErr.badSession, txIdAfter := none,
          rollbackErr := none, commitErr := none }).2.getLast? =
      some YdbClient.SessAction.emitBroken ∧
    0 ∈ (stepPool
        { maxLimit := 1,
          sessions := [{ sid := 0, busy := true, closing := false,
                         deleted := false }],
          newSessionsRequested := 0, sessionsBeingDeleted := 0, waiters := [],
          pendingCreates := [], pendingDeletes := [], nextSid := 1,
          nextWid := 0 }
        (Ev.brokenSig 0)).1.pendingDeletes := by
  constructor
  · exact (C5_broken_session_eviction.1 Nat
      { txSettings := none, hasIdempotent := false, idempotent := false }
      { outcome := Except.error YdbClient.QErr.badSession, txIdAfter := none,
        rollbackErr := none, commitErr := none }
      YdbClient.QErr.badSession none rfl).1 rfl
  · exact (C5_broken_session_eviction.2.2.1
      { maxLimit := 1,
        sessions := [{ sid := 0, busy := true, closing := false,
                       deleted := false }],
        newSessionsRequested := 0, sessionsBeingDeleted := 0, waiters := [],
        pendingCreates := [], pendingDeletes := [], nextSid := 1,
        nextWid := 0 }
      0 { sid := 0, busy := true, closing := false, deleted := false }
      (by unfold PoolInv; decide) rfl rfl rfl).2.1

end YdbPool

namespace YdbPool

/-- C8: a deletion of a session whose delete flag is already set is a
no-op touching nothing; a deletion started while waiters are pending never
hands any session out synchronously and instead either requests a
replacement creation on the waiters' behalf or queues the internal
replacement waiter; and when the replacement creation completes, the fresh
session is handed to the head waiter, or released again when no waiter
remains. -/
theorem C8_deletion_never_feeds_waiter :
    (∀ (st : PoolState) (sid : Nat) (s : Sess),
      st.sessions.find? (fun s2 => s2.sid = sid) = some s → s.deleted = true →
      deleteSessionStart st sid = (st, [])) ∧
    (∀ (st : PoolState) (sid : Nat), PoolInv st → st.waiters ≠ [] →
      (∀ t x, Output.handout t x ∉ (deleteSessionStart st sid).2) ∧
      (deleteSessionStart st sid = (st, []) ∨
       (deleteSessionStart st sid).1.pendingCreates =
         st.pendingCreates ++ [CreateTok.forDelete] ∨
       (deleteSessionStart st sid).1.waiters =
         st.waiters ++ [{ wid := st.nextWid, hasTimeout := false,
                          internal := true }])) ∧
    (∀ (st : PoolState) (i : Nat),
      st.pendingCreates.get? i = some CreateTok.forDelete →
      (st.waiters = [] →
        (stepPool st (Ev.createDone i)).2 = [Output.released st.nextSid]) ∧
      (∀ w ws, st.waiters = w :: ws →
        ∃ rest, (stepPool st (Ev.createDone i)).2 =
          Output.handout
            (if w.internal then Tgt.intWaiter w.wid else Tgt.extWaiter w.wid)
            st.nextSid :: rest)) := by
  refine ⟨?_, ?_, ?_⟩
  · intro st sid s hf hd
    exact deleteSessionStart_deleted hf hd
  · intro st sid hinv hwne
    unfold PoolInv at hinv
    obtain ⟨h1, h2, h3, h4, h5, h6, h7, h8, h9, h10⟩ := hinv
    rcases deleteSessionStart_cases st sid with heq | ⟨s, hf, hsm, hss, hsd, hsub⟩
    · refine ⟨?_, Or.inl heq⟩
      intro t x hx
      rw [heq] at hx
      simp at hx
    · rcases hsub with ⟨hw, heq⟩ | ⟨t0, hw, hff, heq⟩ | ⟨hw, hff, heq⟩ |
        ⟨hw, hff, heq⟩
      · exact absurd hw hwne
      · have hfree := List.find?_some hff
        have hmem0 := List.mem_of_find?_eq_some hff
        rw [h10 hwne t0 hmem0] at hfree
        cases hfree
      · refine ⟨?_, Or.inr (Or.inl (by rw [heq]))⟩
        intro t x hx
        rw [heq] at hx
        simp at hx
      · refine ⟨?_, Or.inr (Or.inr (by rw [heq]))⟩
        intro t x hx
        rw [heq] at hx
        simp at hx
  · intro st i hcd
    constructor
    · intro hwnil
      rw [step_createDone_forDelete_nil hcd hwnil]
    · intro w ws hwc
      obtain ⟨rest, hrest⟩ := uc_head st.nextSid w ws
      refine ⟨rest, ?_⟩
      rw [step_createDone_forDelete_cons hcd hwc]
      show (useWaiterChain st.nextSid st.waiters).2.1 =
        Output.handout
          (if w.internal then Tgt.intWaiter w.wid else Tgt.extWaiter w.wid)
          st.nextSid :: rest
      rw [hwc]
      exact hrest

theorem C8_deletion_never_feeds_waiter_witness :
    deleteSessionStart
        { maxLimit := 1,
          sessions := [{ sid := 0, busy := false, closing := false,
                         deleted := true }],
          newSessionsRequested := 0, sessionsBeingDeleted := 1, waiters := [],
          pendingCreates := [], pendingDeletes := [0], nextSid := 1,
          nextWid := 0 } 0 =
      ({ maxLimit := 1,
         sessions := [{ sid := 0, busy := false, closing := false,
                        deleted := true }],
         newSessionsRequested := 0, sessionsBeingDeleted := 1, waiters := [],
         pendingCreates := [], pendingDeletes := [0], nextSid := 1,
         nextWid := 0 }, []) ∧
    (deleteSessionStart
        { maxLimit := 0,
          sessions := [{ sid := 0, busy := true, closing := false,
                         deleted := false }],
          newSessionsRequested := 0, sessionsBeingDeleted := 0,
          waiters := [{ wid := 5, hasTimeout := false, internal := false }],
          pendingCreates := [], pendingDeletes := [], nextSid := 1,
          nextWid := 6 } 0 =
      ({ maxLimit := 0,
         sessions := [{ sid := 0, busy := true, closing := false,
                        deleted := false }],
         newSessionsRequested := 0, sessionsBeingDeleted := 0,
         waiters := [{ wid := 5, hasTimeout := false, internal := false }],
         pendingCreates := [], pendingDeletes := [], nextSid := 1,
         nextWid := 6 }, []) ∨
     (deleteSessionStart
        { maxLimit := 0,
          sessions := [{ sid := 0, busy := true, closing := false,
                         deleted := false }],
          newSessionsRequested := 0, sessionsBeingDeleted := 0,
          waiters := [{ wid := 5, hasTimeout := false, internal := false }],
          pendingCreates := [], pendingDeletes := [], nextSid := 1,
          nextWid := 6 } 0).1.pendingCreates =
       [] ++ [CreateTok.forDelete] ∨
     (deleteSessionStart
        { maxLimit := 0,
          sessions := [{ sid := 0, busy := true, closing := false,
                         deleted := false }],
          newSessionsRequested := 0, sessionsBeingDeleted := 0,
          waiters := [{ wid := 5, hasTimeout := false, internal := false }],
          pendingCreates := [], pendingDeletes := [], nextSid := 1,
          nextWid := 6 } 0).1.waiters =
       [{ wid := 5, hasTimeout := false, internal := false }] ++
         [{ wid := 6, hasTimeout := false, internal := true }]) ∧
    (stepPool
        { maxLimit := 1, sessions := [], newSessionsRequested := 1,
          sessionsBeingDeleted := 0, waiters := [],
          pendingCreates := [CreateTok.forDelete], pendingDeletes := [],
          nextSid := 0, nextWid := 0 }
        (Ev.createDone 0)).2 = [Output.released 0] := by
  refine ⟨?_, ?_, ?_⟩
  · exact C8_deletion_never_feeds_waiter.1
      { maxLimit := 1,
        sessions := [{ sid := 0, busy := false, closing := false,
                       deleted := true }],
        newSessionsRequested := 0, sessionsBeingDeleted := 1, waiters := [],
        pendingCreates := [], pendingDeletes := [0], nextSid := 1,
        nextWid := 0 } 0
      { sid := 0, busy := false, closing := false, deleted := true } rfl rfl
  · exact (C8_deletion_never_feeds_waiter.2.1
      { maxLimit := 0,
        sessions := [{ sid := 0, busy := true, closing := false,
                       deleted := false }],
        newSessionsRequested := 0, sessionsBeingDeleted := 0,
        waiters := [{ wid := 5, hasTimeout := false, internal := false }],
        pendingCreates := [], pendingDeletes := [], nextSid := 1,
        nextWid := 6 } 0
      (by unfold PoolInv; decide) (by decide)).2
  · exact (C8_deletion_never_feeds_waiter.2.2
      { maxLimit := 1, sessions := [], newSessionsRequested := 1,
        sessionsBeingDeleted := 0, waiters := [],
        pendingCreates := [CreateTok.forDelete], pendingDeletes := [],
        nextSid := 0, nextWid := 0 } 0 rfl).1 rfl

end YdbPool

namespace YdbPool

theorem enqPairs_append (l1 l2 : List Output) :
    enqPairs (l1 ++ l2) = enqPairs l1 ++ enqPairs l2 := by
  simp [enqPairs]

theorem resolvedPairs_append (l1 l2 : List Output) :
    resolvedPairs (l1 ++ l2) = resolvedPairs l1 ++ resolvedPairs l2 := by
  simp [resolvedPairs]

theorem enqFull_append (l1 l2 : List Output) :
    enqFull (l1 ++ l2) = enqFull l1 ++ enqFull l2 := by
  simp [enqFull]

theorem timedOutWids_append (l1 l2 : List Output) :
    timedOutWids (l1 ++ l2) = timedOutWids l1 ++ timedOutWids l2 := by
  simp [timedOutWids]

theorem enqPairs_cons_enq (a : Nat) (i t : Bool) (l : List Output) :
    enqPairs (Output.enq a i t :: l) = (a, i) :: enqPairs l := rfl

theorem enqFull_cons_enq (a : Nat) (i t : Bool) (l : List Output) :
    enqFull (Output.enq a i t :: l) = (a, i, t) :: enqFull l := rfl

theorem resolvedPairs_cons_enq (a : Nat) (i t : Bool) (l : List Output) :
    resolvedPairs (Output.enq a i t :: l) = resolvedPairs l := rfl

theorem timedOutWids_cons_enq (a : Nat) (i t : Bool) (l : List Output) :
    timedOutWids (Output.enq a i t :: l) = timedOutWids l := rfl

theorem enqPairs_nil_of_enqFull_nil {L : List Output} (h : enqFull L = []) :
    enqPairs L = [] := by
  rw [enqFull, List.filterMap_eq_nil_iff] at h
  rw [enqPairs, List.filterMap_eq_nil_iff]
  intro o ho
  cases o with
  | enq w i t => exact absurd (h _ ho) (by simp)
  | handout t s => rfl
  | released s => rfl
  | evicted s => rfl
  | timedOut w => rfl

/-- Extending a trace by outputs that carry no waiter bookkeeping (no enq,
no waiter resolution, no timeout) and leaving the queue and the wid counter
unchanged preserves the waiter trace invariant. -/
theorem waitTraceInv_ext {st st' : PoolState} {outs L : List Output}
    (hW : WaitTraceInv st outs)
    (hw : st'.waiters = st.waiters) (hnw : st'.nextWid = st.nextWid)
    (hL1 : enqFull L = []) (hL2 : resolvedPairs L = [])
    (hL3 : timedOutWids L = []) :
    WaitTraceInv st' (outs ++ L) := by
  obtain ⟨⟨A, B, hAB, hres, hwait⟩, W2, W3, W4, W5, W6, W7, W8⟩ := hW
  have hrwL : resolvedWids L = [] := by
    rw [resolvedWids, hL2]
    rfl
  refine ⟨⟨A, B, ?_, ?_, ?_⟩, ?_, ?_, ?_, ?_, ?_, ?_, ?_⟩
  · rw [enqPairs_append, enqPairs_nil_of_enqFull_nil hL1, List.append_nil]
    exact hAB
  · rw [resolvedPairs_append, hL2, List.append_nil]
    exact hres
  · simpa [waiterPairs, hw] using hwait
  · intro w hw2
    rw [hw] at hw2
    exact List.mem_append_left _ (W2 w hw2)
  · rw [enqFull_append, hL1, List.append_nil]
    exact W3
  · intro p hp
    rw [enqFull_append, hL1, List.append_nil] at hp
    rw [hnw]
    exact W4 p hp
  · intro x hx
    rw [resolvedWids, resolvedPairs_append, hL2, List.append_nil,
      ← resolvedWids] at hx
    rw [hnw]
    exact W5 x hx
  · intro x hx
    rw [timedOutWids_append, hL3, List.append_nil] at hx
    rw [hnw]
    exact W6 x hx
  · intro wid hwid
    rw [timedOutWids_append, hL3, List.append_nil] at hwid
    obtain ⟨p1, p2, p3⟩ := W7 wid hwid
    refine ⟨?_, ?_, List.mem_append_left _ p3⟩
    · rw [resolvedWids, resolvedPairs_append, hL2, List.append_nil,
        ← resolvedWids]
      exact p1
    · simpa [waiterWids, hw] using p2
  · intro w hw2
    rw [hw] at hw2
    obtain ⟨p1, p2⟩ := W8 w hw2
    constructor
    · rw [resolvedWids, resolvedPairs_append, hL2, List.append_nil,
        ← resolvedWids]
      exact p1
    · rw [timedOutWids_append, hL3, List.append_nil]
      exact p2

end YdbPool

namespace YdbPool

/-- Pushing a fresh waiter (wid = nextWid) with its enq label, bumping the
wid counter, followed by outputs with no waiter bookkeeping, preserves the
waiter trace invariant. -/
theorem waitTraceInv_enq {st st' : PoolState} {outs L2 : List Output}
    (w : Waiter)
    (hW : WaitTraceInv st outs)
    (hwid : w.wid = st.nextWid)
    (hw : st'.waiters = st.waiters ++ [w])
    (hnw : st'.nextWid = st.nextWid + 1)
    (hL1 : enqFull L2 = []) (hL2 : resolvedPairs L2 = [])
    (hL3 : timedOutWids L2 = []) :
    WaitTraceInv st' (outs ++ Output.enq w.wid w.internal w.hasTimeout :: L2) := by
  obtain ⟨⟨A, B, hAB, hres, hwait⟩, W2, W3, W4, W5, W6, W7, W8⟩ := hW
  have he1 : enqPairs (outs ++ Output.enq w.wid w.internal w.hasTimeout :: L2) =
      enqPairs outs ++ [(w.wid, w.internal)] := by
    rw [enqPairs_append, enqPairs_cons_enq, enqPairs_nil_of_enqFull_nil hL1]
  have he2 : enqFull (outs ++ Output.enq w.wid w.internal w.hasTimeout :: L2) =
      enqFull outs ++ [(w.wid, w.internal, w.hasTimeout)] := by
    rw [enqFull_append, enqFull_cons_enq, hL1]
  have he3 : resolvedPairs
      (outs ++ Output.enq w.wid w.internal w.hasTimeout :: L2) =
      resolvedPairs outs := by
    rw [resolvedPairs_append, resolvedPairs_cons_enq, hL2, List.append_nil]
  have he4 : timedOutWids
      (outs ++ Output.enq w.wid w.internal w.hasTimeout :: L2) =
      timedOutWids outs := by
    rw [timedOutWids_append, timedOutWids_cons_enq, hL3, List.append_nil]
  have he5 : resolvedWids
      (outs ++ Output.enq w.wid w.internal w.hasTimeout :: L2) =
      resolvedWids outs := by
    rw [resolvedWids, he3]
    rfl
  refine ⟨⟨A, B ++ [(w.wid, w.internal)], ?_, ?_, ?_⟩, ?_, ?_, ?_, ?_, ?_, ?_, ?_⟩
  · rw [he1, hAB, List.append_assoc]
  · rw [he3]
    exact hres
  · show (waiterPairs st').Sublist (B ++ [(w.wid, w.internal)])
    rw [waiterPairs, hw, List.map_append]
    exact List.Sublist.append hwait (List.Sublist.refl _)
  · intro w2 hw2
    rw [hw] at hw2
    rcases List.mem_append.mp hw2 with h2 | h2
    · exact List.mem_append_left _ (W2 w2 h2)
    · have hww : w2 = w := by simpa using h2
      subst hww
      exact List.mem_append_right _ (List.mem_cons_self _ _)
  · rw [he2, List.map_append, List.nodup_append]
    refine ⟨W3, by simp, ?_⟩
    intro x hx hx2
    have hx3 : x = w.wid := by simpa using hx2
    subst hx3
    obtain ⟨p, hp, hpe⟩ := List.mem_map.mp hx
    have h4 := W4 p hp
    rw [hpe, hwid] at h4
    exact absurd h4 (lt_irrefl _)
  · intro p hp
    rw [he2] at hp
    rw [hnw]
    rcases List.mem_append.mp hp with h2 | h2
    · exact Nat.lt_succ_of_lt (W4 p h2)
    · have hpp : p = (w.wid, w.internal, w.hasTimeout) := by simpa using h2
      subst hpp
      show w.wid < st.nextWid + 1
      rw [hwid]
      omega
  · intro x hx
    rw [he5] at hx
    rw [hnw]
    exact Nat.lt_succ_of_lt (W5 x hx)
  · intro x hx
    rw [he4] at hx
    rw [hnw]
    exact Nat.lt_succ_of_lt (W6 x hx)
  · intro wid hwid2
    rw [he4] at hwid2
    obtain ⟨p1, p2, p3⟩ := W7 wid hwid2
    refine ⟨?_, ?_, List.mem_append_left _ p3⟩
    · rw [he5]
      exact p1
    · show wid ∉ waiterWids st'
      rw [waiterWids, hw, List.map_append]
      intro hmem
      rcases List.mem_append.mp hmem with h2 | h2
      · exact p2 (by rw [waiterWids]; exact h2)
      · have hx3 : wid = w.wid := by simpa using h2
        have h6 := W6 wid hwid2
        rw [hx3, hwid] at h6
        exact absurd h6 (lt_irrefl _)
  · intro w2 hw2
    rw [hw] at hw2
    rcases List.mem_append.mp hw2 with h2 | h2
    · obtain ⟨p1, p2⟩ := W8 w2 h2
      constructor
      · rw [he5]
        exact p1
      · rw [he4]
        exact p2
    · have hww : w2 = w := by simpa using h2
      subst hww
      constructor
      · rw [he5]
        intro hmem
        have h5 := W5 _ hmem
        rw [hwid] at h5
        exact absurd h5 (lt_irrefl _)
      · rw [he4]
        intro hmem
        have h6 := W6 _ hmem
        rw [hwid] at h6
        exact absurd h6 (lt_irrefl _)

end YdbPool

namespace YdbPool

/-- Resolving a prefix of the waiter queue through useWaiterChain (release
hand-off or completed replacement creation) preserves the waiter trace
invariant: the resolved prefix moves from the queued part of the enqueue
order into the resolved part. -/
theorem waitTraceInv_chain {st st' : PoolState} {outs : List Output}
    (sid : Nat)
    (h7 : ∀ w ∈ st.waiters, w.wid < st.nextWid)
    (h8 : (waiterWids st).Nodup)
    (hW : WaitTraceInv st outs)
    (hw : st'.waiters = (useWaiterChain sid st.waiters).1)
    (hnw : st'.nextWid = st.nextWid)
    (L : List Output)
    (hL1 : enqPairs L = []) (hL3 : timedOutWids L = [])
    (hLf : enqFull L = [])
    (hL2 : resolvedPairs L =
      resolvedPairs (useWaiterChain sid st.waiters).2.1) :
    WaitTraceInv st' (outs ++ L) := by
  obtain ⟨⟨A, B, hAB, hres, hwait⟩, W2, W3, W4, W5, W6, W7, W8⟩ := hW
  obtain ⟨k, hk, hq1, hq2⟩ := uc_spec sid st.waiters
  have hL2' : resolvedPairs L =
      (st.waiters.take k).map (fun w2 => (w2.wid, w2.internal)) := by
    rw [hL2, hq2]
  have hwait2 : ((st.waiters.take k).map (fun w2 => (w2.wid, w2.internal)) ++
      (st.waiters.drop k).map (fun w2 => (w2.wid, w2.internal))).Sublist B := by
    rw [← List.map_append, List.take_append_drop]
    exact hwait
  obtain ⟨B1, B2, hB, hs1, hs2⟩ := List.append_sublist_iff.mp hwait2
  refine ⟨⟨A ++ B1, B2, ?_, ?_, ?_⟩, ?_, ?_, ?_, ?_, ?_, ?_, ?_⟩
  · rw [enqPairs_append, hL1, List.append_nil, hAB, hB, List.append_assoc]
  · rw [resolvedPairs_append, hL2']
    exact List.Sublist.append hres hs1
  · show (waiterPairs st').Sublist B2
    rw [waiterPairs, hw, hq1]
    exact hs2
  · intro w2 hw2
    rw [hw, hq1] at hw2
    exact List.mem_append_left _ (W2 w2 ((List.drop_sublist _ _).subset hw2))
  · rw [enqFull_append, hLf, List.append_nil]
    exact W3
  · intro p hp
    rw [enqFull_append, hLf, List.append_nil] at hp
    rw [hnw]
    exact W4 p hp
  · intro x hx
    rw [hnw]
    rw [resolvedWids, resolvedPairs_append, hL2', List.map_append] at hx
    rcases List.mem_append.mp hx with h2 | h2
    · exact W5 x (by rw [resolvedWids]; exact h2)
    · rw [List.map_map] at h2
      obtain ⟨w2, hw2, hwe⟩ := List.mem_map.mp h2
      rw [← hwe]
      exact h7 w2 ((List.take_sublist _ _).subset hw2)
  · intro x hx
    rw [timedOutWids_append, hL3, List.append_nil] at hx
    rw [hnw]
    exact W6 x hx
  · intro wid hwid2
    rw [timedOutWids_append, hL3, List.append_nil] at hwid2
    obtain ⟨p1, p2, p3⟩ := W7 wid hwid2
    refine ⟨?_, ?_, List.mem_append_left _ p3⟩
    · rw [resolvedWids, resolvedPairs_append, hL2', List.map_append]
      intro hmem
      rcases List.mem_append.mp hmem with h2 | h2
      · exact p1 (by rw [resolvedWids]; exact h2)
      · rw [List.map_map] at h2
        obtain ⟨w2, hw2, hwe⟩ := List.mem_map.mp h2
        apply p2
        rw [waiterWids]
        rw [← hwe]
        exact List.mem_map.mpr ⟨w2, (List.take_sublist _ _).subset hw2, rfl⟩
    · show wid ∉ waiterWids st'
      rw [waiterWids, hw, hq1]
      intro hmem
      apply p2
      rw [waiterWids]
      exact ((List.drop_sublist _ _).map _).subset hmem
  · intro w2 hw2
    rw [hw, hq1] at hw2
    obtain ⟨p1, p2⟩ := W8 w2 ((List.drop_sublist _ _).subset hw2)
    constructor
    · rw [resolvedWids, resolvedPairs_append, hL2', List.map_append]
      intro hmem
      rcases List.mem_append.mp hmem with h2 | h2
      · exact p1 (by rw [resolvedWids]; exact h2)
      · rw [List.map_map] at h2
        have hnd : ((st.waiters.take k).map (fun w3 => w3.wid) ++
            (st.waiters.drop k).map (fun w3 => w3.wid)).Nodup := by
          rw [← List.map_append, List.take_append_drop]
          exact h8
        have hdisj := (List.nodup_append.mp hnd).2.2
        exact hdisj h2 (List.mem_map.mpr ⟨w2, hw2, rfl⟩)
    · rw [timedOutWids_append, hL3, List.append_nil]
      exact p2

end YdbPool

namespace YdbPool

theorem timedOutWids_cons_t (a : Nat) (l : List Output) :
    timedOutWids (Output.timedOut a :: l) = a :: timedOutWids l := rfl

/-- Splicing the waiter with a given wid out of a queue with distinct wids
leaves no waiter carrying that wid. -/
theorem eraseP_wid_not_mem (wid : Nat) :
    ∀ (q : List Waiter), ((q.map (fun w => w.wid)).Nodup) →
      wid ∉ (q.eraseP (fun w2 => w2.wid = wid)).map (fun w => w.wid) := by
  intro q
  induction q with
  | nil =>
    intro h
    simp
  | cons a q ih =>
    intro hnd
    rw [List.map_cons, List.nodup_cons] at hnd
    obtain ⟨ha, hq⟩ := hnd
    by_cases hc : a.wid = wid
    · rw [List.eraseP_cons_of_pos]
      · intro hmem
        rw [← hc] at hmem
        exact ha hmem
      · simp [hc]
    · rw [List.eraseP_cons_of_neg]
      · rw [List.map_cons]
        intro hmem
        rcases List.mem_cons.mp hmem with h2 | h2
        · exact hc h2.symm
        · exact ih hq h2
      · simp [hc]

/-- Firing the timeout of a queued external waiter preserves the waiter
trace invariant: the waiter leaves the queue, its wid is recorded timed
out, and it can never appear as a resolution. -/
theorem waitTraceInv_timeout (st : PoolState) (outs : List Output) (wid : Nat)
    (w : Waiter) (hwmem : w ∈ st.waiters) (hwe : w.wid = wid)
    (hht : w.hasTimeout = true) (hwi : w.internal = false)
    (h7 : ∀ w2 ∈ st.waiters, w2.wid < st.nextWid)
    (h8 : (waiterWids st).Nodup)
    (hW : WaitTraceInv st outs) :
    WaitTraceInv
      { st with waiters := st.waiters.eraseP (fun w2 => w2.wid = wid) }
      (outs ++ [Output.timedOut wid]) := by
  obtain ⟨⟨A, B, hAB, hres, hwait⟩, W2, W3, W4, W5, W6, W7, W8⟩ := hW
  have herase : (st.waiters.eraseP (fun w2 => w2.wid = wid)).Sublist
      st.waiters := List.eraseP_sublist _
  have hTm : timedOutWids (outs ++ [Output.timedOut wid]) =
      timedOutWids outs ++ [wid] := by
    rw [timedOutWids_append]
    rfl
  have hRes : resolvedPairs (outs ++ [Output.timedOut wid]) =
      resolvedPairs outs := by
    rw [resolvedPairs_append,
      show resolvedPairs [Output.timedOut wid] = [] from rfl, List.append_nil]
  have hRw : resolvedWids (outs ++ [Output.timedOut wid]) =
      resolvedWids outs := by
    rw [resolvedWids, hRes]
    rfl
  have hEq : enqPairs (outs ++ [Output.timedOut wid]) = enqPairs outs := by
    rw [enqPairs_append,
      show enqPairs [Output.timedOut wid] = [] from rfl, List.append_nil]
  have hEf : enqFull (outs ++ [Output.timedOut wid]) = enqFull outs := by
    rw [enqFull_append,
      show enqFull [Output.timedOut wid] = [] from rfl, List.append_nil]
  have hnm := eraseP_wid_not_mem wid st.waiters h8
  refine ⟨⟨A, B, ?_, ?_, ?_⟩, ?_, ?_, ?_, ?_, ?_, ?_, ?_⟩
  · rw [hEq]
    exact hAB
  · rw [hRes]
    exact hres
  · show ((st.waiters.eraseP (fun w2 => w2.wid = wid)).map
      (fun w2 => (w2.wid, w2.internal))).Sublist B
    exact (herase.map _).trans hwait
  · intro w2 hw2
    exact List.mem_append_left _ (W2 w2 (herase.subset hw2))
  · rw [hEf]
    exact W3
  · intro p hp
    rw [hEf] at hp
    exact W4 p hp
  · intro x hx
    rw [hRw] at hx
    exact W5 x hx
  · intro x hx
    rw [hTm] at hx
    rcases List.mem_append.mp hx with h2 | h2
    · exact W6 x h2
    · have hx2 : x = wid := by simpa using h2
      subst hx2
      rw [← hwe]
      exact h7 w hwmem
  · intro wid2 hwid2
    rw [hTm] at hwid2
    rcases List.mem_append.mp hwid2 with h2 | h2
    · obtain ⟨p1, p2, p3⟩ := W7 wid2 h2
      refine ⟨?_, ?_, List.mem_append_left _ p3⟩
      · rw [hRw]
        exact p1
      · show wid2 ∉ waiterWids
          { st with waiters := st.waiters.eraseP (fun w2 => w2.wid = wid) }
        rw [waiterWids]
        intro hmem
        exact p2 ((herase.map _).subset hmem)
    · have hx2 : wid2 = wid := by simpa using h2
      obtain ⟨p1, p2⟩ := W8 w hwmem
      refine ⟨?_, ?_, ?_⟩
      · rw [hRw, hx2, ← hwe]
        exact p1
      · show wid2 ∉ waiterWids
          { st with waiters := st.waiters.eraseP (fun w2 => w2.wid = wid) }
        rw [waiterWids, hx2]
        exact hnm
      · have hlab := W2 w hwmem
        rw [hwe, hwi, hht, ← hx2] at hlab
        exact List.mem_append_left _ hlab
  · intro w2 hw2
    have hw2q : w2 ∈ st.waiters := herase.subset hw2
    obtain ⟨p1, p2⟩ := W8 w2 hw2q
    constructor
    · rw [hRw]
      exact p1
    · rw [hTm]
      intro hmem
      rcases List.mem_append.mp hmem with h2 | h2
      · exact p2 h2
      · have hx2 : w2.wid = wid := by simpa using h2
        exact hnm (List.mem_map.mpr ⟨w2, hw2, hx2⟩)

end YdbPool

namespace YdbPool

/-- deleteSession's synchronous part preserves the waiter trace invariant:
under the queue invariant no free session can exist while waiters pend, so
the replacement acquire never resolves a waiter synchronously; it either
changes nothing for the queue, requests a creation, or enqueues the
internal replacement waiter. -/
theorem waitTraceInv_dss (stX : PoolState) (sid : Nat) (outsX : List Output)
    (h7 : ∀ w ∈ stX.waiters, w.wid < stX.nextWid)
    (h8 : (waiterWids stX).Nodup)
    (h10 : stX.waiters ≠ [] → ∀ s ∈ stX.sessions, sessionIsFree s = false)
    (hW : WaitTraceInv stX outsX) :
    WaitTraceInv (deleteSessionStart stX sid).1
      (outsX ++ (deleteSessionStart stX sid).2) := by
  rcases deleteSessionStart_cases stX sid with heq | ⟨s, hf, hsm, hss, hsd, hsub⟩
  · rw [heq]
    exact waitTraceInv_ext hW rfl rfl rfl rfl rfl
  · rcases hsub with ⟨hwq, heq⟩ | ⟨t, hwq, hff, heq⟩ | ⟨hwq, hff, heq⟩ |
      ⟨hwq, hff, heq⟩
    · rw [heq]
      exact waitTraceInv_ext hW rfl rfl rfl rfl rfl
    · have hfree := List.find?_some hff
      rw [h10 hwq t (List.mem_of_find?_eq_some hff)] at hfree
      cases hfree
    · rw [heq]
      exact waitTraceInv_ext hW rfl rfl rfl rfl rfl
    · rw [heq]
      exact waitTraceInv_enq ⟨stX.nextWid, false, true⟩ hW rfl rfl rfl rfl rfl rfl

/-- One pool step preserves the waiter trace invariant. -/
theorem waitTraceInv_step (st : PoolState) (outs : List Output) (e : Ev)
    (hinv : PoolInv st) (hW : WaitTraceInv st outs) :
    WaitTraceInv (stepPool st e).1 (outs ++ (stepPool st e).2) := by
  have hinv' := hinv
  unfold PoolInv at hinv'
  obtain ⟨h1, h2, h3, h4, h5, h6, h7, h8, h9, h10⟩ := hinv'
  rcases stepPool_cases st e with heq |
    ⟨cid, ht, t, he, hff, heq⟩ | ⟨cid, ht, he, hff, hg, heq⟩ |
    ⟨cid, ht, he, hff, hg, heq⟩ | ⟨i, cid, he, hcd, heq⟩ |
    ⟨i, he, hcd, hwq, heq⟩ | ⟨i, he, hcd, hwq, heq⟩ | ⟨i, he, hlen, heq⟩ |
    ⟨sid, s, he, hf, hsm, hss, hb, hd, hc, heq⟩ |
    ⟨sid, s, he, hf, hsm, hss, hb, hd, hc, heq⟩ |
    ⟨sid, s, he, hf, hsm, hss, hb, hd, heq⟩ |
    ⟨sid, s, he, hf, hb, hd, heq⟩ | ⟨sid, he, hin, heq⟩ |
    ⟨wid, w, he, hfw, hwmem, hwe, hht, hwi, heq⟩
  · rw [heq]
    exact waitTraceInv_ext hW rfl rfl rfl rfl rfl
  · rw [heq]
    exact waitTraceInv_ext hW rfl rfl rfl rfl rfl
  · rw [heq]
    exact waitTraceInv_ext hW rfl rfl rfl rfl rfl
  · rw [heq]
    exact waitTraceInv_enq ⟨st.nextWid, ht, false⟩ hW rfl rfl rfl rfl rfl rfl
  · rw [heq]
    exact waitTraceInv_ext hW rfl rfl rfl rfl rfl
  · rw [heq]
    exact waitTraceInv_ext hW rfl rfl rfl rfl rfl
  · rw [heq]
    refine waitTraceInv_chain st.nextSid h7 h8 hW ?_ ?_
      (useWaiterChain st.nextSid st.waiters).2.1 (uc_enqPairs _ _)
      (uc_timedOut _ _) (uc_enqFull _ _) rfl
    · rfl
    · rfl
  · rw [heq]
    exact waitTraceInv_ext hW rfl rfl rfl rfl rfl
  · rw [heq]
    have hinvB := poolInv_setBusyFalse st sid s hinv hsm hss hc
    unfold PoolInv at hinvB
    obtain ⟨-, -, -, -, -, -, g7, g8, -, g10⟩ := hinvB
    have hWext : WaitTraceInv
        { st with sessions := setBusy st.sessions sid false }
        (outs ++ [Output.released sid]) :=
      waitTraceInv_ext hW rfl rfl rfl rfl rfl
    have hdss := waitTraceInv_dss
      { st with sessions := setBusy st.sessions sid false } sid
      (outs ++ [Output.released sid]) g7 g8 g10 hWext
    simpa [List.append_assoc] using hdss
  · rw [heq]
    refine waitTraceInv_chain sid h7 h8 hW ?_ ?_
      (Output.released sid :: (useWaiterChain sid st.waiters).2.1)
      (uc_enqPairs _ _) (uc_timedOut _ _) (uc_enqFull _ _)
      (resolvedPairs_cons_rel _ _)
    · rfl
    · rfl
  · rw [heq]
    exact waitTraceInv_dss st sid outs h7 h8 h10 hW
  · rw [heq]
    exact waitTraceInv_ext hW rfl rfl rfl rfl rfl
  · rw [heq]
    exact waitTraceInv_ext hW rfl rfl rfl rfl rfl
  · rw [heq]
    exact waitTraceInv_timeout st outs wid w hwmem hwe hht hwi h7 h8 hW

end YdbPool

namespace YdbPool

theorem waitTraceInv_init (m : Nat) : WaitTraceInv (initPool m) [] := by
  refine ⟨⟨[], [], rfl, ?_, ?_⟩, ?_, ?_, ?_, ?_, ?_, ?_, ?_⟩
  · exact List.Sublist.refl _
  · show (waiterPairs (initPool m)).Sublist []
    rw [waiterPairs]
    exact List.Sublist.refl _
  · intro w hw
    cases hw
  · show (([] : List (Nat × Bool × Bool)).map (fun p => p.1)).Nodup
    simp
  · intro p hp
    cases hp
  · intro x hx
    cases hx
  · intro x hx
    cases hx
  · intro wid hwid
    cases hwid
  · intro w hw
    cases hw

theorem waitTraceInv_run (m : Nat) (es : List Ev) :
    WaitTraceInv (runPool (initPool m) es).1 (runPool (initPool m) es).2 := by
  have h := runPool_preserve WaitTraceInv
    (fun st outs e hinv hP => waitTraceInv_step st outs e hinv hP)
    es (initPool m) [] (poolInv_initPool m) (waitTraceInv_init m)
  simpa using h

/-- C6: along every run of the pool, the waiters resolved by hand-outs
form, in resolution order, a sublist of the enqueue order — both for the
external waiters (queued acquire callers) and for the full queue including
deleteSession's internal replacement waiters — so freed sessions always go
to the longest-waiting queued caller still present and enqueue order is
preserved. -/
theorem C6_fifo_fairness (m : Nat) (es : List Ev) :
    (extResolvedWids (runPool (initPool m) es).2).Sublist
      (extEnqWids (runPool (initPool m) es).2) ∧
    (resolvedPairs (runPool (initPool m) es).2).Sublist
      (enqPairs (runPool (initPool m) es).2) := by
  obtain ⟨⟨A, B, hAB, hres, hwait⟩, -, -, -, -, -, -, -⟩ := waitTraceInv_run m es
  have h2 : (resolvedPairs (runPool (initPool m) es).2).Sublist
      (enqPairs (runPool (initPool m) es).2) := by
    rw [hAB]
    exact hres.trans (List.sublist_append_left A B)
  refine ⟨?_, h2⟩
  rw [extResolvedWids, extEnqWids]
  exact (h2.filter _).map _

/-- C7: a waiter whose timeout fired is spliced out and its acquire call
rejected: its wid is never a resolution, it carries an enqueue label with
timeout armed (so a timeout = 0 waiter never times out), it is no longer
in the queue at the end of the run, and no enqueue without a timeout ever
used that wid. -/
theorem C7_timeout_cleanup (m : Nat) (es : List Ev) (wid : Nat)
    (h : wid ∈ timedOutWids (runPool (initPool m) es).2) :
    wid ∉ resolvedWids (runPool (initPool m) es).2 ∧
    Output.enq wid false true ∈ (runPool (initPool m) es).2 ∧
    wid ∉ waiterWids (runPool (initPool m) es).1 ∧
    Output.enq wid false false ∉ (runPool (initPool m) es).2 := by
  obtain ⟨-, -, W3, -, -, -, W7, -⟩ := waitTraceInv_run m es
  obtain ⟨p1, p2, p3⟩ := W7 wid h
  refine ⟨p1, p3, p2, ?_⟩
  intro hmem
  have e1 : ((wid, false, true) : Nat × Bool × Bool) ∈
      enqFull (runPool (initPool m) es).2 :=
    List.mem_filterMap.mpr ⟨_, p3, rfl⟩
  have e2 : ((wid, false, false) : Nat × Bool × Bool) ∈
      enqFull (runPool (initPool m) es).2 :=
    List.mem_filterMap.mpr ⟨_, hmem, rfl⟩
  have heq := List.inj_on_of_nodup_map W3 e1 e2 rfl
  simp at heq

theorem C7_timeout_cleanup_witness :
    0 ∈ timedOutWids (runPool (initPool 0)
      [Ev.acquireStart 1 false, Ev.acquireStart 2 true, Ev.timeoutFire 0]).2 ∧
    0 ∉ resolvedWids (runPool (initPool 0)
      [Ev.acquireStart 1 false, Ev.acquireStart 2 true, Ev.timeoutFire 0]).2 ∧
    Output.enq 0 false true ∈ (runPool (initPool 0)
      [Ev.acquireStart 1 false, Ev.acquireStart 2 true, Ev.timeoutFire 0]).2 ∧
    0 ∉ waiterWids (runPool (initPool 0)
      [Ev.acquireStart 1 false, Ev.acquireStart 2 true, Ev.timeoutFire 0]).1 ∧
    Output.enq 0 false false ∉ (runPool (initPool 0)
      [Ev.acquireStart 1 false, Ev.acquireStart 2 true, Ev.timeoutFire 0]).2 := by
  have h := C7_timeout_cleanup 0
    [Ev.acquireStart 1 false, Ev.acquireStart 2 true, Ev.timeoutFire 0] 0
    (by decide)
  exact ⟨by decide, h.1, h.2.1, h.2.2.1, h.2.2.2⟩

end YdbPool
